import Mathlib

/-!
# gocat: the hashcat option marshaling engine (package hcargp)

A shallow embedding of src/hcargp/gocat_hashcat_options.go: the option table
HashcatSessionOptions, parseTag, MarshalArgs, ParseOptions and isFlagPassed,
together with the parts of the Go standard library they call (strings, strconv,
unicode.IsSpace, flag.FlagSet, reflect).

Conventions of the embedding
* A Go string is a Lean String, handled through its list of characters. Go
  indexes strings by byte; every index test of the embedded code compares with
  an ASCII byte, so the character-level reading gives the same answers. Strings
  that are not valid UTF-8 are not represented.
* A Go int is a 64-bit integer (GoInt), unsigned 64-bit arithmetic of strconv is
  written with an explicit remainder by 2^64.
* A struct seen through reflect is the list of its field values in declaration
  order next to the list of its field descriptors (name, tag, type).
* A Go function with results (x, err) returns the pair; a nil pointer or a nil
  error is none. A panic that leaves the function is an Outcome.panicked.
-/

namespace hcargp

/-! ## Go values as reflect sees them -/

/-- Go int on a 64-bit platform. -/
abbrev GoInt := { n : Int // -9223372036854775808 ≤ n ∧ n ≤ 9223372036854775807 }

/-- Conversion int64(z) of an integer: wraps modulo 2^64. -/
def GoInt.wrap (z : Int) : GoInt :=
  ⟨(z + 9223372036854775808) % 18446744073709551616 - 9223372036854775808, by omega⟩

/-- Types of struct fields: bool, int, string, a pointer, or a type of any other kind
(named by its reflect.Kind). -/
inductive GoType where
  | bool
  | int
  | string
  | other (kind : String)
  | ptr (elem : GoType)
  deriving DecidableEq, Repr

/-- A field value: a bool, an int, a string, a value of another kind, a nil pointer or
a pointer to a value. -/
inductive Value where
  | bool (b : Bool)
  | int (n : GoInt)
  | string (s : String)
  | other (kind : String)
  | nilPtr
  | ptr (target : Value)
  deriving DecidableEq, Repr

/-- Whether a value inhabits a type. -/
def Value.hasType : Value → GoType → Bool
  | .bool _, .bool => true
  | .int _, .int => true
  | .string _, .string => true
  | .other k, .other k' => k == k'
  | .nilPtr, .ptr _ => true
  | .ptr v, .ptr t => v.hasType t
  | _, _ => false

/-- The zero value of a type (reflect.Zero). -/
def GoType.zero : GoType → Value
  | .bool => .bool false
  | .int => .int ⟨0, by decide⟩
  | .string => .string ""
  | .other k => .other k
  | .ptr _ => .nilPtr

/-- The name of a value's reflect.Kind, as printed by the verb %s. -/
def Value.kindName : Value → String
  | .bool _ => "bool"
  | .int _ => "int"
  | .string _ => "string"
  | .other k => k
  | .nilPtr => "ptr"
  | .ptr _ => "ptr"

/-- Test val.Type().Kind() == reflect.Ptr. -/
def Value.isPtrKind : Value → Bool
  | .nilPtr => true
  | .ptr _ => true
  | _ => false

/-- Method val.IsNil() of a pointer value. -/
def Value.IsNil : Value → Bool
  | .nilPtr => true
  | _ => false

/-- One field of a struct type: its Go name, the value of its hashcat tag ("" when the
field has none) and its type. -/
structure StructField where
  name : String
  tag : String
  type : GoType
  deriving DecidableEq, Repr

/-- The result of a call that may panic. -/
inductive Outcome (α : Type) where
  | returned (a : α)
  | panicked (msg : String)
  deriving DecidableEq, Repr

/-- GetStringPtr returns the pointer of s. -/
def GetStringPtr (s : String) : Value := .ptr (.string s)

/-- GetIntPtr returns the pointer of i. -/
def GetIntPtr (i : GoInt) : Value := .ptr (.int i)

/-- GetBoolPtr returns the pointer of b. -/
def GetBoolPtr (b : Bool) : Value := .ptr (.bool b)

/-! ## package strings -/

namespace strings

/-- First index at which sep occurs in the rest of the text, counted from i. -/
def indexFrom (sep : List Char) : List Char → Nat → Option Nat
  | [], i => if sep = [] then some i else none
  | c :: cs, i => if sep.isPrefixOf (c :: cs) then some i else indexFrom sep cs (i + 1)

/-- Index(s, substr): the index of the first instance of substr in s; none stands for -1. -/
def Index (s substr : String) : Option Nat := indexFrom substr.data s.data 0

/-- Contains(s, substr) reports whether substr is within s. -/
def Contains (s substr : String) : Bool := (Index s substr).isSome

/-- HasPrefix(s, p). -/
def HasPrefix (s p : String) : Bool := p.data.isPrefixOf s.data

/-- TrimPrefix(s, p): s without the leading p, or s itself when it does not start with p. -/
def TrimPrefix (s p : String) : String :=
  if HasPrefix s p then String.mk (s.data.drop p.data.length) else s

/-- The loop of Split: skip counts the characters of a separator still to be passed over,
cur is the piece being collected. -/
def splitFrom (sep : List Char) : List Char → Nat → List Char → List String
  | [], _, cur => [String.mk cur]
  | _ :: cs, skip + 1, cur => splitFrom sep cs skip cur
  | c :: cs, 0, cur =>
    if sep.isPrefixOf (c :: cs) then String.mk cur :: splitFrom sep cs (sep.length - 1) []
    else splitFrom sep cs 0 (cur ++ [c])

/-- Split(s, sep): the pieces of s between the instances of sep; with an empty sep, the
characters of s. -/
def Split (s sep : String) : List String :=
  if sep.data = [] then s.data.map (fun c => String.mk [c]) else splitFrom sep.data s.data 0 []

/-- Join(elems, sep). -/
def Join : List String → String → String
  | [], _ => ""
  | [a], _ => a
  | a :: b :: rest, sep => a ++ sep ++ Join (b :: rest) sep

end strings

/-! ## package unicode -/

namespace unicode

/-- IsSpace(r): the white space of Unicode's White_Space property. -/
def IsSpace (r : Char) : Bool :=
  let n := r.toNat
  (9 ≤ n && n ≤ 13) || n = 32 || n = 133 || n = 160 || n = 5760 ||
  (8192 ≤ n && n ≤ 8202) || n = 8232 || n = 8233 || n = 8239 || n = 8287 || n = 12288

end unicode

namespace strings

/-- The loop of Fields: cur is the field being collected. -/
def fieldsFrom : List Char → List Char → List String
  | [], cur => if cur = [] then [] else [String.mk cur]
  | c :: cs, cur =>
    if unicode.IsSpace c then
      (if cur = [] then fieldsFrom cs [] else String.mk cur :: fieldsFrom cs [])
    else fieldsFrom cs (cur ++ [c])

/-- Fields(s): s split around each run of white space; empty when s is only white space. -/
def Fields (s : String) : List String := fieldsFrom s.data []

end strings

/-! ## The option table -/

/-- The fields of the struct type HashcatSessionOptions, in declaration order. -/
def optionFields : List StructField := [
  StructField.mk "HashType" "--hash-type,omitempty" (GoType.ptr GoType.int),
  StructField.mk "AttackMode" "--attack-mode,omitempty" (GoType.ptr GoType.int),
  StructField.mk "IsHexCharset" "--hex-charset,omitempty" (GoType.ptr GoType.bool),
  StructField.mk "IsHexSalt" "--hex-salt,omitempty" (GoType.ptr GoType.bool),
  StructField.mk "IsHexWordlist" "--hex-wordlist,omitempty" (GoType.ptr GoType.bool),
  StructField.mk "KeepGuessing" "--keep-guessing,omitempty" (GoType.ptr GoType.bool),
  StructField.mk "Loopback" "--loopback,omitempty" (GoType.ptr GoType.bool),
  StructField.mk "WeakHashThreshold" "--weak-hash-threshold,omitempty" (GoType.ptr GoType.int),
  StructField.mk "MarkovHCStat" "--markov-hcstat,omitempty" (GoType.ptr GoType.string),
  StructField.mk "DisableMarkov" "--markov-disable,omitempty" (GoType.ptr GoType.bool),
  StructField.mk "EnableClassicMarkov" "--markov-classic,omitempty" (GoType.ptr GoType.bool),
  StructField.mk "MarkovThreshold" "--markov-threshold,omitempty" (GoType.ptr GoType.int),
  StructField.mk "Force" "--force,omitempty" (GoType.ptr GoType.bool),
  StructField.mk "MaxRuntimeSeconds" "--runtime,omitempty" (GoType.ptr GoType.int),
  StructField.mk "SessionName" "--session,omitempty" (GoType.ptr GoType.string),
  StructField.mk "RestoreSession" "--restore,omitempty" (GoType.ptr GoType.bool),
  StructField.mk "DisableRestore" "--restore-disable,omitempty" (GoType.ptr GoType.bool),
  StructField.mk "RestoreFilePath" "--restore-file-path,omitempty" (GoType.ptr GoType.string),
  StructField.mk "OutfilePath" "--outfile,omitempty" (GoType.ptr GoType.string),
  StructField.mk "OutfileFormat" "--outfile-format,omitempty" (GoType.ptr GoType.int),
  StructField.mk "OutfileDisableAutoHex" "--outfile-autohex-disable,omitempty" (GoType.ptr GoType.bool),
  StructField.mk "OutfileCheckTimer" "--outfile-check-timer,omitempty" (GoType.ptr GoType.int),
  StructField.mk "Separator" "--separator,omitempty" (GoType.ptr GoType.string),
  StructField.mk "IgnoreUsername" "--username,omitempty" (GoType.ptr GoType.bool),
  StructField.mk "RemoveCrackedHash" "--remove,omitempty" (GoType.ptr GoType.bool),
  StructField.mk "RemoveCrackedHashTimer" "--remove-timer,omitempty" (GoType.ptr GoType.int),
  StructField.mk "PotfileDisable" "--potfile-disable,omitempty" (GoType.ptr GoType.bool),
  StructField.mk "PotfilePath" "--potfile-path,omitempty" (GoType.ptr GoType.string),
  StructField.mk "EncodingFrom" "--encoding-from,omitempty" (GoType.ptr GoType.string),
  StructField.mk "EncodingTo" "--encoding-to,omitempty" (GoType.ptr GoType.string),
  StructField.mk "DebugMode" "--debug-mode,omitempty" (GoType.ptr GoType.int),
  StructField.mk "DebugFile" "--debug-file,omitempty" (GoType.ptr GoType.string),
  StructField.mk "InductionDir" "--induction-dir,omitempty" (GoType.ptr GoType.string),
  StructField.mk "LogfileDisable" "--logfile-disable,omitempty" (GoType.ptr GoType.bool),
  StructField.mk "HccapxMessagePair" "--hccapx-message-pair,omitempty" (GoType.ptr GoType.string),
  StructField.mk "NonceErrorCorrections" "--nonce-error-corrections,omitempty" (GoType.ptr GoType.int),
  StructField.mk "TrueCryptKeyFiles" "--truecrypt-keyfiles,omitempty" (GoType.ptr GoType.string),
  StructField.mk "VeraCryptKeyFiles" "--veracrypt-keyfiles,omitempty" (GoType.ptr GoType.string),
  StructField.mk "VeraCryptPIM" "--veracrypt-pim,omitempty" (GoType.ptr GoType.int),
  StructField.mk "VeraCryptPIMStart" "--veracrypt-pim-start,omitempty" (GoType.ptr GoType.int),
  StructField.mk "VeraCryptPIMStop" "--veracrypt-pim-stop,omitempty" (GoType.ptr GoType.int),
  StructField.mk "SegmentSize" "--segment-size,omitempty" (GoType.ptr GoType.int),
  StructField.mk "BitmapMin" "--bitmap-min,omitempty" (GoType.ptr GoType.int),
  StructField.mk "BitmapMax" "--bitmap-max,omitempty" (GoType.ptr GoType.int),
  StructField.mk "CPUAffinity" "--cpu-affinity,omitempty" (GoType.ptr GoType.string),
  StructField.mk "HookThreads" "--hook-threads,omitempty" (GoType.ptr GoType.int),
  StructField.mk "BackendIgnoreCUDA" "--backend-ignore-cuda,omitempty" (GoType.ptr GoType.bool),
  StructField.mk "BackendIgnoreOpenCL" "--backend-ignore-opencl,omitempty" (GoType.ptr GoType.bool),
  StructField.mk "BackendDevices" "--backend-devices,omitempty" (GoType.ptr GoType.string),
  StructField.mk "OpenCLDeviceTypes" "--opencl-device-types,omitempty" (GoType.ptr GoType.string),
  StructField.mk "OptimizedKernelEnabled" "--optimized-kernel-enable,omitempty" (GoType.ptr GoType.bool),
  StructField.mk "WorkloadProfile" "--workload-profile,omitempty" (GoType.ptr GoType.int),
  StructField.mk "KernelAccel" "--kernel-accel,omitempty" (GoType.ptr GoType.int),
  StructField.mk "KernelLoops" "--kernel-loops,omitempty" (GoType.ptr GoType.int),
  StructField.mk "SpinDamp" "--spin-damp,omitempty" (GoType.ptr GoType.int),
  StructField.mk "HWMonitorDisable" "--hwmon-disable,omitempty" (GoType.ptr GoType.bool),
  StructField.mk "HWMonitorTempAbort" "--hwmon-temp-abort,omitempty" (GoType.ptr GoType.int),
  StructField.mk "ScryptTMTO" "--scrypt-tmto,omitempty" (GoType.ptr GoType.int),
  StructField.mk "Skip" "--skip,omitempty" (GoType.ptr GoType.int),
  StructField.mk "Limit" "--limit,omitempty" (GoType.ptr GoType.int),
  StructField.mk "RuleLeft" "--rule-left,omitempty" (GoType.ptr GoType.string),
  StructField.mk "RuleRight" "--rule-right,omitempty" (GoType.ptr GoType.string),
  StructField.mk "RulesFile" "--rules-file,omitempty" (GoType.ptr GoType.string),
  StructField.mk "GenerateRules" "--generate-rules,omitempty" (GoType.ptr GoType.int),
  StructField.mk "GenerateRulesFuncMin" "--generate-rules-func-min,omitempty" (GoType.ptr GoType.int),
  StructField.mk "GenerateRulesFuncMax" "--generate-rules-func-max,omitempty" (GoType.ptr GoType.int),
  StructField.mk "GenerateRulesSeed" "--generate-rules-seed,omitempty" (GoType.ptr GoType.int),
  StructField.mk "CustomCharset1" "--custom-charset1,omitempty" (GoType.ptr GoType.string),
  StructField.mk "CustomCharset2" "--custom-charset2,omitempty" (GoType.ptr GoType.string),
  StructField.mk "CustomCharset3" "--custom-charset3,omitempty" (GoType.ptr GoType.string),
  StructField.mk "CustomCharset4" "--custom-charset4,omitempty" (GoType.ptr GoType.string),
  StructField.mk "IncrementMask" "--increment,omitempty" (GoType.ptr GoType.bool),
  StructField.mk "IncrementMaskMin" "--increment-min,omitempty" (GoType.ptr GoType.int),
  StructField.mk "IncrementMaskMax" "--increment-max,omitempty" (GoType.ptr GoType.int),
  StructField.mk "Identify" "--identify,omitempty" (GoType.ptr GoType.bool),
  StructField.mk "EnableDeprecated" "--deprecated-check-disable,omitempty" (GoType.ptr GoType.bool),
  StructField.mk "InputFile" "," GoType.string,
  StructField.mk "DictionaryMaskDirectoryInput" ",omitempty" (GoType.ptr GoType.string)]

/-- Whether a list of values is a value of the struct type with the given fields. -/
def typeCheck : List StructField → List Value → Bool
  | [], [] => true
  | f :: fs, v :: vs => v.hasType f.type && typeCheck fs vs
  | _, _ => false

/-- A value of the struct type HashcatSessionOptions: one value per declared field, in
declaration order, each of its field's type. -/
structure HashcatSessionOptions where
  values : List Value
  typed : typeCheck optionFields values = true
  deriving DecidableEq

/-- The composite literal HashcatSessionOptions{}: every field has its zero value. -/
def HashcatSessionOptions.empty : HashcatSessionOptions :=
  ⟨optionFields.map (fun f => f.type.zero), by decide⟩

/-- The value of the field with the given Go name. -/
def HashcatSessionOptions.get (o : HashcatSessionOptions) (fieldName : String) : Option Value :=
  ((optionFields.zip o.values).find? (fun p => p.1.name == fieldName)).map
    (fun p => p.2)

/-- The struct made of the given field values; none when they do not fit the declared
types. -/
def HashcatSessionOptions.ofValues? (vs : List Value) : Option HashcatSessionOptions :=
  if h : typeCheck optionFields vs = true then some ⟨vs, h⟩ else none

/-- The fields of a struct value as reflect enumerates them: descriptor and value. -/
def HashcatSessionOptions.reflect (o : HashcatSessionOptions) : List (StructField × Value) :=
  optionFields.zip o.values

/-! ## parseTag and MarshalArgs -/

/-- Function parseTag: the tag split at its first comma. Without a comma the named result
tag is returned unassigned, which is the empty string. -/
def parseTag (t : String) : String × String :=
  match strings.Index t "," with
  | some idx => (String.mk (t.data.take idx), String.mk (t.data.drop (idx + 1)))
  | none => ("", "")

/-- The loop body of MarshalArgs over the remaining fields, args being the arguments
collected so far. The result is (args, err). -/
def marshalLoop : List (StructField × Value) → List String → List String × Option String
  | [], args => (args, none)
  | (f, val) :: rest, args =>
    if f.tag = "" then marshalLoop rest args
    else
      let name := (parseTag f.tag).1
      let opts := (parseTag f.tag).2
      let hasOmitEmpty := strings.Contains opts "omitempty"
      if (val.isPtrKind && val.IsNil) && hasOmitEmpty then marshalLoop rest args
      else
        match val with
        | .nilPtr =>
          -- reflect.Indirect gives the invalid Value; val.Type() panics with a
          -- *reflect.ValueError, which the deferred function turns into err
          (args, some "reflect: call of reflect.Value.Type on zero Value")
        | .ptr (.bool b) | .bool b =>
          if b then marshalLoop rest (args ++ [name]) else marshalLoop rest args
        | .ptr (.int n) | .int n =>
          if name ≠ "" then marshalLoop rest (args ++ [name ++ "=" ++ toString n.val])
          else marshalLoop rest args
        | .ptr (.string s) | .string s =>
          if s = "" then marshalLoop rest args
          else if name ≠ "" then marshalLoop rest (args ++ [name ++ "=" ++ s])
          else marshalLoop rest (args ++ [s])
        | .ptr v => (args, some ("unknown type " ++ v.kindName))
        | .other k => (args, some ("unknown type " ++ k))

/-- Method MarshalArgs: the list of arguments set by the user, and err. -/
def HashcatSessionOptions.MarshalArgs (o : HashcatSessionOptions) : List String × Option String :=
  marshalLoop o.reflect []

/-! ## package strconv -/

namespace strconv

/-- The error kinds of strconv: ErrSyntax and ErrRange. -/
inductive NumError where
  | ErrSyntax
  | ErrRange
  deriving DecidableEq, Repr

/-- Function lower(c) = c | ('x' - 'X'), on the code of the character. -/
def lower (c : Char) : Nat := c.toNat ||| 32

/-- The loop of underscoreOK: i is the class of the last character seen ('^' beginning,
'0' digit or base prefix, '_' underscore, '!' other). -/
def underscoreLoop (hex : Bool) : List Char → Char → Bool
  | [], i => i != '_'
  | c :: cs, i =>
    if ('0'.toNat ≤ c.toNat && c.toNat ≤ '9'.toNat) ||
        (hex && 'a'.toNat ≤ lower c && lower c ≤ 'f'.toNat) then underscoreLoop hex cs '0'
    else if c = '_' then (if i != '0' then false else underscoreLoop hex cs '_')
    else if i = '_' then false
    else underscoreLoop hex cs '!'

/-- Function underscoreOK(s): underscores appear only between digits or after the base
prefix. -/
def underscoreOK (s : List Char) : Bool :=
  let s1 := match s with
    | c :: cs => if c = '-' || c = '+' then cs else s
    | [] => s
  match s1 with
  | c0 :: c1 :: cs =>
    if c0 = '0' && (lower c1 = 'b'.toNat || lower c1 = 'o'.toNat || lower c1 = 'x'.toNat) then
      underscoreLoop (lower c1 = 'x'.toNat) cs '0'
    else underscoreLoop false s1 '^'
  | _ => underscoreLoop false s1 '^'

/-- The digit loop of ParseUint: n is the value read so far (a uint64). -/
def uintLoop (s0 : List Char) (base : Nat) (base0 : Bool) (cutoff maxVal : Nat) :
    List Char → Nat → Bool → Nat × Option NumError
  | [], n, underscores =>
    if underscores && !underscoreOK s0 then (0, some .ErrSyntax) else (n, none)
  | c :: cs, n, underscores =>
    if c = '_' && base0 then uintLoop s0 base base0 cutoff maxVal cs n true
    else
      let d? : Option Nat :=
        if '0'.toNat ≤ c.toNat && c.toNat ≤ '9'.toNat then some (c.toNat - '0'.toNat)
        else if 'a'.toNat ≤ lower c && lower c ≤ 'z'.toNat then some (lower c - 'a'.toNat + 10)
        else none
      match d? with
      | none => (0, some .ErrSyntax)
      | some d =>
        if d ≥ base then (0, some .ErrSyntax)
        else if n ≥ cutoff then (maxVal, some .ErrRange)
        else
          let n' := (n * base) % 18446744073709551616
          let n1 := (n' + d) % 18446744073709551616
          if n1 < n' || n1 > maxVal then (maxVal, some .ErrRange)
          else uintLoop s0 base base0 cutoff maxVal cs n1 underscores

/-- ParseUint(s, base, bitSize) for base 0 or 2..36 and bitSize 1..64. -/
def ParseUint (s : String) (base : Nat) (bitSize : Nat) : Nat × Option NumError :=
  if s.data = [] then (0, some .ErrSyntax)
  else
    let base0 := base == 0
    let maxVal := 2 ^ bitSize - 1
    if 2 ≤ base && base ≤ 36 then
      uintLoop s.data base base0 (18446744073709551615 / base + 1) maxVal s.data 0 false
    else if base == 0 then
      match s.data with
      | '0' :: c1 :: c2 :: cs =>
        if lower c1 = 'b'.toNat then
          uintLoop s.data 2 base0 (18446744073709551615 / 2 + 1) maxVal (c2 :: cs) 0 false
        else if lower c1 = 'o'.toNat then
          uintLoop s.data 8 base0 (18446744073709551615 / 8 + 1) maxVal (c2 :: cs) 0 false
        else if lower c1 = 'x'.toNat then
          uintLoop s.data 16 base0 (18446744073709551615 / 16 + 1) maxVal (c2 :: cs) 0 false
        else uintLoop s.data 8 base0 (18446744073709551615 / 8 + 1) maxVal (c1 :: c2 :: cs) 0 false
      | '0' :: cs => uintLoop s.data 8 base0 (18446744073709551615 / 8 + 1) maxVal cs 0 false
      | cs => uintLoop s.data 10 base0 (18446744073709551615 / 10 + 1) maxVal cs 0 false
    else (0, some .ErrSyntax)

/-- ParseInt(s, base, bitSize) for bitSize 64: the value and the error. -/
def ParseInt (s : String) (base : Nat) (bitSize : Nat) : GoInt × Option NumError :=
  match s.data with
  | [] => (GoInt.wrap 0, some .ErrSyntax)
  | c :: cs =>
    let neg := c == '-'
    let s1 := if c = '+' then String.mk cs else if c = '-' then String.mk cs else s
    let r := ParseUint s1 base bitSize
    let un := r.1
    if r.2 = some .ErrSyntax then (GoInt.wrap 0, some .ErrSyntax)
    else
      let cutoff := 2 ^ (bitSize - 1)
      if !neg && un ≥ cutoff then (GoInt.wrap (cutoff - 1 : Nat), some .ErrRange)
      else if neg && un > cutoff then (GoInt.wrap (-(cutoff : Int)), some .ErrRange)
      else
        let n := GoInt.wrap un
        (if neg then GoInt.wrap (-n.val) else n, none)

/-- ParseBool(str). -/
def ParseBool (str : String) : Bool × Option NumError :=
  if str = "1" ∨ str = "t" ∨ str = "T" ∨ str = "true" ∨ str = "TRUE" ∨ str = "True" then
    (true, none)
  else if str = "0" ∨ str = "f" ∨ str = "F" ∨ str = "false" ∨ str = "FALSE" ∨ str = "False" then
    (false, none)
  else (false, some .ErrSyntax)

end strconv

/-! ## package flag -/

namespace flag

/-- The flag values created by FlagSet.Int, FlagSet.Bool and FlagSet.String: the cell the
returned pointer points to. -/
inductive Value where
  | intValue (n : GoInt)
  | boolValue (b : Bool)
  | stringValue (s : String)
  deriving DecidableEq, Repr

/-- Method Set of a flag value: the cell after the call (it is written also when the text
does not parse) and the error. -/
def Value.Set : Value → String → Value × Option String
  | .intValue _, s =>
    let r := strconv.ParseInt s 0 64
    (.intValue r.1, r.2.map (fun _ => "parse error"))
  | .boolValue _, s =>
    let r := strconv.ParseBool s
    (.boolValue r.1, r.2.map (fun _ => "parse error"))
  | .stringValue _, s => (.stringValue s, none)

/-- Method IsBoolFlag: only a boolean flag needs no argument. -/
def Value.IsBoolFlag : Value → Bool
  | .boolValue _ => true
  | _ => false

/-- The value a pointer to the cell points to. -/
def Value.deref : Value → hcargp.Value
  | .intValue n => .int n
  | .boolValue b => .bool b
  | .stringValue s => .string s

/-- A FlagSet: the defined flags with their cells (formal), the names of the flags that
were set (actual) and the arguments still to be read (args). -/
structure FlagSet where
  formal : List (String × Value)
  actual : List String
  args : List String
  deriving DecidableEq, Repr

/-- NewFlagSet(name, ContinueOnError), with output discarded. -/
def NewFlagSet : FlagSet := ⟨[], [], []⟩

/-- Map access f.formal[name]. -/
def FlagSet.lookup (f : FlagSet) (name : String) : Option Value :=
  (f.formal.find? (fun p => p.1 == name)).map (fun p => p.2)

/-- The defined flags after v is stored in the cell of the flag called name. -/
def storeIn : List (String × Value) → String → Value → List (String × Value)
  | [], _, _ => []
  | p :: rest, name, v => if p.1 == name then (p.1, v) :: rest else p :: storeIn rest name v

/-- Store v in the cell of the flag called name. -/
def FlagSet.store (f : FlagSet) (name : String) (v : Value) : FlagSet :=
  { f with formal := storeIn f.formal name v }

/-- The type of the value in a cell. -/
def Value.cellType : Value → GoType
  | .intValue _ => GoType.int
  | .boolValue _ => GoType.bool
  | .stringValue _ => GoType.string

/-- Method Var: define a flag. It panics when the name begins with "-", contains "=" or
is already defined. -/
def FlagSet.Var (f : FlagSet) (value : Value) (name : String) : Outcome FlagSet :=
  if strings.HasPrefix name "-" then .panicked ("flag " ++ name ++ " begins with -")
  else if strings.Contains name "=" then .panicked ("flag " ++ name ++ " contains =")
  else if (f.lookup name).isSome then .panicked ("flag redefined: " ++ name)
  else .returned { f with formal := f.formal ++ [(name, value)] }

/-- The split of a flag token at its first equals sign, which cannot be the first
character: (name, hasValue, value). -/
def splitNameValue : List Char → List Char × Bool × List Char
  | [] => ([], false, [])
  | c :: cs =>
    match cs.dropWhile (fun x => x != '=') with
    | [] => (c :: cs, false, [])
    | _ :: value => (c :: cs.takeWhile (fun x => x != '='), true, value)

/-- The flag set after a flag was set: the value is in its cell and its name is among the
names of the flags that were set. -/
def FlagSet.assign (f : FlagSet) (rest : List String) (name : String) (v : Value) : FlagSet :=
  { formal := storeIn f.formal name v
    actual := if f.actual.contains name then f.actual else f.actual ++ [name]
    args := rest }

/-- The second half of parseOne ("it's a flag. does it have an argument?"): body is the
token without its dashes, f the flag set with the token already taken off its arguments. -/
def FlagSet.parseFlag (f : FlagSet) (body : List Char) : FlagSet × Bool × Option String :=
  let name := String.mk (splitNameValue body).1
  let hasValue := (splitNameValue body).2.1
  let value := String.mk (splitNameValue body).2.2
  match f.lookup name with
  | none =>
    if name = "help" ∨ name = "h" then (f, false, some "flag: help requested")
    else (f, false, some ("flag provided but not defined: -" ++ name))
  | some fv =>
    if fv.IsBoolFlag then
      let r := fv.Set (if hasValue then value else "true")
      match r.2 with
      | some _ => (f.store name r.1, false, some ("invalid boolean value for -" ++ name))
      | none => (f.assign f.args name r.1, true, none)
    else
      match hasValue, f.args with
      | false, [] => (f, false, some ("flag needs an argument: -" ++ name))
      | false, next :: rest1 =>
        let r := fv.Set next
        match r.2 with
        | some _ =>
          ({ f with args := rest1 }.store name r.1, false,
            some ("invalid value for flag -" ++ name))
        | none => (f.assign rest1 name r.1, true, none)
      | true, _ =>
        let r := fv.Set value
        match r.2 with
        | some _ => (f.store name r.1, false, some ("invalid value for flag -" ++ name))
        | none => (f.assign f.args name r.1, true, none)

/-- Method parseOne: parses one flag. It reports (seen, err) and the flag set after the
call. -/
def FlagSet.parseOne (f : FlagSet) : FlagSet × Bool × Option String :=
  match f.args with
  | [] => (f, false, none)
  | s :: rest =>
    match s.data with
    | [] => (f, false, none)
    | [_] => (f, false, none)
    | c0 :: c1 :: tl =>
      if c0 ≠ '-' then (f, false, none)
      else if c1 = '-' ∧ tl = [] then ({ f with args := rest }, false, none)
      else
        let body := if c1 = '-' then tl else c1 :: tl
        if body.head? = none ∨ body.head? = some '-' ∨ body.head? = some '=' then
          (f, false, some ("bad flag syntax: " ++ s))
        else FlagSet.parseFlag { f with args := rest } body

/-- The loop of Parse under ContinueOnError: parseOne is repeated while it sees a flag;
the first error is returned. Every round that goes on consumes an argument, so a fuel
above the number of arguments is never used up. -/
def FlagSet.parseLoop : Nat → FlagSet → FlagSet × Option String
  | 0, f => (f, some "flag: too many rounds")
  | fuel + 1, f =>
    match f.parseOne with
    | (f1, true, _) => FlagSet.parseLoop fuel f1
    | (f1, false, none) => (f1, none)
    | (f1, false, some err) => (f1, some err)

/-- Method Parse: parses flag definitions from the argument list. -/
def FlagSet.Parse (f : FlagSet) (arguments : List String) : FlagSet × Option String :=
  FlagSet.parseLoop (arguments.length + 1) { f with args := arguments }

/-- Method Visit: calls fn for each flag that has been set. (Go visits them in
lexicographical order; the order is not modelled.) -/
def FlagSet.Visit {σ : Type} (f : FlagSet) (fn : String → σ → σ) (init : σ) : σ :=
  f.actual.foldl (fun st name => fn name st) init

end flag

/-! ## ParseOptions -/

/-- The flag name ParseOptions derives from a tag: the text before the first comma,
without a leading "--". -/
def flagName (tag : String) : String :=
  strings.TrimPrefix ((strings.Split tag ",").headD "") "--"

/-- The entry flagNames[i] of ParseOptions for a field: empty for a field that is skipped. -/
def flagNameOf (f : StructField) : String :=
  if f.tag = "" then "" else flagName f.tag

/-- The first loop of ParseOptions: every tagged pointer field to int, bool or string
defines a flag under its name and is pointed at the flag's cell. (Every field of the struct
is exported, so field.CanSet() holds.) -/
def registerFields : List StructField → flag.FlagSet → Outcome flag.FlagSet
  | [], flagSet => .returned flagSet
  | f :: rest, flagSet =>
    if f.tag = "" then registerFields rest flagSet
    else
      match f.type with
      | .ptr .int =>
        match flagSet.Var (.intValue ⟨0, by decide⟩) (flagName f.tag) with
        | .returned flagSet1 => registerFields rest flagSet1
        | .panicked msg => .panicked msg
      | .ptr .bool =>
        match flagSet.Var (.boolValue false) (flagName f.tag) with
        | .returned flagSet1 => registerFields rest flagSet1
        | .panicked msg => .panicked msg
      | .ptr .string =>
        match flagSet.Var (.stringValue "") (flagName f.tag) with
        | .returned flagSet1 => registerFields rest flagSet1
        | .panicked msg => .panicked msg
      | _ => registerFields rest flagSet

/-- Function isFlagPassed: whether a flag of that name has been set. -/
def isFlagPassed (flagSet : flag.FlagSet) (name : String) : Bool :=
  flagSet.Visit (fun fname found => if fname = name then true else found) false

/-- The value of a field when ParseOptions returns: the zero value when its flag name is
not empty and the flag was not passed; otherwise what the first loop left in it, a pointer
to the cell of its flag (for the field kinds that define one) or the zero value of the
fresh struct. -/
def fieldAfterParse (flagSet : flag.FlagSet) (f : StructField) : Value :=
  if flagNameOf f ≠ "" && !isFlagPassed flagSet (flagNameOf f) then f.type.zero
  else if f.tag = "" then f.type.zero
  else
    match f.type with
    | .ptr .int | .ptr .bool | .ptr .string =>
      match flagSet.lookup (flagName f.tag) with
      | some cell => .ptr cell.deref
      | none => .nilPtr
    | _ => f.type.zero

/-- ParseOptions parses the options string and returns a HashcatSessionOptions struct:
the pair (options, err). -/
def ParseOptions (optionsString : String) :
    Outcome (Option HashcatSessionOptions × Option String) :=
  match registerFields optionFields flag.NewFlagSet with
  | .panicked msg => .panicked msg
  | .returned flagSet =>
    let args := strings.Fields optionsString
    match flagSet.Parse args with
    | (_, some err) => .returned (none, some err)
    | (flagSet1, none) =>
      match HashcatSessionOptions.ofValues? (optionFields.map (fieldAfterParse flagSet1)) with
      | some options => .returned (some options, none)
      | none => .panicked "reflect.Set: value is not assignable to the field type"

/-! ## Notions of the specification -/

/-- The argumentName of a schema entry: the name MarshalArgs reads from the tag; empty for
a positional field. -/
def argumentName (f : StructField) : String := (parseTag f.tag).1

/-- The arguments MarshalArgs adds for one field. -/
def fieldArgs (p : StructField × Value) : List String := (marshalLoop [p] []).1

/-- The error MarshalArgs stops with at one field. -/
def fieldErr (p : StructField × Value) : Option String := (marshalLoop [p] []).2

/-- The encoding rules of the specification for a field with the given argumentName:
a flag-boolean is the bare name when present and true, an integer is name=decimal when
present, a string is name=value when not empty, and the raw value when the field has no
argumentName. -/
def specTokens (argName : String) : Value → List String
  | .ptr (.bool b) => if b then [argName] else []
  | .ptr (.int n) => [argName ++ "=" ++ toString n.val]
  | .ptr (.string s) => if s = "" then [] else if argName ≠ "" then [argName ++ "=" ++ s] else [s]
  | .string s => if s = "" then [] else if argName ≠ "" then [argName ++ "=" ++ s] else [s]
  | _ => []

/-- A schema entry the marshaling loop handles without error: it has a tag and is either a
string, or an omitempty pointer to a bool, a string, or an int with a name. -/
def regularField (f : StructField) : Bool :=
  f.tag != "" &&
  (f.type == GoType.string ||
    (((f.type == GoType.ptr GoType.int && argumentName f != "") ||
        f.type == GoType.ptr GoType.bool || f.type == GoType.ptr GoType.string) &&
      strings.Contains (parseTag f.tag).2 "omitempty"))

/-- The text of a token before its first equals sign. -/
def tokenKey (tok : String) : String := String.mk (tok.data.takeWhile (fun ch => ch != '='))

/-- The field values of the composite literal HashcatSessionOptions{name: value, ...}:
a field that is not listed has its zero value. -/
def literalValues (inits : List (String × Value)) : List Value :=
  optionFields.map (fun f =>
    match inits.find? (fun p => p.1 == f.name) with
    | some p => p.2
    | none => f.type.zero)

/-! ## Concrete configurations used below -/

set_option maxRecDepth 100000 in
/-- HashcatSessionOptions{HashType: GetIntPtr(0), InputFile: "--hash-type=0"}. -/
def optionsHashTypeTwice : HashcatSessionOptions :=
  ⟨literalValues [("HashType", GetIntPtr (GoInt.wrap 0)), ("InputFile", Value.string "--hash-type=0")],
    by decide!⟩

set_option maxRecDepth 100000 in
/-- HashcatSessionOptions{HashType: GetIntPtr(0), InputFile: "deadbeef"}. -/
def optionsHashTypeZero : HashcatSessionOptions :=
  ⟨literalValues [("HashType", GetIntPtr (GoInt.wrap 0)), ("InputFile", Value.string "deadbeef")],
    by decide!⟩

set_option maxRecDepth 100000 in
/-- HashcatSessionOptions{InputFile: "--hash-type=7"}: HashType is absent. -/
def optionsInputLooksLikeSwitch : HashcatSessionOptions :=
  ⟨literalValues [("InputFile", Value.string "--hash-type=7")], by decide!⟩

set_option maxRecDepth 100000 in
/-- HashcatSessionOptions{PotfileDisable: GetBoolPtr(true)}. -/
def optionsPotfileTrue : HashcatSessionOptions :=
  ⟨literalValues [("PotfileDisable", GetBoolPtr true)], by decide!⟩

set_option maxRecDepth 100000 in
/-- HashcatSessionOptions{PotfileDisable: GetBoolPtr(false)}. -/
def optionsPotfileFalse : HashcatSessionOptions :=
  ⟨literalValues [("PotfileDisable", GetBoolPtr false)], by decide!⟩

set_option maxRecDepth 100000 in
/-- HashcatSessionOptions{SessionName: GetStringPtr("s1"), InputFile: "deadbeef"}. -/
def optionsSession : HashcatSessionOptions :=
  ⟨literalValues [("SessionName", GetStringPtr "s1"), ("InputFile", Value.string "deadbeef")],
    by decide!⟩

/-- What the specification says MarshalArgs lists: the switch tokens of the named fields in
declaration order, then InputFile when not empty, then DictionaryMaskDirectoryInput when
present and not empty. -/
def specArgs (c : HashcatSessionOptions) : List String :=
  (c.reflect.filter (fun p => argumentName p.1 != "")).flatMap
      (fun p => specTokens (argumentName p.1) p.2) ++
    (match c.get "InputFile" with
      | some (Value.string s) => if s = "" then [] else [s]
      | _ => []) ++
    (match c.get "DictionaryMaskDirectoryInput" with
      | some (Value.ptr (Value.string s)) => if s = "" then [] else [s]
      | _ => [])

/-- Configuration c0 holds only fields of c, with the values they have in c: each field
of c0, with value p.2.1, is absent (has its zero value) or equals the field of c, with
value p.2.2. -/
def restricts (c0 c : HashcatSessionOptions) : Prop :=
  ∀ p ∈ optionFields.zip (c0.values.zip c.values), p.2.1 = p.2.2 ∨ p.2.1 = p.1.type.zero

instance (c0 c : HashcatSessionOptions) : Decidable (restricts c0 c) := by
  unfold restricts
  infer_instance

set_option maxRecDepth 100000 in
/-- The configuration of the scenario: HashcatSessionOptions{HashType: 0, AttackMode: 0,
PotfileDisable: true, SessionName: "s1", InputFile: "deadbeef"}. -/
def optionsScenario : HashcatSessionOptions :=
  ⟨literalValues [("HashType", GetIntPtr (GoInt.wrap 0)), ("AttackMode", GetIntPtr (GoInt.wrap 0)),
      ("PotfileDisable", GetBoolPtr true), ("SessionName", GetStringPtr "s1"),
      ("InputFile", Value.string "deadbeef")],
    by decide!⟩

set_option maxRecDepth 100000 in
/-- HashcatSessionOptions{Force: true, PotfileDisable: true}. -/
def optionsForcePotfile : HashcatSessionOptions :=
  ⟨literalValues [("Force", GetBoolPtr true), ("PotfileDisable", GetBoolPtr true)], by decide!⟩

/-! ## The flag set ParseOptions parses with -/

/-- The flag a field defines in the first loop of ParseOptions, with its default value. -/
def initialFlag (f : StructField) : Option (String × flag.Value) :=
  if f.tag = "" then none
  else
    match f.type with
    | .ptr .int => some (flagName f.tag, flag.Value.intValue ⟨0, by decide⟩)
    | .ptr .bool => some (flagName f.tag, flag.Value.boolValue false)
    | .ptr .string => some (flagName f.tag, flag.Value.stringValue "")
    | _ => none

/-- The flag set after the first loop of ParseOptions: one flag per tagged pointer field,
none of them set. -/
def initialFlagSet : flag.FlagSet := ⟨optionFields.filterMap initialFlag, [], []⟩

/-- The type of the cell of the flag called name, if the flag is defined. -/
def flag.FlagSet.typeOf (f : flag.FlagSet) (name : String) : Option GoType :=
  (f.lookup name).map flag.Value.cellType

/-- The cell ParseOptions points a field at is of the field's element type. -/
def fieldCellTyped (f : StructField) : Bool :=
  f.tag == "" ||
    (match f.type with
      | .ptr .int => initialFlagSet.typeOf (flagName f.tag) == some GoType.int
      | .ptr .bool => initialFlagSet.typeOf (flagName f.tag) == some GoType.bool
      | .ptr .string => initialFlagSet.typeOf (flagName f.tag) == some GoType.string
      | _ => true)

set_option maxRecDepth 100000 in
/-- What ParseOptions returns for a line without switches: every field absent except
DictionaryMaskDirectoryInput, which points to the empty string. -/
def optionsParsedNothing : HashcatSessionOptions :=
  ⟨literalValues [("DictionaryMaskDirectoryInput", GetStringPtr "")], by decide!⟩

/-- The value of a string of decimal digits read after acc. -/
def decVal (l : List Char) (acc : Nat) : Nat := l.foldl (fun a c => a * 10 + (c.toNat - 48)) acc

/-- Every character is a decimal digit. -/
def allDigits (l : List Char) : Prop := ∀ c ∈ l, 48 ≤ c.toNat ∧ c.toNat ≤ 57

/-- A token that survives joining with spaces and splitting at white space: it is not
empty and has no white space in it. -/
def plainToken (t : String) : Prop := t.data ≠ [] ∧ ∀ ch ∈ t.data, unicode.IsSpace ch = false

/-! ## Marshaling and parsing back -/

/-- The cell a switch field value puts into its flag when its token is parsed; none when
the value is not marshaled (nil, false, the empty string). -/
def cellOf : Value → Option flag.Value
  | .ptr (.bool true) => some (flag.Value.boolValue true)
  | .ptr (.int n) => some (flag.Value.intValue n)
  | .ptr (.string s) => if s = "" then none else some (flag.Value.stringValue s)
  | _ => none

/-- The flag set after the token of one switch field was parsed. -/
def flag.FlagSet.setField (f : flag.FlagSet) (p : StructField × hcargp.Value) :
    flag.FlagSet :=
  match cellOf p.2 with
  | none => f
  | some v => f.assign f.args (flagName p.1.tag) v

/-- A schema entry whose tokens the flag parser reads back: its argumentName is "--" and
then its flag name, which starts with a character other than '-' and '=' and contains no
'='; it has no white space; the field is a pointer to int, bool or string. -/
def namedSwitch (f : StructField) : Bool :=
  f.tag != "" &&
  (argumentName f).data == '-' :: '-' :: (flagName f.tag).data &&
  (match (flagName f.tag).data with
    | c :: cs => c != '-' && c != '=' && !cs.contains '='
    | [] => false) &&
  (f.type == GoType.ptr GoType.int || f.type == GoType.ptr GoType.bool ||
    f.type == GoType.ptr GoType.string) &&
  (argumentName f).data.all (fun ch => !unicode.IsSpace ch)

/-- What a switch field value is after marshaling and parsing back: a pointer to false or
to the empty string is not marshaled, so the field comes back nil; every other value comes
back as it was. -/
def Value.parsedBack : Value → Value
  | .ptr (.bool false) => Value.nilPtr
  | .ptr (.string s) => if s = "" then Value.nilPtr else Value.ptr (Value.string s)
  | v => v

/-- A value whose string, if it holds one, has no white space. -/
def Value.noSpace : Value → Bool
  | .ptr (.string s) => s.data.all (fun ch => !unicode.IsSpace ch)
  | .string s => s.data.all (fun ch => !unicode.IsSpace ch)
  | _ => true

/-- A value whose string, if it holds one, does not start with '-'. -/
def Value.noDash : Value → Bool
  | .ptr (.string s) => s.data.head? != some '-'
  | .string s => s.data.head? != some '-'
  | _ => true

set_option maxRecDepth 100000 in
/-- HashcatSessionOptions{PotfileDisable: GetBoolPtr(false), DictionaryMaskDirectoryInput:
GetStringPtr("")}. -/
def optionsFalseFlag : HashcatSessionOptions :=
  ⟨literalValues [("PotfileDisable", GetBoolPtr false),
      ("DictionaryMaskDirectoryInput", GetStringPtr "")], by decide!⟩

set_option maxRecDepth 100000 in
/-- HashcatSessionOptions{InputFile: "deadbeef", DictionaryMaskDirectoryInput:
GetStringPtr("")}. -/
def optionsInputOnly : HashcatSessionOptions :=
  ⟨literalValues [("InputFile", Value.string "deadbeef"),
      ("DictionaryMaskDirectoryInput", GetStringPtr "")], by decide!⟩

set_option maxRecDepth 100000 in
/-- HashcatSessionOptions{SessionName: GetStringPtr("a b"), DictionaryMaskDirectoryInput:
GetStringPtr("")}. -/
def optionsSpacedName : HashcatSessionOptions :=
  ⟨literalValues [("SessionName", GetStringPtr "a b"),
      ("DictionaryMaskDirectoryInput", GetStringPtr "")], by decide!⟩

set_option maxRecDepth 100000 in
/-- HashcatSessionOptions{InputFile: "-x", DictionaryMaskDirectoryInput: GetStringPtr("")}. -/
def optionsDashInput : HashcatSessionOptions :=
  ⟨literalValues [("InputFile", Value.string "-x"),
      ("DictionaryMaskDirectoryInput", GetStringPtr "")], by decide!⟩

/-! ## A field table with a field of another kind -/

/-- The fields of a struct with a float64 field between a bool flag and an int switch,
with their values: Force = true, Ratio (a float64), Skip = 1. -/
def tableWithFloat : List (StructField × Value) :=
  [(StructField.mk "Force" "--force,omitempty" (GoType.ptr GoType.bool), GetBoolPtr true),
    (StructField.mk "Ratio" "--ratio" (GoType.other "float64"), Value.other "float64"),
    (StructField.mk "Skip" "--skip,omitempty" (GoType.ptr GoType.int), GetIntPtr (GoInt.wrap 1))]

/-- A configuration the command line can represent, field by field: a switch field is not
a pointer to false nor to the empty string and its string has no white space; a positional
value has no white space and does not start with '-'. -/
def representable (p : StructField × Value) : Bool :=
  if argumentName p.1 = "" then p.2.noSpace && p.2.noDash
  else p.2 != Value.ptr (Value.bool false) && p.2 != Value.ptr (Value.string "") && p.2.noSpace

/-! ## Reading a command line -/

/-- The flag name parseOne reads from a token: the token without its one or two leading
dashes, up to its first equals sign. -/
def flagOfToken (tok : String) : String :=
  match tok.data with
  | '-' :: '-' :: body => String.mk (flag.splitNameValue body).1
  | '-' :: body => String.mk (flag.splitNameValue body).1
  | _ => ""

/-- The presence side channel: the names of the flags the parser consumed from the line
(the flags FlagSet.Visit enumerates after Parse). -/
def consumedFlags (line : String) : List String :=
  (initialFlagSet.Parse (strings.Fields line)).1.actual

set_option maxRecDepth 100000 in
/-- HashcatSessionOptions{HashType: GetIntPtr(5), DictionaryMaskDirectoryInput:
GetStringPtr("")}. -/
def optionsParsedHashType5 : HashcatSessionOptions :=
  ⟨literalValues [("HashType", GetIntPtr (GoInt.wrap 5)),
      ("DictionaryMaskDirectoryInput", GetStringPtr "")], by decide!⟩

/-- A value as it is written after "=" in a token of the command line: a decimal integer
(a sign, then a natural number in decimal digits without leading zeros), a boolean written
true or false, or a string. -/
inductive Given where
  | int (sign : String) (m : Nat)
  | bool (b : Bool)
  | string (s : String)
  deriving DecidableEq, Repr

/-- The text of a given value. -/
def Given.text : Given → String
  | .int sign m => sign ++ toString m
  | .bool b => if b then "true" else "false"
  | .string s => s

/-- The integer a signed decimal text stands for. -/
def Given.number (sign : String) (m : Nat) : Int := if sign = "-" then -(m : Int) else (m : Int)

/-- The value a given text stands for. -/
def Given.value : Given → Value
  | .int sign m => .int (GoInt.wrap (Given.number sign m))
  | .bool b => .bool b
  | .string s => .string s

/-- A given value is well-formed for a field of the type: for a pointer to int a decimal
integer with the sign "", "+" or "-" whose value is an int (64 bits), for a pointer to bool
true or false, for a pointer to string any string. -/
def Given.fits : Given → GoType → Bool
  | .int sign m, .ptr .int =>
    (sign = "" ∨ sign = "+" ∨ sign = "-") ∧
      -9223372036854775808 ≤ Given.number sign m ∧ Given.number sign m ≤ 9223372036854775807
  | .bool _, .ptr .bool => true
  | .string _, .ptr .string => true
  | _, _ => false

/-- The cell of a flag after the text of a given value was stored in it. -/
def Given.cell : Given → flag.Value
  | .int sign m => .intValue (GoInt.wrap (Given.number sign m))
  | .bool b => .boolValue b
  | .string s => .stringValue s

/-- The token "argumentName=value" of a field and a given value. -/
def givenToken (e : StructField × Given) : String := argumentName e.1 ++ "=" ++ e.2.text

/-- The flag set after the token of a field and a given value was parsed. -/
def flag.FlagSet.setGiven (f : flag.FlagSet) (e : StructField × Given) : flag.FlagSet :=
  f.assign f.args (flagName e.1.tag) e.2.cell

/-- The fields and values of the line "--optimized-kernel-enable=true
--custom-charset1=DEADBEEF --attack-mode=0 --hash-type=0 --potfile-disable=true". -/
def givenTestLine : List (StructField × Given) :=
  [(StructField.mk "OptimizedKernelEnabled" "--optimized-kernel-enable,omitempty"
      (GoType.ptr GoType.bool), Given.bool true),
    (StructField.mk "CustomCharset1" "--custom-charset1,omitempty" (GoType.ptr GoType.string),
      Given.string "DEADBEEF"),
    (StructField.mk "AttackMode" "--attack-mode,omitempty" (GoType.ptr GoType.int),
      Given.int "" 0),
    (StructField.mk "HashType" "--hash-type,omitempty" (GoType.ptr GoType.int),
      Given.int "" 0),
    (StructField.mk "PotfileDisable" "--potfile-disable,omitempty" (GoType.ptr GoType.bool),
      Given.bool true)]

set_option maxRecDepth 100000 in
/-- HashcatSessionOptions{HashType: GetIntPtr(8), DictionaryMaskDirectoryInput:
GetStringPtr("")}. -/
def optionsParsedHashType8 : HashcatSessionOptions :=
  ⟨literalValues [("HashType", GetIntPtr (GoInt.wrap 8)),
      ("DictionaryMaskDirectoryInput", GetStringPtr "")], by decide!⟩

namespace strconv

/-- The digit loop of the fast path of Atoi: n is the value read so far. A byte ch with
ch - '0' > 9 is no digit; every byte of a character that is not ASCII is such a byte. -/
def atoiLoop : List Char → GoInt → Option GoInt
  | [], n => some n
  | ch :: rest, n =>
    if '0'.toNat ≤ ch.toNat ∧ ch.toNat ≤ '9'.toNat then
      atoiLoop rest (GoInt.wrap (n.val * 10 + ((ch.toNat - '0'.toNat : Nat) : Int)))
    else none

/-- Atoi(s): ParseInt(s, 10, 0) converted to type int (bitSize 0 stands for the size of
int, 64 bits), with the fast path for texts of fewer than 19 bytes. -/
def Atoi (s : String) : GoInt × Option NumError :=
  if 0 < s.data.length ∧ s.data.length < 19 then
    match s.data with
    | [] => (GoInt.wrap 0, some .ErrSyntax)
    | c0 :: tl =>
      if (c0 = '-' ∨ c0 = '+') ∧ tl.length < 1 then (GoInt.wrap 0, some .ErrSyntax)
      else
        match atoiLoop (if c0 = '-' ∨ c0 = '+' then tl else c0 :: tl) (GoInt.wrap 0) with
        | none => (GoInt.wrap 0, some .ErrSyntax)
        | some n => (if c0 = '-' then GoInt.wrap (-n.val) else n, none)
  else ParseInt s 10 64

end strconv

/-! ## types/generator.go -/

namespace generator

/-- The errors checkNameModule returns: the one it makes with fmt.Errorf ("%s does not
appear to be a hashcat module") and the *strconv.NumError of Atoi. -/
inductive ModuleError where
  | notModule (name : String)
  | atoi (err : strconv.NumError)
  deriving DecidableEq, Repr

/-- The loop StripZeros over the rest of mod: at the first character other than '0' mod
becomes the text from that character on; when there is none mod stays as it is. -/
def stripZeros (mod : List Char) : List Char → List Char
  | [] => mod
  | r :: rest => if r ≠ '0' then r :: rest else stripZeros mod rest

/-- Function checkNameModule: the number in the name of a module file. The name is taken
character by character, which is byte by byte for a name of ASCII characters. The slice
name[7 : len(name)-2] panics when the name has fewer than 9 bytes. -/
def checkNameModule (name : String) : Outcome (GoInt × Option ModuleError) :=
  if !strings.HasPrefix name "module_" then
    .returned (GoInt.wrap 0, some (.notModule name))
  else if name.data.length - 2 < 7 then .panicked "slice bounds out of range"
  else
    let mod := (name.data.take (name.data.length - 2)).drop 7
    if mod = "00000".data then .returned (GoInt.wrap 0, none)
    else
      let r := strconv.Atoi (String.mk (stripZeros mod mod))
      .returned (r.1, r.2.map ModuleError.atoi)

end generator

/-- A continuation of a line whose first token does not start with '-'. -/
def startsPositional (R : String) : Bool :=
  match strings.Fields R with
  | tok :: _ => tok.data.head? != some '-'
  | [] => false

set_option maxRecDepth 100000 in
/-- HashcatSessionOptions{HashType: 0, AttackMode: 0, Force: false, PotfileDisable: true,
SessionName: "s1"}: switch fields only. -/
def optionsSwitchesOnly : HashcatSessionOptions :=
  ⟨literalValues [("HashType", GetIntPtr (GoInt.wrap 0)), ("AttackMode", GetIntPtr (GoInt.wrap 0)),
      ("Force", GetBoolPtr false), ("PotfileDisable", GetBoolPtr true),
      ("SessionName", GetStringPtr "s1")],
    by decide!⟩

end hcargp

/-! # Theorems -/

namespace hcargp

/-! ## The marshaling loop, field by field -/

theorem marshalLoop_cons (p : StructField × Value) (rest : List (StructField × Value))
    (args : List String) :
    marshalLoop (p :: rest) args =
      if fieldErr p = none then marshalLoop rest (args ++ fieldArgs p)
      else (args ++ fieldArgs p, fieldErr p) := by
  obtain ⟨f, val⟩ := p
  simp only [fieldArgs, fieldErr, marshalLoop]
  split_ifs <;> simp_all
  all_goals (split <;> simp_all)
  all_goals (split_ifs <;> simp_all)

theorem marshalLoop_flatMap (l : List (StructField × Value)) :
    ∀ args : List String, (∀ p ∈ l, fieldErr p = none) →
      marshalLoop l args = (args ++ l.flatMap fieldArgs, none) := by
  induction l with
  | nil => intro args _; simp [marshalLoop]
  | cons p rest ih =>
    intro args h
    rw [marshalLoop_cons, if_pos (h p (List.mem_cons_self _ _)),
      ih _ (fun q hq => h q (List.mem_cons_of_mem _ hq))]
    simp [List.flatMap_cons, List.append_assoc]

set_option maxRecDepth 100000 in
theorem optionFields_regular : ∀ f ∈ optionFields, regularField f = true := by decide!

theorem fieldArgs_of_regular (f : StructField) (v : Value) (hr : regularField f = true)
    (ht : v.hasType f.type = true) :
    fieldErr (f, v) = none ∧ fieldArgs (f, v) = specTokens (argumentName f) v := by
  obtain ⟨nm, tag, ty⟩ := f
  simp only [regularField, Bool.and_eq_true, Bool.or_eq_true, bne_iff_ne, ne_eq, beq_iff_eq]
    at hr
  obtain ⟨htag, hty⟩ := hr
  simp only [fieldArgs, fieldErr, marshalLoop, if_neg htag]
  rcases hty with hty | ⟨hty, hom⟩
  · subst hty
    cases v <;> simp [Value.hasType] at ht
    simp [Value.isPtrKind, Value.IsNil, specTokens, argumentName]
    split_ifs <;> simp_all [marshalLoop]
  · simp only [hom, Bool.and_true]
    rcases hty with (⟨hty, hname⟩ | hty) | hty <;> subst hty
    · cases v with
      | nilPtr => simp [Value.isPtrKind, Value.IsNil, specTokens, marshalLoop]
      | ptr w =>
        cases w <;> simp [Value.hasType] at ht
        have hname2 : (parseTag tag).1 ≠ "" := hname
        simp [Value.isPtrKind, Value.IsNil, specTokens, argumentName, marshalLoop, hname2]
      | _ => simp [Value.hasType] at ht
    · cases v with
      | nilPtr => simp [Value.isPtrKind, Value.IsNil, specTokens, marshalLoop]
      | ptr w =>
        cases w <;> simp [Value.hasType] at ht
        simp [Value.isPtrKind, Value.IsNil, specTokens, argumentName]
        split_ifs <;> simp [marshalLoop]
      | _ => simp [Value.hasType] at ht
    · cases v with
      | nilPtr => simp [Value.isPtrKind, Value.IsNil, specTokens, marshalLoop]
      | ptr w =>
        cases w <;> simp [Value.hasType] at ht
        simp [Value.isPtrKind, Value.IsNil, specTokens, argumentName]
        split_ifs <;> simp_all [marshalLoop]
      | _ => simp [Value.hasType] at ht

theorem typeCheck_zip : ∀ (fs : List StructField) (vs : List Value),
    typeCheck fs vs = true → ∀ p ∈ fs.zip vs, p.2.hasType p.1.type = true
  | [], [], _, p, hp => by simp at hp
  | [], _ :: _, h, _, _ => by simp [typeCheck] at h
  | _ :: _, [], h, _, _ => by simp [typeCheck] at h
  | f :: fs, v :: vs, h, p, hp => by
    simp only [typeCheck, Bool.and_eq_true] at h
    simp only [List.zip_cons_cons, List.mem_cons] at hp
    rcases hp with rfl | hp
    · exact h.1
    · exact typeCheck_zip fs vs h.2 p hp

theorem typeCheck_length : ∀ (fs : List StructField) (vs : List Value),
    typeCheck fs vs = true → vs.length = fs.length
  | [], [], _ => rfl
  | [], _ :: _, h => by simp [typeCheck] at h
  | _ :: _, [], h => by simp [typeCheck] at h
  | f :: fs, v :: vs, h => by
    simp only [typeCheck, Bool.and_eq_true] at h
    simp [typeCheck_length fs vs h.2]

/-- Every field of a struct value is marshaled without error, by the encoding rules. -/
theorem reflect_fieldArgs (c : HashcatSessionOptions) :
    ∀ p ∈ c.reflect, fieldErr p = none ∧ fieldArgs p = specTokens (argumentName p.1) p.2 := by
  intro p hp
  have h1 := typeCheck_zip _ _ c.typed p hp
  obtain ⟨f, v⟩ := p
  exact fieldArgs_of_regular f v (optionFields_regular f (List.of_mem_zip hp).1) h1

/-- MarshalArgs never fails on a struct value and returns the tokens of its fields in
declaration order. -/
theorem MarshalArgs_eq (c : HashcatSessionOptions) :
    c.MarshalArgs = (c.reflect.flatMap (fun p => specTokens (argumentName p.1) p.2), none) := by
  unfold HashcatSessionOptions.MarshalArgs
  rw [marshalLoop_flatMap _ _ (fun p hp => (reflect_fieldArgs c p hp).1)]
  simp only [List.nil_append, Prod.mk.injEq, and_true]
  apply List.flatMap_congr
  intro p hp
  exact (reflect_fieldArgs c p hp).2

/-! ## Lists by index -/

theorem flatMap_split {α β : Type} (l : List α) (i : Nat) (x : α) (h : l[i]? = some x)
    (g : α → List β) :
    l.flatMap g = (l.take i).flatMap g ++ g x ++ (l.drop (i + 1)).flatMap g := by
  obtain ⟨hi, hx⟩ := List.getElem?_eq_some.1 h
  conv_lhs => rw [← List.take_append_drop i l, List.drop_eq_getElem_cons hi, hx]
  simp [List.flatMap_append, List.flatMap_cons]

theorem mem_take_index {α : Type} {l : List α} {i : Nat} {p : α} (h : p ∈ l.take i) :
    ∃ j, j < i ∧ l[j]? = some p := by
  obtain ⟨j, hj⟩ := List.mem_iff_getElem?.1 h
  rw [List.getElem?_take] at hj
  by_cases hlt : j < i
  · exact ⟨j, hlt, by simpa [hlt] using hj⟩
  · simp [hlt] at hj

theorem mem_drop_index {α : Type} {l : List α} {i : Nat} {p : α} (h : p ∈ l.drop i) :
    ∃ j, i ≤ j ∧ l[j]? = some p := by
  obtain ⟨j, hj⟩ := List.mem_iff_getElem?.1 h
  rw [List.getElem?_drop] at hj
  exact ⟨i + j, Nat.le_add_right _ _, hj⟩

theorem reflect_getElem? (c : HashcatSessionOptions) (i : Nat) (f : StructField) (v : Value)
    (hf : optionFields[i]? = some f) (hv : c.values[i]? = some v) :
    c.reflect[i]? = some (f, v) := by
  unfold HashcatSessionOptions.reflect
  exact List.getElem?_zip_eq_some.2 ⟨hf, hv⟩

theorem reflect_getElem?_inv (c : HashcatSessionOptions) (i : Nat) (p : StructField × Value)
    (h : c.reflect[i]? = some p) : optionFields[i]? = some p.1 ∧ c.values[i]? = some p.2 :=
  List.getElem?_zip_eq_some.1 h

/-! ## Facts of the option table -/

set_option maxRecDepth 100000 in
theorem optionFields_no_equals : ∀ f ∈ optionFields, '=' ∉ (argumentName f).data := by decide!

set_option maxRecDepth 100000 in
theorem optionFields_pairwise :
    optionFields.Pairwise (fun f g => argumentName f ≠ "" → argumentName f ≠ argumentName g) := by
  decide!

theorem argumentName_inj (i j : Nat) (f g : StructField) (hf : optionFields[i]? = some f)
    (hg : optionFields[j]? = some g) (hne : argumentName f ≠ "")
    (heq : argumentName f = argumentName g) : i = j := by
  obtain ⟨hi, hfi⟩ := List.getElem?_eq_some.1 hf
  obtain ⟨hj, hgj⟩ := List.getElem?_eq_some.1 hg
  have hp := List.pairwise_iff_getElem.1 optionFields_pairwise
  rcases Nat.lt_trichotomy i j with h | h | h
  · exact absurd heq (by simpa [hfi, hgj] using hp i j hi hj h (by simpa [hfi] using hne))
  · exact h
  · have hne2 : argumentName g ≠ "" := heq ▸ hne
    exact absurd heq.symm (by simpa [hfi, hgj] using hp j i hj hi h (by simpa [hgj] using hne2))

/-! ## Tokens and the names they carry -/

theorem takeWhile_no_equals (l : List Char) (h : '=' ∉ l) :
    l.takeWhile (fun ch => ch != '=') = l := by
  rw [List.takeWhile_eq_self_iff]
  intro x hx
  simpa using fun hxe : x = '=' => h (hxe ▸ hx)

theorem takeWhile_append_equals (l w : List Char) (h : '=' ∉ l) :
    (l ++ '=' :: w).takeWhile (fun ch => ch != '=') = l := by
  induction l with
  | nil => simp
  | cons a l ih =>
    have ha : a ≠ '=' := fun hae => h (hae ▸ List.mem_cons_self _ _)
    have hl : '=' ∉ l := fun hm => h (List.mem_cons_of_mem _ hm)
    simp [List.takeWhile_cons, ha, ih hl]

theorem tokenKey_name (name : String) (h : '=' ∉ name.data) : tokenKey name = name := by
  unfold tokenKey
  rw [takeWhile_no_equals _ h]

theorem tokenKey_name_eq (name w : String) (h : '=' ∉ name.data) :
    tokenKey (name ++ "=" ++ w) = name := by
  unfold tokenKey
  have : (name ++ "=" ++ w).data = name.data ++ '=' :: w.data := by
    simp [String.data_append]
  rw [this, takeWhile_append_equals _ _ h]

theorem tokenKey_of_hasPrefix (name tok : String) (h : '=' ∉ name.data)
    (hp : strings.HasPrefix tok (name ++ "=") = true) : tokenKey tok = name := by
  unfold strings.HasPrefix at hp
  obtain ⟨t, ht⟩ := List.isPrefixOf_iff_prefix.1 hp
  unfold tokenKey
  have : tok.data = name.data ++ '=' :: t := by
    rw [← ht]; simp [String.data_append]
  rw [this, takeWhile_append_equals _ _ h]

/-- Every token of a named field carries the field's argumentName before its first equals
sign. -/
theorem tokenKey_specTokens (name : String) (v : Value) (tok : String) (hne : name ≠ "")
    (h : '=' ∉ name.data) (ht : tok ∈ specTokens name v) : tokenKey tok = name := by
  unfold specTokens at ht
  split at ht
  · split_ifs at ht <;> simp at ht
    subst ht; exact tokenKey_name _ h
  · simp at ht; subst ht; exact tokenKey_name_eq _ _ h
  · split_ifs at ht <;> simp at ht
    subst ht; exact tokenKey_name_eq _ _ h
  · split_ifs at ht <;> simp at ht
    subst ht; exact tokenKey_name_eq _ _ h
  · simp at ht

/-- A token of a field without argumentName is the raw text of a string value. -/
theorem specTokens_positional (v : Value) (t : GoType) (tok : String)
    (hty : t = GoType.string ∨ t = GoType.ptr GoType.string) (hv : v.hasType t = true)
    (ht : tok ∈ specTokens "" v) : v = Value.string tok ∨ v = Value.ptr (Value.string tok) := by
  rcases hty with rfl | rfl
  · cases v <;> simp [Value.hasType] at hv
    simp only [specTokens, ne_eq, not_true_eq_false, if_false] at ht
    split_ifs at ht <;> simp at ht
    left; rw [ht]
  · cases v with
    | nilPtr => simp [specTokens] at ht
    | ptr w =>
      cases w <;> simp [Value.hasType] at hv
      simp only [specTokens, ne_eq, not_true_eq_false, if_false] at ht
      split_ifs at ht <;> simp at ht
      right; rw [ht]
    | _ => simp [Value.hasType] at hv

set_option maxRecDepth 100000 in
theorem optionFields_positional_type : ∀ f ∈ optionFields, argumentName f = "" →
    f.type = GoType.string ∨ f.type = GoType.ptr GoType.string := by decide!

theorem specTokens_zero (name : String) (t : GoType) : specTokens name t.zero = [] := by
  cases t <;> simp [GoType.zero, specTokens]

/-- A token of the output comes from one field, by the encoding rules. -/
theorem mem_MarshalArgs (c : HashcatSessionOptions) (tok : String)
    (h : tok ∈ c.MarshalArgs.1) :
    ∃ (j : Nat) (f : StructField) (v : Value), optionFields[j]? = some f ∧ c.values[j]? = some v ∧ v.hasType f.type = true ∧
      tok ∈ specTokens (argumentName f) v := by
  rw [MarshalArgs_eq] at h
  obtain ⟨p, hp, htok⟩ := List.mem_flatMap.1 h
  obtain ⟨j, hj⟩ := List.mem_iff_getElem?.1 hp
  obtain ⟨h1, h2⟩ := reflect_getElem?_inv c j p hj
  exact ⟨j, p.1, p.2, h1, h2, typeCheck_zip _ _ c.typed p hp, htok⟩

/-! ## Which field a token belongs to -/

set_option maxRecDepth 100000 in
theorem optionFields_switch_named : ∀ f ∈ optionFields,
    f.type = GoType.ptr GoType.int ∨ f.type = GoType.ptr GoType.bool → argumentName f ≠ "" := by
  decide!

/-- A token that carries the argumentName of the named field i comes from field i, or is
the raw text of a positional value. -/
theorem token_owner (c : HashcatSessionOptions) (i : Nat) (f : StructField) (tok : String)
    (hf : optionFields[i]? = some f) (hkey : tokenKey tok = argumentName f)
    (j : Nat) (g : StructField) (w : Value) (hg : optionFields[j]? = some g)
    (hw : c.values[j]? = some w) (htok : tok ∈ specTokens (argumentName g) w) :
    j = i ∨ (argumentName g = "" ∧ (w = Value.string tok ∨ w = Value.ptr (Value.string tok))) := by
  have hgm : g ∈ optionFields := List.mem_iff_getElem?.2 ⟨j, hg⟩
  have hty : w.hasType g.type = true :=
    typeCheck_zip _ _ c.typed (g, w) (List.mem_iff_getElem?.2 ⟨j, reflect_getElem? c j g w hg hw⟩)
  by_cases hpos : argumentName g = ""
  · right
    rw [hpos] at htok
    exact ⟨hpos, specTokens_positional w g.type tok (optionFields_positional_type g hgm hpos) hty htok⟩
  · left
    have hk := tokenKey_specTokens _ _ _ hpos (optionFields_no_equals g hgm) htok
    exact argumentName_inj j i g f hg hf hpos (hk.symm.trans hkey)

/-- C2 (amended). Integer encoding keeps zero: when an integer switch field X is present
with value n, the list returned by MarshalArgs contains the token argumentName=decimal n
(also for n = 0 and for negative n); it contains it exactly once provided no positional
field holds that same text as its value. -/
theorem MarshalArgs_integer_token (c : HashcatSessionOptions) (i : Nat) (f : StructField)
    (n : GoInt) (hf : optionFields[i]? = some f) (hty : f.type = GoType.ptr GoType.int)
    (hv : c.values[i]? = some (Value.ptr (Value.int n))) :
    argumentName f ≠ "" ∧
    (argumentName f ++ "=" ++ toString n.val) ∈ c.MarshalArgs.1 ∧
    ((∀ (j : Nat) (g : StructField) (w : Value), optionFields[j]? = some g →
        argumentName g = "" → c.values[j]? = some w →
        w ≠ Value.string (argumentName f ++ "=" ++ toString n.val) ∧
        w ≠ Value.ptr (Value.string (argumentName f ++ "=" ++ toString n.val))) →
      c.MarshalArgs.1.count (argumentName f ++ "=" ++ toString n.val) = 1) := by
  have hfm : f ∈ optionFields := List.mem_iff_getElem?.2 ⟨i, hf⟩
  have hkey : tokenKey (argumentName f ++ "=" ++ toString n.val) = argumentName f :=
    tokenKey_name_eq _ _ (optionFields_no_equals f hfm)
  have hsplit := flatMap_split c.reflect i (f, Value.ptr (Value.int n))
    (reflect_getElem? c i f _ hf hv) (fun p => specTokens (argumentName p.1) p.2)
  have hmid : specTokens (argumentName f) (Value.ptr (Value.int n)) =
      [argumentName f ++ "=" ++ toString n.val] := rfl
  rw [MarshalArgs_eq]
  simp only []
  rw [hsplit]
  simp only [hmid]
  refine ⟨optionFields_switch_named f hfm (Or.inl hty), by simp, fun hpos => ?_⟩
  have hother : ∀ (j : Nat) (p : StructField × Value), c.reflect[j]? = some p → j ≠ i →
      (argumentName f ++ "=" ++ toString n.val) ∉ specTokens (argumentName p.1) p.2 := by
    intro j p hj hji hmem
    obtain ⟨h1, h2⟩ := reflect_getElem?_inv c j p hj
    rcases token_owner c i f _ hf hkey j p.1 p.2 h1 h2 hmem with h | ⟨hp, hw⟩
    · exact hji h
    · have := hpos j p.1 p.2 h1 hp h2
      rcases hw with hw | hw
      · exact this.1 hw
      · exact this.2 hw
  have hleft : List.count (argumentName f ++ "=" ++ toString n.val)
      ((c.reflect.take i).flatMap (fun p => specTokens (argumentName p.1) p.2)) = 0 := by
    rw [List.count_eq_zero]
    intro hmem
    obtain ⟨p, hp, htok⟩ := List.mem_flatMap.1 hmem
    obtain ⟨j, hji, hj⟩ := mem_take_index hp
    exact hother j p hj (Nat.ne_of_lt hji) htok
  have hright : List.count (argumentName f ++ "=" ++ toString n.val)
      ((c.reflect.drop (i + 1)).flatMap (fun p => specTokens (argumentName p.1) p.2)) = 0 := by
    rw [List.count_eq_zero]
    intro hmem
    obtain ⟨p, hp, htok⟩ := List.mem_flatMap.1 hmem
    obtain ⟨j, hji, hj⟩ := mem_drop_index hp
    exact hother j p hj (by omega) htok
  simp [List.count_append, hleft, hright]

set_option maxRecDepth 100000 in
/-- C2, witness: HashType = 0 with InputFile = "deadbeef" gives "--hash-type=0" once. -/
theorem MarshalArgs_integer_token_witness :
    "--hash-type=0" ∈ optionsHashTypeZero.MarshalArgs.1 ∧
    optionsHashTypeZero.MarshalArgs.1.count "--hash-type=0" = 1 := by
  have h := MarshalArgs_integer_token optionsHashTypeZero 0
    (StructField.mk "HashType" "--hash-type,omitempty" (GoType.ptr GoType.int)) (GoInt.wrap 0)
    (by decide!) rfl (by decide!)
  have hname : argumentName (StructField.mk "HashType" "--hash-type,omitempty"
      (GoType.ptr GoType.int)) ++ "=" ++ toString (GoInt.wrap 0).val = "--hash-type=0" := by
    decide!
  rw [hname] at h
  refine ⟨h.2.1, h.2.2 ?_⟩
  intro j g w _ _ hw
  have hall : ∀ w ∈ optionsHashTypeZero.values,
      w ≠ Value.string "--hash-type=0" ∧ w ≠ Value.ptr (Value.string "--hash-type=0") := by
    decide!
  exact hall w (List.mem_iff_getElem?.2 ⟨j, hw⟩)

set_option maxRecDepth 100000 in
/-- C2, counterexample: with HashType = 0 and InputFile = "--hash-type=0" the token
"--hash-type=0" is in the list twice. -/
theorem MarshalArgs_integer_token_twice :
    optionFields[0]? = some (StructField.mk "HashType" "--hash-type,omitempty"
      (GoType.ptr GoType.int)) ∧
    optionsHashTypeTwice.values[0]? = some (Value.ptr (Value.int (GoInt.wrap 0))) ∧
    argumentName (StructField.mk "HashType" "--hash-type,omitempty" (GoType.ptr GoType.int))
      ++ "=" ++ toString (GoInt.wrap 0).val = "--hash-type=0" ∧
    optionsHashTypeTwice.MarshalArgs = (["--hash-type=0", "--hash-type=0"], none) ∧
    optionsHashTypeTwice.MarshalArgs.1.count "--hash-type=0" ≠ 1 := by
  decide!

/-- C3 (amended). Omission fidelity: when an optional switch field X is absent (nil), the
only elements of the list returned by MarshalArgs that are X's argumentName, or begin with
X's argumentName followed by '=', are raw values of positional fields; no switch field
contributes one. -/
theorem MarshalArgs_absent_omitted (c : HashcatSessionOptions) (i : Nat) (f : StructField)
    (tok : String) (hf : optionFields[i]? = some f) (hname : argumentName f ≠ "")
    (hv : c.values[i]? = some Value.nilPtr) (htok : tok ∈ c.MarshalArgs.1)
    (hlike : tok = argumentName f ∨ strings.HasPrefix tok (argumentName f ++ "=") = true) :
    ∃ (j : Nat) (g : StructField), optionFields[j]? = some g ∧ argumentName g = "" ∧
      (c.values[j]? = some (Value.string tok) ∨
        c.values[j]? = some (Value.ptr (Value.string tok))) := by
  have hfm : f ∈ optionFields := List.mem_iff_getElem?.2 ⟨i, hf⟩
  have hne := optionFields_no_equals f hfm
  have hkey : tokenKey tok = argumentName f := by
    rcases hlike with h | h
    · rw [h]; exact tokenKey_name _ hne
    · exact tokenKey_of_hasPrefix _ _ hne h
  obtain ⟨j, g, w, hg, hw, _, hmem⟩ := mem_MarshalArgs c tok htok
  rcases token_owner c i f tok hf hkey j g w hg hw hmem with h | ⟨hp, hw2⟩
  · subst h
    rw [hv] at hw
    have hw3 : w = Value.nilPtr := (Option.some.inj hw).symm
    subst hw3
    have hname2 := hname
    simp [specTokens] at hmem
  · refine ⟨j, g, hg, hp, ?_⟩
    rcases hw2 with h | h
    · left; rw [hw, h]
    · right; rw [hw, h]

set_option maxRecDepth 100000 in
/-- C3, witness: in HashcatSessionOptions{InputFile: "--hash-type=7"} HashType is absent
and the token "--hash-type=7" of the list is the value of the positional InputFile. -/
theorem MarshalArgs_absent_omitted_witness :
    ∃ (j : Nat) (g : StructField), optionFields[j]? = some g ∧ argumentName g = "" ∧
      (optionsInputLooksLikeSwitch.values[j]? = some (Value.string "--hash-type=7") ∨
        optionsInputLooksLikeSwitch.values[j]? =
          some (Value.ptr (Value.string "--hash-type=7"))) :=
  MarshalArgs_absent_omitted optionsInputLooksLikeSwitch 0
    (StructField.mk "HashType" "--hash-type,omitempty" (GoType.ptr GoType.int)) "--hash-type=7"
    (by decide!) (by decide!) (by decide!) (by decide!) (by decide!)

set_option maxRecDepth 100000 in
/-- C3, counterexample: HashType is absent in HashcatSessionOptions{InputFile:
"--hash-type=7"}, and yet the list returned by MarshalArgs has an element that begins
with "--hash-type=". -/
theorem MarshalArgs_absent_name_present :
    optionFields[0]? = some (StructField.mk "HashType" "--hash-type,omitempty"
      (GoType.ptr GoType.int)) ∧
    argumentName (StructField.mk "HashType" "--hash-type,omitempty" (GoType.ptr GoType.int))
      = "--hash-type" ∧
    optionsInputLooksLikeSwitch.values[0]? = some Value.nilPtr ∧
    optionsInputLooksLikeSwitch.MarshalArgs = (["--hash-type=7"], none) ∧
    strings.HasPrefix "--hash-type=7" ("--hash-type" ++ "=") = true := by
  decide!

/-! ## Configurations that differ from the empty one in a single field -/

theorem empty_values_getElem? (j : Nat) (w : Value)
    (h : HashcatSessionOptions.empty.values[j]? = some w) :
    ∃ g, optionFields[j]? = some g ∧ w = g.type.zero := by
  simp only [HashcatSessionOptions.empty, List.getElem?_map] at h
  cases hg : optionFields[j]? with
  | none => simp [hg] at h
  | some g => exact ⟨g, rfl, by simpa [hg] using h.symm⟩

/-- A struct whose fields are zero except field i lists exactly the tokens of field i. -/
theorem MarshalArgs_single (c : HashcatSessionOptions) (i : Nat) (f : StructField) (v : Value)
    (hf : optionFields[i]? = some f)
    (hc : c.values = HashcatSessionOptions.empty.values.set i v) :
    c.MarshalArgs = (specTokens (argumentName f) v, none) := by
  have hlen : i < HashcatSessionOptions.empty.values.length := by
    have := (List.getElem?_eq_some.1 hf).1
    simpa [HashcatSessionOptions.empty] using this
  have hv : c.values[i]? = some v := by
    rw [hc, List.getElem?_set]; simp [hlen]
  have hzero : ∀ (j : Nat) (p : StructField × Value), c.reflect[j]? = some p → j ≠ i →
      specTokens (argumentName p.1) p.2 = [] := by
    intro j p hj hji
    obtain ⟨h1, h2⟩ := reflect_getElem?_inv c j p hj
    rw [hc, List.getElem?_set, if_neg (Ne.symm hji)] at h2
    obtain ⟨g, hg, hw⟩ := empty_values_getElem? j p.2 h2
    rw [hw]; exact specTokens_zero _ _
  rw [MarshalArgs_eq, flatMap_split c.reflect i (f, v) (reflect_getElem? c i f v hf hv)]
  have hleft : (c.reflect.take i).flatMap (fun p => specTokens (argumentName p.1) p.2) = [] := by
    rw [List.flatMap_eq_nil_iff]
    intro p hp
    obtain ⟨j, hji, hj⟩ := mem_take_index hp
    exact hzero j p hj (Nat.ne_of_lt hji)
  have hright :
      (c.reflect.drop (i + 1)).flatMap (fun p => specTokens (argumentName p.1) p.2) = [] := by
    rw [List.flatMap_eq_nil_iff]
    intro p hp
    obtain ⟨j, hji, hj⟩ := mem_drop_index hp
    exact hzero j p hj (by omega)
  rw [hleft, hright]
  simp

/-- C4. Boolean flag encoding: for a boolean switch field X, the configuration whose only
set field is X = present true marshals to exactly the one-element list [argumentName of
X], a bare token without '='; the configuration whose only set field is X = present false,
and the configuration in which nothing is set, marshal to the empty list. -/
theorem MarshalArgs_boolean_flag (i : Nat) (f : StructField) (cT cF : HashcatSessionOptions)
    (hf : optionFields[i]? = some f) (hty : f.type = GoType.ptr GoType.bool)
    (hT : cT.values = HashcatSessionOptions.empty.values.set i (Value.ptr (Value.bool true)))
    (hF : cF.values = HashcatSessionOptions.empty.values.set i (Value.ptr (Value.bool false))) :
    cT.MarshalArgs = ([argumentName f], none) ∧ '=' ∉ (argumentName f).data ∧
      argumentName f ≠ "" ∧ cF.MarshalArgs = ([], none) ∧
      HashcatSessionOptions.empty.MarshalArgs = ([], none) := by
  have hfm : f ∈ optionFields := List.mem_iff_getElem?.2 ⟨i, hf⟩
  refine ⟨?_, optionFields_no_equals f hfm, optionFields_switch_named f hfm (Or.inr hty), ?_, ?_⟩
  · rw [MarshalArgs_single cT i f _ hf hT]; rfl
  · rw [MarshalArgs_single cF i f _ hf hF]; rfl
  · have hE : HashcatSessionOptions.empty.values =
        HashcatSessionOptions.empty.values.set i f.type.zero := by
      apply List.ext_getElem?
      intro j
      rw [List.getElem?_set]
      split_ifs with h1 h2
      · subst h1
        simp [HashcatSessionOptions.empty, List.getElem?_map, hf]
      · subst h1
        exact List.getElem?_eq_none (by omega)
      · rfl
    rw [MarshalArgs_single _ i f _ hf hE]
    rw [specTokens_zero]

set_option maxRecDepth 100000 in
/-- C4, witness: PotfileDisable, the field at index 26. -/
theorem MarshalArgs_boolean_flag_witness :
    optionsPotfileTrue.MarshalArgs = (["--potfile-disable"], none) ∧
      optionsPotfileFalse.MarshalArgs = ([], none) ∧
      HashcatSessionOptions.empty.MarshalArgs = ([], none) := by
  have h := MarshalArgs_boolean_flag 26
    (StructField.mk "PotfileDisable" "--potfile-disable,omitempty" (GoType.ptr GoType.bool))
    optionsPotfileTrue optionsPotfileFalse (by decide!) rfl (by decide!) (by decide!)
  have hname : argumentName (StructField.mk "PotfileDisable" "--potfile-disable,omitempty"
      (GoType.ptr GoType.bool)) = "--potfile-disable" := by decide!
  rw [hname] at h
  exact ⟨h.1, h.2.2.2.1, h.2.2.2.2⟩

/-! ## The contribution of one field, and the order of the list -/

theorem marshalLoop_sub (c : HashcatSessionOptions) (l : List (StructField × Value))
    (h : ∀ p ∈ l, p ∈ c.reflect) :
    marshalLoop l [] = (l.flatMap (fun p => specTokens (argumentName p.1) p.2), none) := by
  rw [marshalLoop_flatMap l [] (fun p hp => (reflect_fieldArgs c p (h p hp)).1)]
  simp only [List.nil_append, Prod.mk.injEq, and_true]
  apply List.flatMap_congr
  intro p hp
  exact (reflect_fieldArgs c p (h p hp)).2

set_option maxRecDepth 100000 in
theorem optionFields_positional_names : ∀ f ∈ optionFields,
    (argumentName f = "" ↔ (f.name = "InputFile" ∨ f.name = "DictionaryMaskDirectoryInput")) := by
  decide!

/-- C5. String encoding: a string field with value s contributes nothing when s is empty
(also when the field is present with the empty string), the single token argumentName=s
when s is not empty and the field has an argumentName, and the single raw token s when s
is not empty and the field is positional; the positional fields are InputFile and
DictionaryMaskDirectoryInput. The contribution stands between what the fields before it and
the fields after it contribute. -/
theorem MarshalArgs_string_field (c : HashcatSessionOptions) (i : Nat) (f : StructField)
    (s : String) (hf : optionFields[i]? = some f)
    (hv : c.values[i]? = some (Value.string s) ∨ c.values[i]? = some (Value.ptr (Value.string s))) :
    c.MarshalArgs.1 =
        (marshalLoop (c.reflect.take i) []).1 ++
          (if s = "" then [] else if argumentName f ≠ "" then [argumentName f ++ "=" ++ s]
            else [s]) ++
          (marshalLoop (c.reflect.drop (i + 1)) []).1 ∧
      c.MarshalArgs.2 = none ∧
      (argumentName f = "" ↔
        (f.name = "InputFile" ∨ f.name = "DictionaryMaskDirectoryInput")) := by
  have hfm : f ∈ optionFields := List.mem_iff_getElem?.2 ⟨i, hf⟩
  refine ⟨?_, by rw [MarshalArgs_eq], optionFields_positional_names f hfm⟩
  rw [marshalLoop_sub c _ (fun p hp => List.mem_of_mem_take hp),
    marshalLoop_sub c _ (fun p hp => List.mem_of_mem_drop hp), MarshalArgs_eq]
  rcases hv with hv | hv
  · rw [flatMap_split c.reflect i (f, _) (reflect_getElem? c i f _ hf hv)]
    simp only [specTokens]
  · rw [flatMap_split c.reflect i (f, _) (reflect_getElem? c i f _ hf hv)]
    simp only [specTokens]

set_option maxRecDepth 100000 in
/-- C5, witness: SessionName = "s1" in HashcatSessionOptions{SessionName: "s1", InputFile:
"deadbeef"}. -/
theorem MarshalArgs_string_field_witness :
    optionsSession.MarshalArgs.1 =
      (marshalLoop (optionsSession.reflect.take 14) []).1 ++ ["--session=s1"] ++
        (marshalLoop (optionsSession.reflect.drop 15) []).1 := by
  have h := (MarshalArgs_string_field optionsSession 14
    (StructField.mk "SessionName" "--session,omitempty" (GoType.ptr GoType.string)) "s1"
    (by decide!) (Or.inr (by decide!))).1
  have hname : (if ("s1" : String) = "" then []
      else if argumentName (StructField.mk "SessionName" "--session,omitempty"
        (GoType.ptr GoType.string)) ≠ "" then
        [argumentName (StructField.mk "SessionName" "--session,omitempty"
          (GoType.ptr GoType.string)) ++ "=" ++ "s1"]
      else ["s1"]) = ["--session=s1"] := by decide!
  rw [hname] at h
  exact h

/-! ## Subsequences -/

theorem specTokens_sublist_zip : ∀ (fs : List StructField) (vs0 vs : List Value),
    (∀ p ∈ fs.zip (vs0.zip vs), p.2.1 = p.2.2 ∨ p.2.1 = p.1.type.zero) →
    vs0.length = fs.length → vs.length = fs.length →
    ((fs.zip vs0).flatMap (fun p => specTokens (argumentName p.1) p.2)).Sublist
      ((fs.zip vs).flatMap (fun p => specTokens (argumentName p.1) p.2))
  | [], _, _, _, _, _ => by simp
  | f :: fs, [], _, _, h0, _ => by simp at h0
  | f :: fs, _ :: _, [], _, _, h1 => by simp at h1
  | f :: fs, a0 :: r0, a :: r, h, h0, h1 => by
    simp only [List.zip_cons_cons, List.flatMap_cons]
    apply List.Sublist.append
    · rcases h (f, (a0, a)) (by simp) with h2 | h2
      · have : a0 = a := h2
        rw [this]
      · have : a0 = f.type.zero := h2
        rw [this, specTokens_zero]
        exact List.nil_sublist _
    · exact specTokens_sublist_zip fs r0 r
        (fun p hp => h p (by simp only [List.zip_cons_cons]; exact List.mem_cons_of_mem _ hp))
        (by simpa using h0) (by simpa using h1)

/-- C7. Order stability: when c0 holds only fields that c1 and c2 both have, with the same
values (every other field of c0 being absent), the list MarshalArgs returns for c0 is a
subsequence of the list for c1 and of the list for c2: the shared entries keep their
relative order. With c2 = c1 this says that making any set of fields absent leaves a
subsequence of the original list. -/
theorem MarshalArgs_order_stable (c0 c1 c2 : HashcatSessionOptions) (h1 : restricts c0 c1)
    (h2 : restricts c0 c2) :
    c0.MarshalArgs.1.Sublist c1.MarshalArgs.1 ∧ c0.MarshalArgs.1.Sublist c2.MarshalArgs.1 := by
  simp only [MarshalArgs_eq, HashcatSessionOptions.reflect]
  exact ⟨specTokens_sublist_zip _ _ _ h1 (typeCheck_length _ _ c0.typed)
      (typeCheck_length _ _ c1.typed),
    specTokens_sublist_zip _ _ _ h2 (typeCheck_length _ _ c0.typed)
      (typeCheck_length _ _ c2.typed)⟩

set_option maxRecDepth 100000 in
/-- C7, witness: PotfileDisable = true is the one field set both in the scenario
configuration and in HashcatSessionOptions{Force: true, PotfileDisable: true}. -/
theorem MarshalArgs_order_stable_witness :
    optionsPotfileTrue.MarshalArgs.1.Sublist optionsScenario.MarshalArgs.1 ∧
      optionsPotfileTrue.MarshalArgs.1.Sublist optionsForcePotfile.MarshalArgs.1 :=
  MarshalArgs_order_stable optionsPotfileTrue optionsScenario optionsForcePotfile
    (by decide!) (by decide!)

/-! ## Named fields first, positional fields last -/

set_option maxRecDepth 100000 in
theorem optionFields_split :
    optionFields = optionFields.take 76 ++
      [StructField.mk "InputFile" "," GoType.string,
        StructField.mk "DictionaryMaskDirectoryInput" ",omitempty" (GoType.ptr GoType.string)] := by
  decide!

set_option maxRecDepth 100000 in
theorem optionFields_named : ∀ f ∈ optionFields.take 76,
    argumentName f ≠ "" ∧ f.name ≠ "InputFile" ∧ f.name ≠ "DictionaryMaskDirectoryInput" := by
  decide!

theorem optionFields_length : optionFields.length = 78 := by decide

theorem values_split (c : HashcatSessionOptions) :
    ∃ (vs : List Value) (a b : Value), c.values = vs ++ [a, b] ∧ vs.length = 76 := by
  have hlen : c.values.length = 78 := by
    rw [typeCheck_length _ _ c.typed, optionFields_length]
  refine ⟨c.values.take 76, c.values[76], c.values[77], ?_, by simp [hlen]⟩
  conv_lhs => rw [← List.take_append_drop 76 c.values]
  congr 1
  rw [List.drop_eq_getElem_cons (by omega), List.drop_eq_getElem_cons (by omega),
    List.drop_eq_nil_of_le (by omega)]

theorem reflect_split (c : HashcatSessionOptions) :
    ∃ (vs : List Value) (s : String) (b : Value), vs.length = 76 ∧
      (b = Value.nilPtr ∨ ∃ t, b = Value.ptr (Value.string t)) ∧
      c.values = vs ++ [Value.string s, b] ∧
      c.reflect = (optionFields.take 76).zip vs ++
        [(StructField.mk "InputFile" "," GoType.string, Value.string s),
          (StructField.mk "DictionaryMaskDirectoryInput" ",omitempty"
            (GoType.ptr GoType.string), b)] := by
  obtain ⟨vs, a, b, hv, hlen⟩ := values_split c
  have hr : c.reflect = (optionFields.take 76).zip vs ++
      [(StructField.mk "InputFile" "," GoType.string, a),
        (StructField.mk "DictionaryMaskDirectoryInput" ",omitempty"
          (GoType.ptr GoType.string), b)] := by
    unfold HashcatSessionOptions.reflect
    rw [hv]
    conv_lhs => rw [optionFields_split]
    rw [List.zip_append (by simp [hlen, optionFields_length])]
    rfl
  have hta := typeCheck_zip _ _ c.typed (StructField.mk "InputFile" "," GoType.string, a)
    (by show _ ∈ c.reflect; rw [hr]; simp)
  have htb := typeCheck_zip _ _ c.typed
    (StructField.mk "DictionaryMaskDirectoryInput" ",omitempty" (GoType.ptr GoType.string), b)
    (by show _ ∈ c.reflect; rw [hr]; simp)
  have ha : ∃ s, a = Value.string s := by
    cases a <;> simp [Value.hasType] at hta
    exact ⟨_, rfl⟩
  have hb : b = Value.nilPtr ∨ ∃ t, b = Value.ptr (Value.string t) := by
    cases b with
    | nilPtr => exact Or.inl rfl
    | ptr w =>
      cases w <;> simp [Value.hasType] at htb
      exact Or.inr ⟨_, rfl⟩
    | _ => simp [Value.hasType] at htb
  obtain ⟨s, rfl⟩ := ha
  exact ⟨vs, s, b, hlen, hb, hv, hr⟩

/-- C6. Positional arguments trail flags: the list returned by MarshalArgs is the switch
tokens of the set named fields in declaration order, followed by InputFile (when not
empty) and then DictionaryMaskDirectoryInput (when present and not empty); so no token of
a named switch field comes after a positional token. -/
theorem MarshalArgs_positional_last (c : HashcatSessionOptions) :
    c.MarshalArgs = (specArgs c, none) := by
  obtain ⟨vs, s, b, hlen, hb, _, hr⟩ := reflect_split c
  have hnamed : ∀ p ∈ (optionFields.take 76).zip vs,
      argumentName p.1 ≠ "" ∧ p.1.name ≠ "InputFile" ∧
        p.1.name ≠ "DictionaryMaskDirectoryInput" := fun p hp =>
    optionFields_named p.1 (List.of_mem_zip (a := p.1) (b := p.2) hp).1
  have hfilter : c.reflect.filter (fun p => argumentName p.1 != "") =
      (optionFields.take 76).zip vs := by
    rw [hr, List.filter_append, List.filter_eq_self.2 (fun p hp => by simpa using (hnamed p hp).1)]
    have h1 : argumentName (StructField.mk "InputFile" "," GoType.string) = "" := by decide
    have h2 : argumentName (StructField.mk "DictionaryMaskDirectoryInput" ",omitempty"
        (GoType.ptr GoType.string)) = "" := by decide
    simp [List.filter_cons, h1, h2]
  have hfindI : c.get "InputFile" = some (Value.string s) := by
    unfold HashcatSessionOptions.get
    show (List.find? _ c.reflect).map _ = _
    rw [hr, List.find?_append,
      List.find?_eq_none.2 (fun p hp => by simpa using (hnamed p hp).2.1)]
    simp [List.find?_cons]
  have hfindD : c.get "DictionaryMaskDirectoryInput" = some b := by
    unfold HashcatSessionOptions.get
    show (List.find? _ c.reflect).map _ = _
    rw [hr, List.find?_append,
      List.find?_eq_none.2 (fun p hp => by simpa using (hnamed p hp).2.2)]
    simp [List.find?_cons]
  rw [MarshalArgs_eq]
  unfold specArgs
  rw [hfilter, hfindI, hfindD]
  rw [hr, List.flatMap_append]
  have h1 : argumentName (StructField.mk "InputFile" "," GoType.string) = "" := by decide
  have h2 : argumentName (StructField.mk "DictionaryMaskDirectoryInput" ",omitempty"
      (GoType.ptr GoType.string)) = "" := by decide
  rcases hb with rfl | ⟨t, rfl⟩
  · simp [List.flatMap_cons, h1, h2, specTokens, List.append_assoc]
  · simp [List.flatMap_cons, h1, h2, specTokens, List.append_assoc]

/-! ## The flag set of ParseOptions -/

set_option maxRecDepth 100000 in
theorem registerFields_eq :
    registerFields optionFields flag.NewFlagSet = Outcome.returned initialFlagSet := by
  decide!

set_option maxRecDepth 100000 in
theorem optionFields_cellTyped : ∀ f ∈ optionFields, fieldCellTyped f = true := by decide!

set_option maxRecDepth 100000 in
theorem initialFlagSet_names : ∀ p ∈ initialFlagSet.formal,
    p.1 = "" ∨ String.mk ('-' :: '-' :: p.1.data) ∈ optionFields.map argumentName := by
  decide!

set_option maxRecDepth 100000 in
/-- C9, the code at the failing input: ParseOptions accepts the line of the test whose
first token has no dash; it returns a configuration and a nil error. -/
theorem ParseOptions_missing_dash_accepted :
    ParseOptions "thisisatest --optimized-kernel-enable=true --custom-charset1=DEADBEEF" =
      Outcome.returned (some optionsParsedNothing, none) := by
  decide!

open flag

/-! ## Cells of a flag set -/

theorem Set_cellType (fv : flag.Value) (x : String) : (fv.Set x).1.cellType = fv.cellType := by
  cases fv <;> rfl

theorem lookup_storeIn (l : List (String × flag.Value)) (name n : String) (v : flag.Value) :
    ((storeIn l name v).find? (fun p => p.1 == n)).map (fun p => p.2) =
      if n = name ∧ (l.find? (fun p => p.1 == name)).isSome then some v
      else (l.find? (fun p => p.1 == n)).map (fun p => p.2) := by
  induction l with
  | nil => simp [storeIn]
  | cons p rest ih =>
    simp only [storeIn]
    by_cases hp : p.1 = name
    · simp only [hp, beq_self_eq_true, if_true, List.find?_cons]
      by_cases hn : n = name
      · simp [hn]
      · have : (name == n) = false := by simpa using Ne.symm hn
        simp [hn, this]
    · have hpb : (p.1 == name) = false := by simpa using hp
      simp only [hpb, Bool.false_eq_true, if_false, List.find?_cons]
      by_cases hpn : p.1 = n
      · have hnn : n ≠ name := fun h => hp (hpn.trans h)
        simp [hpn, hnn]
      · have hpnb : (p.1 == n) = false := by simpa using hpn
        simp only [hpnb, ih]

theorem lookup_store (f : FlagSet) (name n : String) (v : flag.Value) :
    (f.store name v).lookup n =
      if n = name ∧ (f.lookup name).isSome then some v else f.lookup n := by
  unfold FlagSet.store FlagSet.lookup
  simp only [lookup_storeIn, Option.isSome_map']

theorem typeOf_store (f : FlagSet) (name : String) (fv v : flag.Value)
    (hl : f.lookup name = some fv) (hv : v.cellType = fv.cellType) (n : String) :
    (f.store name v).typeOf n = f.typeOf n := by
  unfold FlagSet.typeOf
  rw [lookup_store]
  split_ifs with h
  · rw [h.1, hl]; simp [hv]
  · rfl

open flag

open flag

/-! ## One round of the flag parser -/

theorem dropWhile_no_equals (l : List Char) (h : '=' ∉ l) :
    l.dropWhile (fun x => x != '=') = [] := by
  rw [List.dropWhile_eq_nil_iff]
  intro x hx
  simpa using fun hxe : x = '=' => h (hxe ▸ hx)

theorem dropWhile_append_equals (l w : List Char) (h : '=' ∉ l) :
    (l ++ '=' :: w).dropWhile (fun x => x != '=') = '=' :: w := by
  induction l with
  | nil => simp
  | cons a l ih =>
    have ha : a ≠ '=' := fun hae => h (hae ▸ List.mem_cons_self _ _)
    have hl : '=' ∉ l := fun hm => h (List.mem_cons_of_mem _ hm)
    simp [List.dropWhile_cons, ha, ih hl]

theorem splitNameValue_bare (c : Char) (cs : List Char) (h : '=' ∉ cs) :
    splitNameValue (c :: cs) = (c :: cs, false, []) := by
  simp [splitNameValue, dropWhile_no_equals cs h]

theorem splitNameValue_valued (c : Char) (cs w : List Char) (h : '=' ∉ cs) :
    splitNameValue (c :: (cs ++ '=' :: w)) = (c :: cs, true, w) := by
  simp only [splitNameValue, dropWhile_append_equals cs w h, takeWhile_append_equals cs w h]

theorem parseOne_nil (f : FlagSet) (hargs : f.args = []) : f.parseOne = (f, false, none) := by
  unfold FlagSet.parseOne
  rw [hargs]

theorem parseOne_nonflag (f : FlagSet) (s : String) (rest : List String)
    (hargs : f.args = s :: rest) (hs : s.data.head? ≠ some '-') :
    f.parseOne = (f, false, none) := by
  unfold FlagSet.parseOne
  rw [hargs]
  simp only
  split
  · rfl
  · rfl
  · rename_i c0 c1 tl hd
    have : c0 ≠ '-' := by
      intro h; apply hs; rw [hd, h]; rfl
    simp [this]

/-- A token that starts with two dashes and then a character other than '-' and '=' is
handed to the second half of parseOne. -/
theorem parseOne_flag (f : FlagSet) (s : String) (rest : List String) (c : Char)
    (cs : List Char) (hargs : f.args = s :: rest) (hs : s.data = '-' :: '-' :: c :: cs)
    (hc1 : c ≠ '-') (hc2 : c ≠ '=') :
    f.parseOne = FlagSet.parseFlag { f with args := rest } (c :: cs) := by
  unfold FlagSet.parseOne
  rw [hargs]
  simp [hs, hc1, hc2]

/-- A token "--name" of a defined boolean flag sets the flag to true. -/
theorem parseFlag_bool (f : FlagSet) (c : Char) (cs : List Char) (b : Bool)
    (hcs : '=' ∉ cs) (hl : f.lookup (String.mk (c :: cs)) = some (flag.Value.boolValue b)) :
    f.parseFlag (c :: cs) =
      (f.assign f.args (String.mk (c :: cs)) (flag.Value.boolValue true), true, none) := by
  unfold FlagSet.parseFlag
  simp [splitNameValue_bare c cs hcs, hl, flag.Value.IsBoolFlag, flag.Value.Set,
    strconv.ParseBool]

/-- A token "--name=value" of a defined flag whose cell accepts the value sets the flag. -/
theorem parseFlag_valued (f : FlagSet) (c : Char) (cs w : List Char) (fv : flag.Value)
    (hcs : '=' ∉ cs) (hl : f.lookup (String.mk (c :: cs)) = some fv)
    (hset : (fv.Set (String.mk w)).2 = none) :
    f.parseFlag (c :: (cs ++ '=' :: w)) =
      (f.assign f.args (String.mk (c :: cs)) (fv.Set (String.mk w)).1, true, none) := by
  unfold FlagSet.parseFlag
  simp only [splitNameValue_valued c cs w hcs, hl, if_true, hset]
  split_ifs <;> rfl

/-- A token whose name is not defined is an error. -/
theorem parseFlag_unknown (f : FlagSet) (body : List Char)
    (hl : f.lookup (String.mk (splitNameValue body).1) = none) :
    ∃ (f1 : FlagSet) (e : String), f.parseFlag body = (f1, false, some e) := by
  unfold FlagSet.parseFlag
  simp only [hl]
  split_ifs <;> exact ⟨_, _, rfl⟩

theorem typeOf_args (f : FlagSet) (a : List String) (n : String) :
    FlagSet.typeOf { f with args := a } n = f.typeOf n := rfl

theorem typeOf_assign (f : FlagSet) (a : List String) (name : String) (fv v : flag.Value)
    (hl : f.lookup name = some fv) (hv : v.cellType = fv.cellType) (n : String) :
    (f.assign a name v).typeOf n = f.typeOf n :=
  typeOf_store f name fv v hl hv n

/-- The second half of parseOne leaves every cell of its type. -/
theorem parseFlag_typeOf (f : FlagSet) (body : List Char) (n : String) :
    (f.parseFlag body).1.typeOf n = f.typeOf n := by
  unfold FlagSet.parseFlag
  dsimp only
  split
  · split_ifs <;> rfl
  · rename_i fv hfv
    repeat' split
    all_goals first
      | rfl
      | exact typeOf_store _ _ fv _ hfv (Set_cellType _ _) n

/-- A round of the parser leaves every cell of its type. -/
theorem parseOne_typeOf (f : FlagSet) (n : String) : f.parseOne.1.typeOf n = f.typeOf n := by
  unfold FlagSet.parseOne
  dsimp only
  repeat' split
  all_goals first
    | rfl
    | exact parseFlag_typeOf _ _ n

/-- The second half of parseOne never adds arguments. -/
theorem parseFlag_args (f : FlagSet) (body : List Char) :
    (f.parseFlag body).1.args.length ≤ f.args.length := by
  unfold FlagSet.parseFlag
  dsimp only
  repeat' split
  all_goals first
    | exact Nat.le_refl _
    | simp [FlagSet.store, FlagSet.assign, *]

/-- A round of the parser that sees a flag takes at least one argument. -/
theorem parseOne_args (f : FlagSet) (h : f.parseOne.2.1 = true) :
    f.parseOne.1.args.length < f.args.length := by
  unfold FlagSet.parseOne at h ⊢
  dsimp only at h ⊢
  split at h
  · simp at h
  · rename_i s rest hargs
    rw [hargs]
    split at h
    · simp at h
    · simp at h
    · split_ifs at h ⊢
      all_goals exact Nat.lt_succ_of_le (parseFlag_args _ _)

open flag

/-! ## The loop of Parse -/

/-- The loop of Parse leaves every cell of its type. -/
theorem parseLoop_typeOf : ∀ (fuel : Nat) (f : FlagSet) (n : String),
    (FlagSet.parseLoop fuel f).1.typeOf n = f.typeOf n
  | 0, f, n => rfl
  | fuel + 1, f, n => by
    unfold FlagSet.parseLoop
    have h1 := parseOne_typeOf f n
    split
    · rename_i f1 _ heq
      rw [heq] at h1
      rw [parseLoop_typeOf fuel f1 n]; exact h1
    · rename_i f1 heq
      rw [heq] at h1; exact h1
    · rename_i f1 err heq
      rw [heq] at h1; exact h1

/-- Fuel above the number of arguments is never used up: the result of the loop does not
depend on it. -/
theorem parseLoop_fuel : ∀ (n m : Nat) (f : FlagSet), f.args.length < n → f.args.length < m →
    FlagSet.parseLoop n f = FlagSet.parseLoop m f
  | 0, _, _, h, _ => absurd h (Nat.not_lt_zero _)
  | _ + 1, 0, _, _, h => absurd h (Nat.not_lt_zero _)
  | n + 1, m + 1, f, hn, hm => by
    unfold FlagSet.parseLoop
    have h1 := parseOne_args f
    split
    · rename_i f1 _ heq
      rw [heq] at h1
      have h2 := h1 rfl
      exact parseLoop_fuel n m f1 (by simp only [] at h2; omega) (by simp only [] at h2; omega)
    · rfl
    · rfl

theorem Parse_typeOf (f : FlagSet) (arguments : List String) (n : String) :
    (f.Parse arguments).1.typeOf n = f.typeOf n := by
  unfold FlagSet.Parse
  rw [parseLoop_typeOf]
  rfl

/-! ## What ParseOptions returns -/

theorem zero_hasType (t : GoType) : t.zero.hasType t = true := by
  cases t <;> simp [GoType.zero, Value.hasType]

theorem typeCheck_map (g : StructField → Value) : ∀ (fs : List StructField),
    (∀ f ∈ fs, (g f).hasType f.type = true) → typeCheck fs (fs.map g) = true
  | [], _ => rfl
  | f :: fs, h => by
    simp only [List.map_cons, typeCheck, Bool.and_eq_true]
    exact ⟨h f (List.mem_cons_self _ _),
      typeCheck_map g fs (fun x hx => h x (List.mem_cons_of_mem _ hx))⟩

theorem deref_hasType (cell : flag.Value) : cell.deref.hasType cell.cellType = true := by
  cases cell <;> rfl

/-- Every field ParseOptions fills is of its declared type. -/
theorem fieldAfterParse_hasType (fs : FlagSet)
    (hinv : ∀ n, fs.typeOf n = initialFlagSet.typeOf n) (f : StructField)
    (hf : f ∈ optionFields) : (fieldAfterParse fs f).hasType f.type = true := by
  have hcell := optionFields_cellTyped f hf
  unfold fieldAfterParse
  split_ifs with h1 h2
  · exact zero_hasType _
  · exact zero_hasType _
  · have htag : (f.tag == "") = false := by simpa using h2
    simp only [fieldCellTyped, htag, Bool.false_or] at hcell
    split
    · rename_i hty
      simp only [hty, beq_iff_eq] at hcell
      rw [← hinv] at hcell
      split
      · rename_i cell hl
        simp only [FlagSet.typeOf, hl, Option.map_some', Option.some.injEq] at hcell
        rw [hty]
        have := deref_hasType cell
        rw [hcell] at this
        simpa [Value.hasType] using this
      · rw [hty]; rfl
    · rename_i hty
      simp only [hty, beq_iff_eq] at hcell
      rw [← hinv] at hcell
      split
      · rename_i cell hl
        simp only [FlagSet.typeOf, hl, Option.map_some', Option.some.injEq] at hcell
        rw [hty]
        have := deref_hasType cell
        rw [hcell] at this
        simpa [Value.hasType] using this
      · rw [hty]; rfl
    · rename_i hty
      simp only [hty, beq_iff_eq] at hcell
      rw [← hinv] at hcell
      split
      · rename_i cell hl
        simp only [FlagSet.typeOf, hl, Option.map_some', Option.some.injEq] at hcell
        rw [hty]
        have := deref_hasType cell
        rw [hcell] at this
        simpa [Value.hasType] using this
      · rw [hty]; rfl
    · exact zero_hasType _

/-- ParseOptions never panics. It returns the error of the flag parser and no
configuration, or no error and the configuration read off the flag set. -/
theorem ParseOptions_cases (line : String) :
    (∃ e, (initialFlagSet.Parse (strings.Fields line)).2 = some e ∧
        ParseOptions line = Outcome.returned (none, some e)) ∨
      (∃ c : HashcatSessionOptions, (initialFlagSet.Parse (strings.Fields line)).2 = none ∧
        ParseOptions line = Outcome.returned (some c, none) ∧
        c.values = optionFields.map
          (fieldAfterParse (initialFlagSet.Parse (strings.Fields line)).1)) := by
  unfold ParseOptions
  rw [registerFields_eq]
  dsimp only
  have htyped : typeCheck optionFields (optionFields.map
      (fieldAfterParse (initialFlagSet.Parse (strings.Fields line)).1)) = true :=
    typeCheck_map _ _ (fun f hf =>
      fieldAfterParse_hasType _ (fun n => Parse_typeOf initialFlagSet _ n) f hf)
  cases hp : initialFlagSet.Parse (strings.Fields line) with
  | mk fs1 err =>
    rw [hp] at htyped
    cases err with
    | some e => exact Or.inl ⟨e, rfl, rfl⟩
    | none =>
      right
      refine ⟨⟨_, htyped⟩, rfl, ?_, rfl⟩
      simp only [HashcatSessionOptions.ofValues?, htyped, dite_true]

open flag

/-! ## Rejected and accepted lines -/

theorem parseLoop_error (fuel : Nat) (f f1 : FlagSet) (e : String)
    (h : f.parseOne = (f1, false, some e)) :
    FlagSet.parseLoop (fuel + 1) f = (f1, some e) := by
  unfold FlagSet.parseLoop
  rw [h]

theorem parseLoop_stop (fuel : Nat) (f f1 : FlagSet) (h : f.parseOne = (f1, false, none)) :
    FlagSet.parseLoop (fuel + 1) f = (f1, none) := by
  unfold FlagSet.parseLoop
  rw [h]

theorem parseLoop_seen (fuel : Nat) (f f1 : FlagSet) (e : Option String)
    (h : f.parseOne = (f1, true, e)) :
    FlagSet.parseLoop (fuel + 1) f = FlagSet.parseLoop fuel f1 := by
  conv_lhs => unfold FlagSet.parseLoop
  rw [h]

theorem parseOne_bad (f : FlagSet) (s : String) (rest : List String) (c : Char)
    (cs : List Char) (hargs : f.args = s :: rest) (hs : s.data = '-' :: '-' :: c :: cs)
    (hc : c = '-' ∨ c = '=') :
    f.parseOne = (f, false, some ("bad flag syntax: " ++ s)) := by
  unfold FlagSet.parseOne
  rw [hargs]
  simp [hs, hc]

theorem splitNameValue_fst (c : Char) (cs : List Char) :
    (splitNameValue (c :: cs)).1 = c :: cs.takeWhile (fun x => x != '=') := by
  simp only [splitNameValue]
  split
  · rename_i h
    rw [List.dropWhile_eq_nil_iff] at h
    simp only
    rw [List.takeWhile_eq_self_iff.2 h]
  · rfl

theorem lookup_some_mem (f : FlagSet) (name : String) (v : flag.Value)
    (h : f.lookup name = some v) : (name, v) ∈ f.formal := by
  unfold FlagSet.lookup at h
  obtain ⟨p, hp, hv⟩ := Option.map_eq_some'.1 h
  have h1 := List.find?_some hp
  have h2 := List.mem_of_find?_eq_some hp
  have h3 : p.1 = name := by simpa using h1
  rw [← h3, ← hv]
  exact h2

/-- A name that is defined as a flag is empty or, with "--" in front, an argumentName of
the schema. -/
theorem initialFlagSet_lookup_none (name : String) (hne : name ≠ "")
    (h : String.mk ('-' :: '-' :: name.data) ∉ optionFields.map argumentName) :
    initialFlagSet.lookup name = none := by
  cases hl : initialFlagSet.lookup name with
  | none => rfl
  | some v =>
    rcases initialFlagSet_names _ (lookup_some_mem _ _ _ hl) with h1 | h1
    · exact absurd h1 hne
    · exact absurd h1 h

/-- C8. Unknown switch rejection: when the first whitespace-separated token of the line is
a switch, two dashes and then text, and the part of it before any '=' is not an
argumentName of the schema, ParseOptions returns a non-nil error and a nil configuration,
whatever tokens follow. -/
theorem ParseOptions_unknown_switch (line tok : String) (body : List Char)
    (hfirst : (strings.Fields line).head? = some tok)
    (htok : tok.data = '-' :: '-' :: body) (hbody : body ≠ [])
    (hname : tokenKey tok ∉ optionFields.map argumentName) :
    ∃ e, ParseOptions line = Outcome.returned (none, some e) := by
  obtain ⟨rest, hfields⟩ : ∃ rest, strings.Fields line = tok :: rest := by
    cases hF : strings.Fields line with
    | nil => simp [hF] at hfirst
    | cons a rest =>
      simp only [hF, List.head?_cons, Option.some.injEq] at hfirst
      exact ⟨rest, by rw [hfirst]⟩
  have herr : ∃ f1 e, (initialFlagSet.Parse (strings.Fields line)) = (f1, some e) := by
    rw [hfields]
    unfold FlagSet.Parse
    obtain ⟨c, cs, rfl⟩ : ∃ c cs, body = c :: cs := by
      cases body with
      | nil => exact absurd rfl hbody
      | cons c cs => exact ⟨c, cs, rfl⟩
    by_cases hc : c = '-' ∨ c = '='
    · exact ⟨_, _, parseLoop_error _ _ _ _ (parseOne_bad _ tok rest c cs rfl htok hc)⟩
    · have hc1 : c ≠ '-' := fun h => hc (Or.inl h)
      have hc2 : c ≠ '=' := fun h => hc (Or.inr h)
      have hkey : tokenKey tok =
          String.mk ('-' :: '-' :: c :: cs.takeWhile (fun x => x != '=')) := by
        unfold tokenKey
        rw [htok]
        simp [List.takeWhile_cons, hc2]
      have hl : FlagSet.lookup { initialFlagSet with args := rest }
          (String.mk (splitNameValue (c :: cs)).1) = none := by
        show initialFlagSet.lookup _ = none
        apply initialFlagSet_lookup_none
        · rw [splitNameValue_fst]
          intro h
          have := congrArg String.data h
          simp at this
        · rw [splitNameValue_fst, ← hkey]
          exact hname
      obtain ⟨f1, e, he⟩ := parseFlag_unknown _ _ hl
      refine ⟨f1, e, parseLoop_error _ _ _ _ ?_⟩
      rw [parseOne_flag _ tok rest c cs rfl htok hc1 hc2]
      exact he
  obtain ⟨f1, e, he⟩ := herr
  rcases ParseOptions_cases line with ⟨e2, _, h2⟩ | ⟨c, h1, _⟩
  · exact ⟨e2, h2⟩
  · rw [he] at h1
    simp at h1

set_option maxRecDepth 100000 in
/-- C8, witness: the two lines of the specification and of the test. -/
theorem ParseOptions_unknown_switch_witness :
    (∃ e, ParseOptions "--nonexistent-flag=1" = Outcome.returned (none, some e)) ∧
    (∃ e, ParseOptions
        "--invalid-option --optimized-kernel-enable=true --custom-charset1=DEADBEEF" =
      Outcome.returned (none, some e)) :=
  ⟨ParseOptions_unknown_switch "--nonexistent-flag=1" "--nonexistent-flag=1"
      "nonexistent-flag=1".data (by decide!) (by decide!) (by decide!) (by decide!),
    ParseOptions_unknown_switch
      "--invalid-option --optimized-kernel-enable=true --custom-charset1=DEADBEEF"
      "--invalid-option" "invalid-option".data (by decide!) (by decide!) (by decide!)
      (by decide!)⟩

/-- C10. ParseOptions never returns a partial object: for every input string it returns
(it does not panic) either a configuration with a nil error, or a nil configuration with
an error; never both and never neither. -/
theorem ParseOptions_never_partial (line : String) :
    ∃ (o : Option HashcatSessionOptions) (e : Option String),
      ParseOptions line = Outcome.returned (o, e) ∧
        ((o.isSome = true ∧ e = none) ∨ (o = none ∧ e.isSome = true)) := by
  rcases ParseOptions_cases line with ⟨e, _, h⟩ | ⟨c, _, h, _⟩
  · exact ⟨none, some e, h, Or.inr ⟨rfl, rfl⟩⟩
  · exact ⟨some c, none, h, Or.inl ⟨rfl, rfl⟩⟩

/-! ## Decimal numerals: what Sprintf writes, ParseInt reads back -/

theorem decVal_ge (l : List Char) : ∀ acc : Nat, acc ≤ decVal l acc := by
  induction l with
  | nil => intro acc; exact Nat.le_refl _
  | cons c l ih =>
    intro acc
    have := ih (acc * 10 + (c.toNat - 48))
    simp only [decVal, List.foldl_cons] at this ⊢
    omega

theorem uintLoop_digits (s0 : List Char) (l : List Char) :
    ∀ acc : Nat, allDigits l → decVal l acc ≤ 18446744073709551615 →
      strconv.uintLoop s0 10 true (18446744073709551615 / 10 + 1) (2 ^ 64 - 1) l acc false =
        (decVal l acc, none) := by
  induction l with
  | nil => intro acc _ _; simp [strconv.uintLoop, decVal]
  | cons c l ih =>
    intro acc hd hb
    have hc := hd c (List.mem_cons_self _ _)
    have hl : allDigits l := fun x hx => hd x (List.mem_cons_of_mem _ hx)
    have hstep : decVal (c :: l) acc = decVal l (acc * 10 + (c.toNat - 48)) := rfl
    rw [hstep] at hb ⊢
    have hge := decVal_ge l (acc * 10 + (c.toNat - 48))
    have hne : c ≠ '_' := by
      intro h; rw [h] at hc; revert hc; decide
    rw [strconv.uintLoop]
    have h0 : ('0' : Char).toNat = 48 := rfl
    have h9 : ('9' : Char).toNat = 57 := rfl
    simp only [hne, decide_False, Bool.false_and, Bool.false_eq_true, if_false, h0, h9,
      hc.1, hc.2, decide_True, Bool.and_self, if_true]
    have h1 : ¬ (c.toNat - 48 ≥ 10) := by omega
    have h2 : ¬ (acc ≥ 18446744073709551615 / 10 + 1) := by omega
    have h3 : acc * 10 % 18446744073709551616 = acc * 10 := Nat.mod_eq_of_lt (by omega)
    have h4 : (acc * 10 + (c.toNat - 48)) % 18446744073709551616 = acc * 10 + (c.toNat - 48) :=
      Nat.mod_eq_of_lt (by omega)
    simp only [h1, h2, if_false, h3, h4]
    have h5 : ¬ (acc * 10 + (c.toNat - 48) < acc * 10) := by omega
    have h6 : ¬ (acc * 10 + (c.toNat - 48) > 2 ^ 64 - 1) := by
      have : (2 : Nat) ^ 64 - 1 = 18446744073709551615 := by norm_num
      omega
    simp only [h5, h6, decide_False, Bool.or_self, Bool.false_eq_true, if_false]
    exact ih _ hl hb

theorem toDigitsCore_append (fuel : Nat) : ∀ (n : Nat) (ds : List Char),
    Nat.toDigitsCore 10 fuel n ds = Nat.toDigitsCore 10 fuel n [] ++ ds := by
  induction fuel with
  | zero => intro n ds; simp [Nat.toDigitsCore]
  | succ fuel ih =>
    intro n ds
    simp only [Nat.toDigitsCore]
    split_ifs
    · simp
    · rw [ih (n / 10) (Nat.digitChar (n % 10) :: ds), ih (n / 10) [Nat.digitChar (n % 10)]]
      simp

theorem toDigitsCore_fuel : ∀ (fuel1 fuel2 n : Nat), n < fuel1 → n < fuel2 →
    Nat.toDigitsCore 10 fuel1 n [] = Nat.toDigitsCore 10 fuel2 n []
  | 0, _, _, h, _ => absurd h (Nat.not_lt_zero _)
  | _ + 1, 0, _, _, h => absurd h (Nat.not_lt_zero _)
  | fuel1 + 1, fuel2 + 1, n, h1, h2 => by
    simp only [Nat.toDigitsCore]
    split_ifs with h0
    · rfl
    · have hlt : n / 10 < n := Nat.div_lt_self (by omega) (by decide)
      rw [toDigitsCore_append fuel1, toDigitsCore_append fuel2,
        toDigitsCore_fuel fuel1 fuel2 (n / 10) (by omega) (by omega)]

/-- The decimal digits of n: those of n / 10 and then the digit n % 10. -/
theorem toDigits_step (n : Nat) (h : 10 ≤ n) :
    Nat.toDigits 10 n = Nat.toDigits 10 (n / 10) ++ [Nat.digitChar (n % 10)] := by
  have hlt : n / 10 < n := Nat.div_lt_self (by omega) (by decide)
  have h0 : n / 10 ≠ 0 := by omega
  unfold Nat.toDigits
  rw [Nat.toDigitsCore]
  simp only [h0, if_false]
  rw [toDigitsCore_append, toDigitsCore_fuel n (n / 10 + 1) (n / 10) hlt (Nat.lt_succ_self _)]

theorem toDigits_small (n : Nat) (h : n < 10) : Nat.toDigits 10 n = [Nat.digitChar n] := by
  unfold Nat.toDigits
  rw [Nat.toDigitsCore]
  have h0 : n / 10 = 0 := by omega
  have h1 : n % 10 = n := by omega
  simp [h0, h1]

theorem digitChar_toNat : ∀ d < 10, (Nat.digitChar d).toNat = 48 + d := by decide

theorem toDigits_allDigits (n : Nat) : allDigits (Nat.toDigits 10 n) := by
  induction n using Nat.strong_induction_on with
  | _ n ih =>
    by_cases h : n < 10
    · rw [toDigits_small n h]
      intro c hc
      simp only [List.mem_singleton] at hc
      rw [hc, digitChar_toNat n h]; omega
    · rw [toDigits_step n (by omega)]
      intro c hc
      rcases List.mem_append.1 hc with hc | hc
      · exact ih (n / 10) (Nat.div_lt_self (by omega) (by decide)) c hc
      · simp only [List.mem_singleton] at hc
        rw [hc, digitChar_toNat _ (Nat.mod_lt _ (by decide))]
        have := Nat.mod_lt n (show 10 > 0 by decide)
        omega

theorem decVal_append (l1 l2 : List Char) (acc : Nat) :
    decVal (l1 ++ l2) acc = decVal l2 (decVal l1 acc) := by
  simp [decVal, List.foldl_append]

theorem decVal_toDigits (n : Nat) : decVal (Nat.toDigits 10 n) 0 = n := by
  induction n using Nat.strong_induction_on with
  | _ n ih =>
    by_cases h : n < 10
    · rw [toDigits_small n h]
      simp [decVal, digitChar_toNat n h]
    · rw [toDigits_step n (by omega), decVal_append,
        ih (n / 10) (Nat.div_lt_self (by omega) (by decide))]
      simp only [decVal, List.foldl_cons, List.foldl_nil,
        digitChar_toNat _ (Nat.mod_lt n (show 10 > 0 by decide))]
      omega

/-- The first decimal digit of a positive number is not zero. -/
theorem toDigits_head (n : Nat) (h : 0 < n) :
    ∃ (c : Char) (cs : List Char), Nat.toDigits 10 n = c :: cs ∧ 49 ≤ c.toNat ∧ c.toNat ≤ 57 := by
  induction n using Nat.strong_induction_on with
  | _ n ih =>
    by_cases hs : n < 10
    · refine ⟨Nat.digitChar n, [], toDigits_small n hs, ?_⟩
      rw [digitChar_toNat n hs]; omega
    · obtain ⟨c, cs, hcs, hc⟩ := ih (n / 10) (Nat.div_lt_self (by omega) (by decide)) (by omega)
      exact ⟨c, cs ++ [Nat.digitChar (n % 10)], by rw [toDigits_step n (by omega), hcs]; rfl, hc⟩

theorem ParseUint_toDigits (m : Nat) (h : m ≤ 18446744073709551615) :
    strconv.ParseUint (String.mk (Nat.toDigits 10 m)) 0 64 = (m, none) := by
  by_cases h0 : m = 0
  · subst h0
    decide
  · obtain ⟨c, cs, hcs, hc⟩ := toDigits_head m (by omega)
    have hall := toDigits_allDigits m
    have hval := decVal_toDigits m
    unfold strconv.ParseUint
    simp only [hcs]
    have hne : c ≠ '0' := by
      intro hc0; rw [hc0] at hc; revert hc; decide
    simp only [reduceCtorEq, if_false]
    simp only [show (2 ≤ 0 && 0 ≤ 36) = false by decide, Bool.false_eq_true, if_false,
      show ((0 : Nat) == 0) = true by decide, if_true]
    split
    · rename_i heq
      simp only [List.cons.injEq] at heq
      exact absurd heq.1 hne
    · rename_i heq
      simp only [List.cons.injEq] at heq
      exact absurd heq.1 hne
    · rw [← hcs, uintLoop_digits _ _ 0 hall (by rw [hval]; exact h), hval]

theorem toDigits_ne_nil (m : Nat) : Nat.toDigits 10 m ≠ [] := by
  by_cases h : m < 10
  · rw [toDigits_small m h]; simp
  · rw [toDigits_step m (by omega)]; simp

/-- ParseInt reads back the decimal text of every Go int. -/
theorem ParseInt_toString (n : GoInt) : strconv.ParseInt (toString n.val) 0 64 = (n, none) := by
  obtain ⟨z, hz1, hz2⟩ := n
  cases z with
  | ofNat m =>
    have hs : toString (Int.ofNat m) = String.mk (Nat.toDigits 10 m) := rfl
    have hm : m ≤ 9223372036854775807 := by
      have : (Int.ofNat m) = (m : Int) := rfl
      omega
    simp only [hs]
    unfold strconv.ParseInt
    cases hd : Nat.toDigits 10 m with
    | nil => exact absurd hd (toDigits_ne_nil m)
    | cons c cs =>
      have hc := toDigits_allDigits m c (by rw [hd]; exact List.mem_cons_self _ _)
      have hplus : c ≠ '+' := by
        intro h; rw [h] at hc; revert hc; decide
      have hminus : c ≠ '-' := by
        intro h; rw [h] at hc; revert hc; decide
      have hpu := ParseUint_toDigits m (by omega)
      rw [hd] at hpu
      have hb : (c == '-') = false := by simpa using hminus
      have h1 : ¬ (m ≥ 2 ^ (64 - 1)) := by
        have : (2 : Nat) ^ (64 - 1) = 9223372036854775808 := by norm_num
        omega
      simp only [hplus, hminus, if_false, hpu, hb, reduceCtorEq, h1, decide_False,
        Bool.not_false, Bool.true_and, Bool.false_and, Bool.false_eq_true, Bool.and_false,
        Prod.mk.injEq, and_true]
      apply Subtype.ext
      simp only [GoInt.wrap]
      have : (Int.ofNat m) = (m : Int) := rfl
      omega
  | negSucc k =>
    have hs : toString (Int.negSucc k) = "-" ++ String.mk (Nat.toDigits 10 (k + 1)) := rfl
    have hk : k + 1 ≤ 9223372036854775808 := by
      have : Int.negSucc k = -((k : Int) + 1) := rfl
      omega
    have hdata : ("-" ++ String.mk (Nat.toDigits 10 (k + 1))).data =
        '-' :: Nat.toDigits 10 (k + 1) := rfl
    simp only [hs]
    unfold strconv.ParseInt
    have hpu := ParseUint_toDigits (k + 1) (by omega)
    simp only [hdata, reduceCtorEq, if_false, if_true, hpu, beq_self_eq_true,
      Bool.not_true, Bool.false_and, Bool.false_eq_true, Bool.true_and,
      show ('-' : Char) ≠ '+' by decide]
    have h1 : ¬ (k + 1 > 2 ^ (64 - 1)) := by
      have : (2 : Nat) ^ (64 - 1) = 9223372036854775808 := by norm_num
      omega
    simp only [h1, decide_False, Bool.false_eq_true, if_false, Prod.mk.injEq, and_true]
    apply Subtype.ext
    simp only [GoInt.wrap]
    have : Int.negSucc k = -((k : Int) + 1) := rfl
    push_cast
    omega

/-! ## Joining with spaces and splitting at white space -/

theorem fieldsFrom_word (w : List Char) : ∀ (rest cur : List Char),
    (∀ ch ∈ w, unicode.IsSpace ch = false) →
    strings.fieldsFrom (w ++ rest) cur = strings.fieldsFrom rest (cur ++ w) := by
  induction w with
  | nil => intro rest cur _; simp
  | cons c w ih =>
    intro rest cur h
    have hc : unicode.IsSpace c = false := h c (List.mem_cons_self _ _)
    have := ih rest (cur ++ [c]) (fun ch hch => h ch (List.mem_cons_of_mem _ hch))
    simp only [List.cons_append, strings.fieldsFrom, hc, Bool.false_eq_true, if_false]
    simpa using this

theorem Join_cons_cons (a b : String) (rest : List String) (sep : String) :
    strings.Join (a :: b :: rest) sep = a ++ sep ++ strings.Join (b :: rest) sep := rfl

/-- Splitting the space-joined tokens gives the tokens back. -/
theorem Fields_Join : ∀ (tokens : List String), (∀ t ∈ tokens, plainToken t) →
    strings.Fields (strings.Join tokens " ") = tokens
  | [], _ => by decide
  | [a], h => by
    obtain ⟨hne, hsp⟩ := h a (List.mem_cons_self _ _)
    unfold strings.Fields
    simp only [strings.Join]
    have := fieldsFrom_word a.data [] [] hsp
    simp only [List.append_nil, List.nil_append] at this
    rw [this]
    simp [strings.fieldsFrom, hne]
  | a :: b :: rest, h => by
    obtain ⟨hne, hsp⟩ := h a (List.mem_cons_self _ _)
    have ih := Fields_Join (b :: rest) (fun t ht => h t (List.mem_cons_of_mem _ ht))
    unfold strings.Fields at ih ⊢
    rw [Join_cons_cons]
    have hdata : (a ++ " " ++ strings.Join (b :: rest) " ").data =
        a.data ++ ' ' :: (strings.Join (b :: rest) " ").data := by
      simp [String.data_append]
    rw [hdata, fieldsFrom_word a.data _ [] hsp]
    have hspace : unicode.IsSpace ' ' = true := by decide
    simp only [List.nil_append, strings.fieldsFrom, hspace, if_true, hne, if_false, ih]

open flag

/-! ## Parsing the tokens of one field -/

set_option maxRecDepth 100000 in
theorem optionFields_namedSwitch : ∀ f ∈ optionFields.take 76, namedSwitch f = true := by
  decide!

theorem namedSwitch_spec (f : StructField) (h : namedSwitch f = true) :
    ∃ (c : Char) (cs : List Char), (flagName f.tag).data = c :: cs ∧ c ≠ '-' ∧ c ≠ '=' ∧
      '=' ∉ cs ∧ (argumentName f).data = '-' :: '-' :: c :: cs ∧ f.tag ≠ "" ∧
      (f.type = GoType.ptr GoType.int ∨ f.type = GoType.ptr GoType.bool ∨
        f.type = GoType.ptr GoType.string) ∧
      (∀ ch ∈ (argumentName f).data, unicode.IsSpace ch = false) := by
  simp only [namedSwitch, Bool.and_eq_true, bne_iff_ne, ne_eq, beq_iff_eq, Bool.or_eq_true,
    List.all_eq_true, Bool.not_eq_true'] at h
  obtain ⟨⟨⟨⟨htag, hdata⟩, hname⟩, hty⟩, hsp⟩ := h
  cases hfl : (flagName f.tag).data with
  | nil => simp [hfl] at hname
  | cons c cs =>
    simp only [hfl, Bool.and_eq_true, bne_iff_ne, ne_eq, Bool.not_eq_true',
      List.contains_eq_any_beq, List.any_eq_false, beq_iff_eq] at hname
    refine ⟨c, cs, rfl, hname.1.1, hname.1.2, ?_, ?_, htag, ?_, hsp⟩
    · intro hm
      exact hname.2 '=' hm rfl
    · rw [hdata, hfl]
    · rcases hty with (h1 | h1) | h1
      · exact Or.inl h1
      · exact Or.inr (Or.inl h1)
      · exact Or.inr (Or.inr h1)

open flag

theorem lookup_of_typeOf (f : FlagSet) (name : String) (t : GoType)
    (h : f.typeOf name = some t) : ∃ cell, f.lookup name = some cell ∧ cell.cellType = t := by
  unfold FlagSet.typeOf at h
  cases hl : f.lookup name with
  | none => simp [hl] at h
  | some cell => exact ⟨cell, rfl, by simpa [hl] using h⟩

/-- The cell of a switch field in a flag set that has the cells of the initial one. -/
theorem field_cell (f : FlagSet) (hinv : ∀ n, f.typeOf n = initialFlagSet.typeOf n)
    (g : StructField) (hg : g ∈ optionFields) (htag : g.tag ≠ "") (t : GoType)
    (hty : g.type = GoType.ptr t)
    (ht : t = GoType.int ∨ t = GoType.bool ∨ t = GoType.string) :
    ∃ cell, f.lookup (flagName g.tag) = some cell ∧ cell.cellType = t := by
  have hcell := optionFields_cellTyped g hg
  have htag2 : (g.tag == "") = false := by simpa using htag
  simp only [fieldCellTyped, htag2, Bool.false_or] at hcell
  apply lookup_of_typeOf
  rw [hinv]
  rcases ht with rfl | rfl | rfl <;> simpa [hty] using hcell

theorem setField_typeOf (f : FlagSet) (hinv : ∀ n, f.typeOf n = initialFlagSet.typeOf n)
    (p : StructField × Value) (hg : p.1 ∈ optionFields) (hnamed : namedSwitch p.1 = true)
    (htyped : p.2.hasType p.1.type = true) (n : String) :
    (f.setField p).typeOf n = f.typeOf n := by
  obtain ⟨g, v⟩ := p
  obtain ⟨c, cs, _, _, _, _, _, htag, hty, _⟩ := namedSwitch_spec g hnamed
  unfold FlagSet.setField
  simp only at htyped hg ⊢
  cases hc : cellOf v with
  | none => rfl
  | some cell =>
    simp only
    rcases hty with hty | hty | hty
    · obtain ⟨old, hl, hct⟩ := field_cell f hinv g hg htag _ hty (Or.inl rfl)
      rw [hty] at htyped
      cases v with
      | ptr w =>
        cases w <;> simp [Value.hasType] at htyped
        simp only [cellOf, Option.some.injEq] at hc
        exact typeOf_assign f _ _ old cell hl (by rw [← hc, hct]; rfl) n
      | _ => simp [cellOf] at hc
    · obtain ⟨old, hl, hct⟩ := field_cell f hinv g hg htag _ hty (Or.inr (Or.inl rfl))
      rw [hty] at htyped
      cases v with
      | ptr w =>
        cases w <;> simp [Value.hasType] at htyped
        rename_i b
        cases b <;> simp only [cellOf, Option.some.injEq, reduceCtorEq] at hc
        exact typeOf_assign f _ _ old cell hl (by rw [← hc, hct]; rfl) n
      | _ => simp [cellOf] at hc
    · obtain ⟨old, hl, hct⟩ := field_cell f hinv g hg htag _ hty (Or.inr (Or.inr rfl))
      rw [hty] at htyped
      cases v with
      | ptr w =>
        cases w <;> simp [Value.hasType] at htyped
        simp only [cellOf] at hc
        split_ifs at hc
        simp only [Option.some.injEq] at hc
        exact typeOf_assign f _ _ old cell hl (by rw [← hc, hct]; rfl) n
      | _ => simp [cellOf] at hc

open flag

theorem string_mk_data (s : String) (l : List Char) (h : s.data = l) : String.mk l = s := by
  cases s; simp only at h; rw [h]

/-- The loop of Parse reads the tokens MarshalArgs wrote for one switch field and sets the
field's flag to the field's value. -/
theorem parseLoop_field (f : FlagSet) (hinv : ∀ n, f.typeOf n = initialFlagSet.typeOf n)
    (p : StructField × Value) (hg : p.1 ∈ optionFields) (hnamed : namedSwitch p.1 = true)
    (htyped : p.2.hasType p.1.type = true) (rest : List String) (fuel : Nat) :
    FlagSet.parseLoop (fuel + (specTokens (argumentName p.1) p.2).length)
        { f with args := specTokens (argumentName p.1) p.2 ++ rest } =
      FlagSet.parseLoop fuel { f.setField p with args := rest } := by
  obtain ⟨g, v⟩ := p
  obtain ⟨c, cs, hfl, hc1, hc2, hcs, harg, htag, hty, _⟩ := namedSwitch_spec g hnamed
  have hname : String.mk (c :: cs) = flagName g.tag := string_mk_data _ _ hfl
  simp only at htyped hg ⊢
  rcases hty with hty | hty | hty
  · obtain ⟨old, hl, hct⟩ := field_cell f hinv g hg htag _ hty (Or.inl rfl)
    rw [hty] at htyped
    cases v with
    | nilPtr => simp [specTokens, FlagSet.setField, cellOf]
    | ptr w =>
      cases w <;> simp [Value.hasType] at htyped
      rename_i n
      simp only [specTokens, List.length_singleton, List.singleton_append,
        FlagSet.setField, cellOf]
      have hdata : (argumentName g ++ "=" ++ toString n.val).data =
          '-' :: '-' :: c :: (cs ++ '=' :: (toString n.val).data) := by
        simp [String.data_append, harg]
      have hl2 : FlagSet.lookup { f with args := rest } (String.mk (c :: cs)) = some old := by
        rw [hname]; exact hl
      have he : String.mk (toString n.val).data = toString n.val := rfl
      have hset : old.Set (String.mk (toString n.val).data) = (flag.Value.intValue n, none) := by
        rw [he]
        cases old <;> simp [flag.Value.cellType] at hct
        simp [flag.Value.Set, ParseInt_toString]
      rw [parseLoop_seen fuel _ _ none
        ((parseOne_flag { f with args := (argumentName g ++ "=" ++ toString n.val) :: rest }
            _ rest c _ rfl hdata hc1 hc2).trans
          (parseFlag_valued _ c cs _ old hcs hl2 (by rw [hset])))]
      rw [hset, hname]
      rfl
    | _ => simp [Value.hasType] at htyped
  · obtain ⟨old, hl, hct⟩ := field_cell f hinv g hg htag _ hty (Or.inr (Or.inl rfl))
    rw [hty] at htyped
    cases v with
    | nilPtr => simp [specTokens, FlagSet.setField, cellOf]
    | ptr w =>
      cases w <;> simp [Value.hasType] at htyped
      rename_i b
      cases b
      · simp [specTokens, FlagSet.setField, cellOf]
      · simp only [specTokens, if_true, List.length_singleton, List.singleton_append,
          FlagSet.setField, cellOf]
        obtain ⟨b0, hb0⟩ : ∃ b0, old = flag.Value.boolValue b0 := by
          cases old <;> simp [flag.Value.cellType] at hct
          exact ⟨_, rfl⟩
        have hl2 : FlagSet.lookup { f with args := rest } (String.mk (c :: cs)) =
            some (flag.Value.boolValue b0) := by
          rw [hname, ← hb0]; exact hl
        rw [parseLoop_seen fuel _ _ none
          ((parseOne_flag { f with args := argumentName g :: rest } _ rest c _ rfl harg hc1
              hc2).trans
            (parseFlag_bool _ c cs b0 hcs hl2))]
        rw [hname]
        rfl
    | _ => simp [Value.hasType] at htyped
  · obtain ⟨old, hl, hct⟩ := field_cell f hinv g hg htag _ hty (Or.inr (Or.inr rfl))
    rw [hty] at htyped
    cases v with
    | nilPtr => simp [specTokens, FlagSet.setField, cellOf]
    | ptr w =>
      cases w <;> simp [Value.hasType] at htyped
      rename_i s
      by_cases hs : s = ""
      · simp [specTokens, FlagSet.setField, cellOf, hs]
      · have hne : argumentName g ≠ "" := by
          intro h; rw [h] at harg; simp at harg
        simp only [specTokens, hs, if_false, hne, ne_eq, not_false_eq_true, if_true,
          List.length_singleton, List.singleton_append, FlagSet.setField, cellOf]
        have hdata : (argumentName g ++ "=" ++ s).data =
            '-' :: '-' :: c :: (cs ++ '=' :: s.data) := by
          simp [String.data_append, harg]
        have hl2 : FlagSet.lookup { f with args := rest } (String.mk (c :: cs)) = some old := by
          rw [hname]; exact hl
        have hset : old.Set (String.mk s.data) = (flag.Value.stringValue s, none) := by
          cases old <;> simp [flag.Value.cellType] at hct
          simp [flag.Value.Set]
        rw [parseLoop_seen fuel _ _ none
          ((parseOne_flag { f with args := (argumentName g ++ "=" ++ s) :: rest }
              _ rest c _ rfl hdata hc1 hc2).trans
            (parseFlag_valued _ c cs _ old hcs hl2 (by rw [hset])))]
        rw [hset, hname]
        rfl
    | _ => simp [Value.hasType] at htyped

open flag

/-! ## Parsing the tokens of all switch fields -/

theorem parseLoop_fields : ∀ (L : List (StructField × Value)) (f : FlagSet),
    (∀ n, f.typeOf n = initialFlagSet.typeOf n) →
    (∀ p ∈ L, p.1 ∈ optionFields ∧ namedSwitch p.1 = true ∧ p.2.hasType p.1.type = true) →
    ∀ (rest : List String) (fuel : Nat),
      FlagSet.parseLoop
          (fuel + (L.flatMap (fun p => specTokens (argumentName p.1) p.2)).length)
          { f with args := L.flatMap (fun p => specTokens (argumentName p.1) p.2) ++ rest } =
        FlagSet.parseLoop fuel { L.foldl FlagSet.setField f with args := rest }
  | [], f, _, _, rest, fuel => by simp
  | p :: L, f, hinv, hL, rest, fuel => by
    obtain ⟨h1, h2, h3⟩ := hL p (List.mem_cons_self _ _)
    simp only [List.flatMap_cons, List.length_append, List.append_assoc, List.foldl_cons]
    have hfuel : fuel + ((specTokens (argumentName p.1) p.2).length +
        (L.flatMap (fun p => specTokens (argumentName p.1) p.2)).length) =
        (fuel + (L.flatMap (fun p => specTokens (argumentName p.1) p.2)).length) +
          (specTokens (argumentName p.1) p.2).length := by omega
    rw [hfuel, parseLoop_field f hinv p h1 h2 h3]
    have ih := parseLoop_fields L (f.setField p)
      (fun n => (setField_typeOf f hinv p h1 h2 h3 n).trans (hinv n))
      (fun q hq => hL q (List.mem_cons_of_mem _ hq)) rest fuel
    exact ih

theorem setField_lookup_other (f : FlagSet) (p : StructField × Value) (n : String)
    (h : flagName p.1.tag ≠ n) :
    (f.setField p).lookup n = f.lookup n ∧ (n ∈ (f.setField p).actual ↔ n ∈ f.actual) := by
  unfold FlagSet.setField
  cases cellOf p.2 with
  | none => exact ⟨rfl, Iff.rfl⟩
  | some cell =>
    constructor
    · have := lookup_store f (flagName p.1.tag) n cell
      simp only [Ne.symm h, false_and, if_false] at this
      exact this
    · simp only [FlagSet.assign]
      split_ifs
      · exact Iff.rfl
      · simp [Ne.symm h]

theorem fold_lookup_other : ∀ (L : List (StructField × Value)) (f : FlagSet) (n : String),
    (∀ p ∈ L, flagName p.1.tag ≠ n) →
    (L.foldl FlagSet.setField f).lookup n = f.lookup n ∧
      (n ∈ (L.foldl FlagSet.setField f).actual ↔ n ∈ f.actual)
  | [], _, _, _ => ⟨rfl, Iff.rfl⟩
  | p :: L, f, n, h => by
    simp only [List.foldl_cons]
    have ih := fold_lookup_other L (f.setField p) n (fun q hq => h q (List.mem_cons_of_mem _ hq))
    have hp := setField_lookup_other f p n (h p (List.mem_cons_self _ _))
    exact ⟨ih.1.trans hp.1, ih.2.trans hp.2⟩

theorem setField_self (f : FlagSet) (p : StructField × Value)
    (hdef : (f.lookup (flagName p.1.tag)).isSome = true)
    (hnot : flagName p.1.tag ∉ f.actual) :
    match cellOf p.2 with
    | none => (f.setField p).lookup (flagName p.1.tag) = f.lookup (flagName p.1.tag) ∧
        flagName p.1.tag ∉ (f.setField p).actual
    | some cell => (f.setField p).lookup (flagName p.1.tag) = some cell ∧
        flagName p.1.tag ∈ (f.setField p).actual := by
  unfold FlagSet.setField
  cases cellOf p.2 with
  | none => exact ⟨rfl, hnot⟩
  | some cell =>
    constructor
    · have := lookup_store f (flagName p.1.tag) (flagName p.1.tag) cell
      simp only [hdef, and_self, if_true] at this
      exact this
    · simp only [FlagSet.assign]
      split_ifs with h
      · simpa using h
      · simp

/-- After the tokens of switch fields with pairwise distinct names were parsed, every field
that wrote a token has its value in its cell and its flag among the flags that were set;
a field that wrote none has neither. -/
theorem fold_readout : ∀ (L : List (StructField × Value)) (f : FlagSet),
    L.Pairwise (fun p q => flagName p.1.tag ≠ flagName q.1.tag) →
    (∀ p ∈ L, (f.lookup (flagName p.1.tag)).isSome = true ∧ flagName p.1.tag ∉ f.actual) →
    ∀ p ∈ L,
      match cellOf p.2 with
      | none => flagName p.1.tag ∉ (L.foldl FlagSet.setField f).actual
      | some cell => (L.foldl FlagSet.setField f).lookup (flagName p.1.tag) = some cell ∧
          flagName p.1.tag ∈ (L.foldl FlagSet.setField f).actual
  | [], _, _, _, p, hp => by simp at hp
  | q :: L, f, hpw, hdef, p, hp => by
    simp only [List.foldl_cons]
    rw [List.pairwise_cons] at hpw
    rcases List.mem_cons.1 hp with rfl | hpL
    · have hother := fold_lookup_other L (f.setField p) (flagName p.1.tag)
        (fun r hr => Ne.symm (hpw.1 r hr))
      have hself := setField_self f p (hdef p hp).1 (hdef p hp).2
      cases hc : cellOf p.2 with
      | none =>
        simp only [hc] at hself ⊢
        exact fun h => hself.2 (hother.2.1 h)
      | some cell =>
        simp only [hc] at hself ⊢
        exact ⟨hother.1.trans hself.1, hother.2.2 hself.2⟩
    · have hne : flagName q.1.tag ≠ flagName p.1.tag := hpw.1 p hpL
      apply fold_readout L (f.setField q) hpw.2 _ p hpL
      intro r hr
      have hq := setField_lookup_other f q (flagName r.1.tag) (hpw.1 r hr)
      have hd := hdef r (List.mem_cons_of_mem _ hr)
      exact ⟨by rw [hq.1]; exact hd.1, fun h => hd.2 (hq.2.1 h)⟩

open flag

/-! ## Reading the parsed flags into the fields -/

theorem visit_found (name : String) : ∀ (l : List String) (init : Bool),
    l.foldl (fun st fname => if fname = name then true else st) init = true ↔
      init = true ∨ name ∈ l
  | [], init => by simp
  | a :: l, init => by
    simp only [List.foldl_cons, List.mem_cons]
    rw [visit_found name l]
    by_cases h : a = name
    · simp [h]
    · have h2 : ¬ name = a := fun e => h e.symm
      simp [h, h2]

theorem isFlagPassed_iff (fs : FlagSet) (name : String) :
    isFlagPassed fs name = true ↔ name ∈ fs.actual := by
  unfold isFlagPassed FlagSet.Visit
  rw [visit_found]
  simp

theorem isFlagPassed_args (fs : FlagSet) (a : List String) (name : String) :
    isFlagPassed { fs with args := a } name = isFlagPassed fs name := rfl

/-- A switch field reads back what its token set: the value when it wrote a token, nil
when it wrote none. -/
theorem fieldAfterParse_named (F : FlagSet) (g : StructField) (v : Value)
    (hnamed : namedSwitch g = true) (htyped : v.hasType g.type = true)
    (hread : match cellOf v with
      | none => flagName g.tag ∉ F.actual
      | some cell => F.lookup (flagName g.tag) = some cell ∧ flagName g.tag ∈ F.actual) :
    fieldAfterParse F g = v.parsedBack := by
  obtain ⟨c, cs, hfl, _, _, _, _, htag, hty, _⟩ := namedSwitch_spec g hnamed
  have hname : flagName g.tag ≠ "" := by
    intro h; rw [h] at hfl; simp at hfl
  have hfn : flagNameOf g = flagName g.tag := by simp [flagNameOf, htag]
  unfold fieldAfterParse
  rw [hfn]
  cases hc : cellOf v with
  | none =>
    simp only [hc] at hread
    have hnp : isFlagPassed F (flagName g.tag) = false := by
      rw [← Bool.not_eq_true, isFlagPassed_iff]; exact hread
    simp only [hnp, hname, ne_eq, not_false_eq_true, decide_True, Bool.not_false,
      Bool.and_self, if_true]
    rcases hty with hty | hty | hty <;> rw [hty] at htyped ⊢
    all_goals
      cases v with
      | nilPtr => rfl
      | ptr w =>
        cases w <;> simp [Value.hasType] at htyped
        all_goals first
          | (simp [cellOf] at hc; done)
          | (rename_i b; cases b <;> simp [cellOf] at hc; rfl)
          | (simp only [cellOf, ite_eq_left_iff, reduceCtorEq, imp_false, not_not] at hc
             simp [Value.parsedBack, hc, GoType.zero])
      | _ => simp [Value.hasType] at htyped
  | some cell =>
    simp only [hc] at hread
    have hp : isFlagPassed F (flagName g.tag) = true := (isFlagPassed_iff _ _).2 hread.2
    simp only [hp, Bool.not_true, Bool.and_false, Bool.false_eq_true, if_false, htag, hread.1]
    rcases hty with hty | hty | hty <;> rw [hty] at htyped ⊢
    all_goals
      cases v with
      | nilPtr => simp [cellOf] at hc
      | ptr w =>
        cases w <;> simp [Value.hasType] at htyped
        all_goals first
          | (simp only [cellOf, Option.some.injEq] at hc; rw [← hc]; rfl)
          | (rename_i b; cases b <;> simp only [cellOf, Option.some.injEq, reduceCtorEq] at hc
             rw [← hc]; rfl)
          | (simp only [cellOf] at hc
             split_ifs at hc with hs
             simp only [Option.some.injEq] at hc
             rw [← hc]
             simp [Value.parsedBack, hs, flag.Value.deref])
      | _ => simp [Value.hasType] at htyped

open flag

/-! ## Tokens without white space -/

theorem digit_noSpace (c : Char) (h : 48 ≤ c.toNat ∧ c.toNat ≤ 57) :
    unicode.IsSpace c = false := by
  simp only [unicode.IsSpace, Bool.or_eq_false_iff, Bool.and_eq_false_imp, decide_eq_true_eq,
    decide_eq_false_iff_not]
  omega

theorem toString_noSpace (z : Int) : ∀ ch ∈ (toString z).data, unicode.IsSpace ch = false := by
  cases z with
  | ofNat m =>
    have hs : toString (Int.ofNat m) = String.mk (Nat.toDigits 10 m) := rfl
    rw [hs]
    intro ch hch
    exact digit_noSpace ch (toDigits_allDigits m ch hch)
  | negSucc k =>
    have hdata : (toString (Int.negSucc k)).data = '-' :: Nat.toDigits 10 (k + 1) := rfl
    rw [hdata]
    intro ch hch
    rcases List.mem_cons.1 hch with rfl | hch
    · decide
    · exact digit_noSpace ch (toDigits_allDigits (k + 1) ch hch)

theorem string_ne_empty (s : String) (h : s ≠ "") : s.data ≠ [] := by
  intro hd
  apply h
  exact String.ext hd

/-- The tokens of a switch field survive joining and splitting when its string value has
no white space. -/
theorem specTokens_plain (g : StructField) (v : Value) (hnamed : namedSwitch g = true)
    (htyped : v.hasType g.type = true)
    (hv : ∀ s, v = Value.ptr (Value.string s) → ∀ ch ∈ s.data, unicode.IsSpace ch = false) :
    ∀ t ∈ specTokens (argumentName g) v, plainToken t := by
  obtain ⟨c, cs, _, _, _, _, harg, _, hty, hsp⟩ := namedSwitch_spec g hnamed
  have hne : (argumentName g).data ≠ [] := by rw [harg]; simp
  have hne2 : argumentName g ≠ "" := by
    intro h; rw [h] at hne; exact hne rfl
  have hval : ∀ (w : String), (∀ ch ∈ w.data, unicode.IsSpace ch = false) →
      plainToken (argumentName g ++ "=" ++ w) := by
    intro w hw
    refine ⟨by simp [String.data_append, hne], ?_⟩
    intro ch hch
    simp only [String.data_append, List.mem_append] at hch
    rcases hch with (hch | hch) | hch
    · exact hsp ch hch
    · have : ch = '=' := by simpa using hch
      rw [this]; decide
    · exact hw ch hch
  intro t ht
  cases v with
  | nilPtr => simp [specTokens] at ht
  | ptr w =>
    cases w with
    | bool b =>
      cases b <;> simp [specTokens] at ht
      subst ht
      exact ⟨hne, hsp⟩
    | int n =>
      simp only [specTokens, List.mem_singleton] at ht
      subst ht
      exact hval _ (toString_noSpace _)
    | string s =>
      simp only [specTokens, hne2, ne_eq, not_false_eq_true, if_true] at ht
      split_ifs at ht
      · simp at ht
      · simp only [List.mem_singleton] at ht
        subst ht
        exact hval _ (hv s rfl)
    | _ => rcases hty with h | h | h <;> rw [h] at htyped <;> simp [Value.hasType] at htyped
  | _ => rcases hty with h | h | h <;> rw [h] at htyped <;> simp [Value.hasType] at htyped

open flag

/-! ## The round trip -/

set_option maxRecDepth 100000 in
theorem optionFields_flagName_pairwise :
    (optionFields.take 76).Pairwise (fun f g => flagName f.tag ≠ flagName g.tag) := by
  decide!

theorem zip_pairwise (R : StructField → StructField → Prop) :
    ∀ (l : List StructField) (vs : List Value), l.Pairwise R →
      (l.zip vs).Pairwise (fun p q => R p.1 q.1)
  | [], _, _ => by simp
  | _ :: _, [], _ => by simp
  | f :: l, v :: vs, h => by
    rw [List.pairwise_cons] at h
    simp only [List.zip_cons_cons, List.pairwise_cons]
    exact ⟨fun q hq => h.1 q.1 (List.of_mem_zip (a := q.1) (b := q.2) hq).1,
      zip_pairwise R l vs h.2⟩

set_option maxRecDepth 100000 in
theorem optionFields_76 :
    optionFields[76]? = some (StructField.mk "InputFile" "," GoType.string) := by decide!

set_option maxRecDepth 100000 in
theorem optionFields_77 :
    optionFields[77]? = some (StructField.mk "DictionaryMaskDirectoryInput" ",omitempty"
      (GoType.ptr GoType.string)) := by decide!

/-- InputFile is never filled by ParseOptions. -/
theorem fieldAfterParse_InputFile (F : FlagSet) :
    fieldAfterParse F (StructField.mk "InputFile" "," GoType.string) = Value.string "" := by
  have h1 : flagNameOf (StructField.mk "InputFile" "," GoType.string) = "" := by decide
  simp [fieldAfterParse, h1, GoType.zero]

theorem named_index (i : Nat) (f : StructField) (hf : optionFields[i]? = some f)
    (hname : argumentName f ≠ "") : i < 76 := by
  by_contra hlt
  have hi := (List.getElem?_eq_some.1 hf).1
  rw [optionFields_length] at hi
  have h76 := optionFields_76
  have h77 := optionFields_77
  have : i = 76 ∨ i = 77 := by omega
  rcases this with rfl | rfl
  · rw [h76] at hf
    have : f = StructField.mk "InputFile" "," GoType.string := (Option.some.inj hf).symm
    apply hname; rw [this]; decide
  · rw [h77] at hf
    have : f = StructField.mk "DictionaryMaskDirectoryInput" ",omitempty"
        (GoType.ptr GoType.string) := (Option.some.inj hf).symm
    apply hname; rw [this]; decide

open flag

/-- Marshaling and parsing back. When the string values of a configuration have no white
space and its positional values do not start with '-', ParseOptions accepts the joined
output of MarshalArgs; every switch field comes back as it was, except that a pointer to
false or to the empty string comes back nil; InputFile comes back empty. -/
theorem round_trip (c : HashcatSessionOptions)
    (hstr : ∀ v ∈ c.values, ∀ s, (v = Value.ptr (Value.string s) ∨ v = Value.string s) →
      ∀ ch ∈ s.data, unicode.IsSpace ch = false)
    (hpos : ∀ (i : Nat) (g : StructField) (s : String), optionFields[i]? = some g →
      argumentName g = "" →
      (c.values[i]? = some (Value.ptr (Value.string s)) ∨ c.values[i]? = some (Value.string s)) →
      s.data.head? ≠ some '-') :
    ∃ r : HashcatSessionOptions,
      ParseOptions (strings.Join c.MarshalArgs.1 " ") = Outcome.returned (some r, none) ∧
      (∀ (i : Nat) (f : StructField) (v : Value), optionFields[i]? = some f →
        argumentName f ≠ "" → c.values[i]? = some v → r.values[i]? = some v.parsedBack) ∧
      r.values[76]? = some (Value.string "") := by
  obtain ⟨vs, s, b, hlen, hb, hv, hr⟩ := reflect_split c
  have hLprop : ∀ p ∈ (optionFields.take 76).zip vs,
      p.1 ∈ optionFields ∧ namedSwitch p.1 = true ∧ p.2.hasType p.1.type = true := by
    intro p hp
    have h1 := (List.of_mem_zip (a := p.1) (b := p.2) hp).1
    refine ⟨List.mem_of_mem_take h1, optionFields_namedSwitch p.1 h1, ?_⟩
    exact typeCheck_zip _ _ c.typed p (by
      show p ∈ c.reflect
      rw [hr]; exact List.mem_append_left _ hp)
  have hv76 : c.values[76]? = some (Value.string s) := by
    rw [hv, List.getElem?_append_right (by omega)]; simp [hlen]
  have hv77 : c.values[77]? = some b := by
    rw [hv, List.getElem?_append_right (by omega)]; simp [hlen]
  have hnI : argumentName (StructField.mk "InputFile" "," GoType.string) = "" := by decide
  have hnD : argumentName (StructField.mk "DictionaryMaskDirectoryInput" ",omitempty"
      (GoType.ptr GoType.string)) = "" := by decide
  have hargs : c.MarshalArgs.1 =
      ((optionFields.take 76).zip vs).flatMap (fun p => specTokens (argumentName p.1) p.2) ++
        (specTokens "" (Value.string s) ++ specTokens "" b) := by
    rw [MarshalArgs_eq]
    simp only [hr, List.flatMap_append, List.flatMap_cons, List.flatMap_nil, hnI, hnD,
      List.append_nil]
  -- the positional tokens
  have hpost : ∀ t ∈ specTokens "" (Value.string s) ++ specTokens "" b,
      plainToken t ∧ t.data.head? ≠ some '-' := by
    intro t ht
    rcases List.mem_append.1 ht with ht | ht
    · simp only [specTokens, ne_eq, not_true_eq_false, if_false] at ht
      split_ifs at ht with hs
      · simp at ht
      · simp only [List.mem_singleton] at ht
        subst ht
        exact ⟨⟨string_ne_empty _ hs,
          hstr _ (List.mem_iff_getElem?.2 ⟨76, hv76⟩) _ (Or.inr rfl)⟩,
          hpos 76 _ _ optionFields_76 hnI (Or.inr hv76)⟩
    · rcases hb with rfl | ⟨w, rfl⟩
      · simp [specTokens] at ht
      · simp only [specTokens, ne_eq, not_true_eq_false, if_false] at ht
        split_ifs at ht with hs
        · simp at ht
        · simp only [List.mem_singleton] at ht
          subst ht
          exact ⟨⟨string_ne_empty _ hs,
            hstr _ (List.mem_iff_getElem?.2 ⟨77, hv77⟩) _ (Or.inl rfl)⟩,
            hpos 77 _ _ optionFields_77 hnD (Or.inl hv77)⟩
  have hplain : ∀ t ∈ c.MarshalArgs.1, plainToken t := by
    intro t ht
    rw [hargs] at ht
    rcases List.mem_append.1 ht with ht | ht
    · obtain ⟨p, hp, htp⟩ := List.mem_flatMap.1 ht
      obtain ⟨_, h2, h3⟩ := hLprop p hp
      have hpv : p.2 ∈ c.values := by
        rw [hv]
        exact List.mem_append_left _ (List.of_mem_zip (a := p.1) (b := p.2) hp).2
      exact specTokens_plain p.1 p.2 h2 h3 (fun w hw => hstr p.2 hpv w (Or.inl hw)) t htp
    · exact (hpost t ht).1
  have hfields := Fields_Join _ hplain
  -- the flag parser on the tokens
  have hparse : ∃ a, initialFlagSet.Parse c.MarshalArgs.1 =
      ({ ((optionFields.take 76).zip vs).foldl FlagSet.setField initialFlagSet with
          args := a }, none) := by
    rw [hargs]
    unfold FlagSet.Parse
    have hfuel : ((((optionFields.take 76).zip vs).flatMap
          (fun p => specTokens (argumentName p.1) p.2)) ++
          (specTokens "" (Value.string s) ++ specTokens "" b)).length + 1 =
        ((specTokens "" (Value.string s) ++ specTokens "" b).length + 1) +
          (((optionFields.take 76).zip vs).flatMap
            (fun p => specTokens (argumentName p.1) p.2)).length := by
      simp only [List.length_append]; omega
    rw [hfuel, parseLoop_fields _ initialFlagSet (fun _ => rfl) hLprop]
    cases hp : specTokens "" (Value.string s) ++ specTokens "" b with
    | nil => exact ⟨[], parseLoop_stop _ _ _ (parseOne_nil _ rfl)⟩
    | cons t rest =>
      have ht := (hpost t (by rw [hp]; exact List.mem_cons_self _ _)).2
      exact ⟨t :: rest, parseLoop_stop _ _ _ (parseOne_nonflag _ t rest rfl ht)⟩
  obtain ⟨a, hparse⟩ := hparse
  rcases ParseOptions_cases (strings.Join c.MarshalArgs.1 " ") with ⟨e, he, _⟩ | ⟨r, _, hret, hvals⟩
  · rw [hfields, hparse] at he
    simp at he
  · rw [hfields, hparse] at hvals
    refine ⟨r, hret, ?_, ?_⟩
    · intro i f v hf hname hcv
      have hi := named_index i f hf hname
      have hfi : (optionFields.take 76)[i]? = some f := by
        rw [List.getElem?_take]; simp [hi, hf]
      have hvi : vs[i]? = some v := by
        rw [hv, List.getElem?_append_left (by omega)] at hcv
        exact hcv
      have hmem : (f, v) ∈ (optionFields.take 76).zip vs :=
        List.mem_iff_getElem?.2 ⟨i, List.getElem?_zip_eq_some.2 ⟨hfi, hvi⟩⟩
      obtain ⟨h1, h2, h3⟩ := hLprop (f, v) hmem
      have hread := fold_readout ((optionFields.take 76).zip vs) initialFlagSet
        (zip_pairwise _ _ vs optionFields_flagName_pairwise)
        (fun p hp => by
          obtain ⟨g1, g2, g3⟩ := hLprop p hp
          obtain ⟨_, _, _, _, _, _, _, htag, hty, _⟩ := namedSwitch_spec p.1 g2
          refine ⟨?_, by simp [initialFlagSet]⟩
          rcases hty with hty | hty | hty
          · obtain ⟨cell, hl, _⟩ := field_cell initialFlagSet (fun _ => rfl) p.1 g1 htag _ hty
              (Or.inl rfl)
            rw [hl]; rfl
          · obtain ⟨cell, hl, _⟩ := field_cell initialFlagSet (fun _ => rfl) p.1 g1 htag _ hty
              (Or.inr (Or.inl rfl))
            rw [hl]; rfl
          · obtain ⟨cell, hl, _⟩ := field_cell initialFlagSet (fun _ => rfl) p.1 g1 htag _ hty
              (Or.inr (Or.inr rfl))
            rw [hl]; rfl)
        (f, v) hmem
      rw [hvals, List.getElem?_map, hf]
      simp only [Option.map_some', Option.some.injEq]
      exact fieldAfterParse_named _ f v h2 h3 hread
    · rw [hvals, List.getElem?_map, optionFields_76]
      simp only [Option.map_some', Option.some.injEq]
      exact fieldAfterParse_InputFile _

/-- C1 (amended). Round trip: for every configuration whose positional fields are empty
(InputFile is "" and DictionaryMaskDirectoryInput is nil or points to ""), so that
MarshalArgs lists switch tokens only, and whose string values contain no white space,
joining the list returned by MarshalArgs with single spaces and passing it to ParseOptions
succeeds, and the configuration it yields agrees with the original on every switch field
(an absent field stays absent, a present integer, zero and negative included, a present true
and a present non-empty string stay present with their value), except that a boolean
present with false and a string present with the empty value come back absent; InputFile
(index 76) is empty in both. -/
theorem ParseOptions_MarshalArgs_round_trip (c : HashcatSessionOptions)
    (hspace : ∀ v ∈ c.values, v.noSpace = true)
    (hempty : ∀ p ∈ c.reflect, argumentName p.1 = "" →
      (p.2 = p.1.type.zero ∨ p.2 = Value.ptr (Value.string ""))) :
    ∃ r : HashcatSessionOptions,
      ParseOptions (strings.Join c.MarshalArgs.1 " ") = Outcome.returned (some r, none) ∧
      (∀ (i : Nat) (f : StructField) (v : Value), optionFields[i]? = some f →
        argumentName f ≠ "" → c.values[i]? = some v → r.values[i]? = some v.parsedBack) ∧
      optionFields[76]? = some (StructField.mk "InputFile" "," GoType.string) ∧
      c.values[76]? = some (Value.string "") ∧ r.values[76]? = some (Value.string "") := by
  have hstr : ∀ v ∈ c.values, ∀ s, (v = Value.ptr (Value.string s) ∨ v = Value.string s) →
      ∀ ch ∈ s.data, unicode.IsSpace ch = false := by
    intro v hv s hs ch hch
    have h := hspace v hv
    rcases hs with rfl | rfl
    · have h2 : ∀ x ∈ s.data, unicode.IsSpace x = false := by simpa [Value.noSpace] using h
      exact h2 ch hch
    · have h2 : ∀ x ∈ s.data, unicode.IsSpace x = false := by simpa [Value.noSpace] using h
      exact h2 ch hch
  have hpos : ∀ (i : Nat) (g : StructField) (s : String), optionFields[i]? = some g →
      argumentName g = "" →
      (c.values[i]? = some (Value.ptr (Value.string s)) ∨ c.values[i]? = some (Value.string s)) →
      s.data.head? ≠ some '-' := by
    intro i g s hg hname hs
    have hs0 : s = "" := by
      rcases hs with hs | hs
      · have h := hempty (g, _) (List.mem_iff_getElem?.2 ⟨i, reflect_getElem? c i g _ hg hs⟩)
          hname
        rcases h with h | h
        · simp only at h
          cases hty : g.type <;> rw [hty] at h <;> simp [GoType.zero] at h
        · simpa using h
      · have h := hempty (g, _) (List.mem_iff_getElem?.2 ⟨i, reflect_getElem? c i g _ hg hs⟩)
          hname
        rcases h with h | h
        · simp only at h
          cases hty : g.type <;> rw [hty] at h <;> simp [GoType.zero] at h
          exact h
        · simp at h
    rw [hs0]
    decide
  obtain ⟨r, h1, h2, h3⟩ := round_trip c hstr hpos
  obtain ⟨vs, s, b, hlen, _, hv, hr⟩ := reflect_split c
  have hv76 : c.values[76]? = some (Value.string s) := by
    rw [hv, List.getElem?_append_right (by omega)]; simp [hlen]
  have hs0 : s = "" := by
    have h := hempty (StructField.mk "InputFile" "," GoType.string, Value.string s)
      (by rw [hr]; simp)
      (show argumentName (StructField.mk "InputFile" "," GoType.string) = "" by decide)
    rcases h with h | h
    · simpa [GoType.zero] using h
    · simp at h
  rw [hs0] at hv76
  exact ⟨r, h1, h2, optionFields_76, hv76, h3⟩

set_option maxRecDepth 100000 in
/-- C1, witness: a configuration of switch fields only (HashType 0, AttackMode 0, Force
false, PotfileDisable true, SessionName "s1"). -/
theorem ParseOptions_MarshalArgs_round_trip_witness :
    (∀ v ∈ optionsSwitchesOnly.values, v.noSpace = true) ∧
    (∀ p ∈ optionsSwitchesOnly.reflect, argumentName p.1 = "" →
      (p.2 = p.1.type.zero ∨ p.2 = Value.ptr (Value.string ""))) ∧
    optionsSwitchesOnly.MarshalArgs.1 =
      ["--hash-type=0", "--attack-mode=0", "--session=s1", "--potfile-disable"] ∧
    ∃ r : HashcatSessionOptions,
      ParseOptions (strings.Join optionsSwitchesOnly.MarshalArgs.1 " ") =
        Outcome.returned (some r, none) ∧
      (∀ (i : Nat) (f : StructField) (v : Value), optionFields[i]? = some f →
        argumentName f ≠ "" → optionsSwitchesOnly.values[i]? = some v →
        r.values[i]? = some v.parsedBack) ∧
      optionFields[76]? = some (StructField.mk "InputFile" "," GoType.string) ∧
      optionsSwitchesOnly.values[76]? = some (Value.string "") ∧
      r.values[76]? = some (Value.string "") :=
  ⟨by decide!, by decide!, by decide!,
    ParseOptions_MarshalArgs_round_trip optionsSwitchesOnly (by decide!) (by decide!)⟩

set_option maxRecDepth 100000 in
/-- C1, counterexample: the round trip does not give the configuration back when a boolean
is present with false (PotfileDisable comes back nil), when InputFile is set (it comes back
empty), when a string holds a space (SessionName "a b" comes back as "a"), and when a
positional value starts with '-' (ParseOptions returns an error). -/
theorem ParseOptions_MarshalArgs_not_inverse :
    optionsFalseFlag.MarshalArgs = ([], none) ∧
    ParseOptions (strings.Join optionsFalseFlag.MarshalArgs.1 " ") =
      Outcome.returned (some optionsParsedNothing, none) ∧
    optionsFalseFlag.get "PotfileDisable" = some (Value.ptr (Value.bool false)) ∧
    optionsParsedNothing.get "PotfileDisable" = some Value.nilPtr ∧
    ParseOptions (strings.Join optionsFalseFlag.MarshalArgs.1 " ") ≠
      Outcome.returned (some optionsFalseFlag, none) ∧
    ParseOptions (strings.Join optionsInputOnly.MarshalArgs.1 " ") =
      Outcome.returned (some optionsParsedNothing, none) ∧
    optionsInputOnly.get "InputFile" = some (Value.string "deadbeef") ∧
    optionsParsedNothing.get "InputFile" = some (Value.string "") ∧
    ParseOptions (strings.Join optionsSpacedName.MarshalArgs.1 " ") ≠
      Outcome.returned (some optionsSpacedName, none) ∧
    ParseOptions (strings.Join optionsDashInput.MarshalArgs.1 " ") =
      Outcome.returned (none, some "flag provided but not defined: -x") := by
  decide!

/-! ## MarshalArgs: errors -/

/-- A field at which the loop stops adds no argument. -/
theorem fieldArgs_of_err (p : StructField × Value) (h : fieldErr p ≠ none) : fieldArgs p = [] := by
  obtain ⟨f, val⟩ := p
  revert h
  simp only [fieldArgs, fieldErr, marshalLoop]
  repeat' split
  all_goals simp [marshalLoop]

/-- The loop stops at the first field with an error and returns, with the error, the
arguments of the fields before it. -/
theorem marshalLoop_stops (pre : List (StructField × Value)) (p : StructField × Value)
    (rest : List (StructField × Value)) (args : List String)
    (hpre : ∀ q ∈ pre, fieldErr q = none) (hp : fieldErr p ≠ none) :
    marshalLoop (pre ++ p :: rest) args = (args ++ pre.flatMap fieldArgs, fieldErr p) := by
  induction pre generalizing args with
  | nil =>
    simp only [List.nil_append, List.flatMap_nil, List.append_nil]
    rw [marshalLoop_cons, if_neg hp, fieldArgs_of_err p hp, List.append_nil]
  | cons q pre ih =>
    simp only [List.cons_append]
    rw [marshalLoop_cons, if_pos (hpre q (List.mem_cons_self _ _)),
      ih _ (fun x hx => hpre x (List.mem_cons_of_mem _ hx))]
    simp [List.flatMap_cons, List.append_assoc]

/-- An error of the loop is the error of some field, and the list returned with it is what
the fields before that field added. -/
theorem marshalLoop_err_split (l : List (StructField × Value)) :
    ∀ (args : List String) (e : String), (marshalLoop l args).2 = some e →
      ∃ (pre : List (StructField × Value)) (p : StructField × Value)
        (rest : List (StructField × Value)),
        l = pre ++ p :: rest ∧ (∀ q ∈ pre, fieldErr q = none) ∧ fieldErr p = some e ∧
          (marshalLoop l args).1 = args ++ pre.flatMap fieldArgs := by
  induction l with
  | nil => intro args e h; simp [marshalLoop] at h
  | cons q l ih =>
    intro args e h
    rw [marshalLoop_cons] at h ⊢
    by_cases hq : fieldErr q = none
    · rw [if_pos hq] at h ⊢
      obtain ⟨pre, p, rest, hl, hpre, hp, hargs⟩ := ih _ e h
      refine ⟨q :: pre, p, rest, by rw [hl]; rfl, ?_, hp, ?_⟩
      · intro x hx
        rcases List.mem_cons.1 hx with rfl | hx
        · exact hq
        · exact hpre x hx
      · rw [hargs]; simp [List.flatMap_cons, List.append_assoc]
    · rw [if_neg hq] at h ⊢
      refine ⟨[], q, l, rfl, by simp, h, ?_⟩
      simp [fieldArgs_of_err q hq]

set_option maxRecDepth 100000 in
/-- C13, the code at the failing input: ParseOptions on the empty line returns a
configuration in which DictionaryMaskDirectoryInput is not nil but a pointer to the empty
string, so the result is not the empty HashcatSessionOptions{}. -/
theorem ParseOptions_empty_line_not_empty :
    ParseOptions "" = Outcome.returned (some optionsParsedNothing, none) ∧
    optionsParsedNothing.get "DictionaryMaskDirectoryInput" =
      some (Value.ptr (Value.string "")) ∧
    HashcatSessionOptions.empty.get "DictionaryMaskDirectoryInput" = some Value.nilPtr ∧
    optionsParsedNothing ≠ HashcatSessionOptions.empty := by
  decide!

/-- C15 (amended). A configuration whose InputFile is the empty string marshals without
error: MarshalArgs returns a nil error, and InputFile contributes no token - the list is
what the fields before InputFile and the fields after it contribute. -/
theorem MarshalArgs_empty_InputFile (c : HashcatSessionOptions) (i : Nat) (f : StructField)
    (hf : optionFields[i]? = some f) (hname : f.name = "InputFile")
    (hv : c.values[i]? = some (Value.string "")) :
    c.MarshalArgs.2 = none ∧
      c.MarshalArgs.1 =
        (marshalLoop (c.reflect.take i) []).1 ++ (marshalLoop (c.reflect.drop (i + 1)) []).1 ∧
      f.type = GoType.string := by
  have hfm : f ∈ optionFields := List.mem_iff_getElem?.2 ⟨i, hf⟩
  have hty : f.type = GoType.string := by
    have h : ∀ g ∈ optionFields, g.name = "InputFile" → g.type = GoType.string := by decide
    exact h f hfm hname
  refine ⟨by rw [MarshalArgs_eq], ?_, hty⟩
  rw [marshalLoop_sub c _ (fun p hp => List.mem_of_mem_take hp),
    marshalLoop_sub c _ (fun p hp => List.mem_of_mem_drop hp), MarshalArgs_eq,
    flatMap_split c.reflect i (f, _) (reflect_getElem? c i f _ hf hv)]
  simp [specTokens]

set_option maxRecDepth 100000 in
/-- C15, witness: the empty configuration, whose InputFile (field 76) is empty. -/
theorem MarshalArgs_empty_InputFile_witness :
    HashcatSessionOptions.empty.MarshalArgs.2 = none ∧
      HashcatSessionOptions.empty.MarshalArgs.1 =
        (marshalLoop (HashcatSessionOptions.empty.reflect.take 76) []).1 ++
          (marshalLoop (HashcatSessionOptions.empty.reflect.drop (76 + 1)) []).1 ∧
      (StructField.mk "InputFile" "," GoType.string).type = GoType.string :=
  MarshalArgs_empty_InputFile HashcatSessionOptions.empty 76
    (StructField.mk "InputFile" "," GoType.string) (by decide!) rfl (by decide!)

set_option maxRecDepth 100000 in
/-- C15, counterexample: the empty configuration has an empty InputFile, and MarshalArgs
returns a nil error (and the empty list) for it. -/
theorem MarshalArgs_required_field_no_error :
    HashcatSessionOptions.empty.get "InputFile" = some (Value.string "") ∧
    HashcatSessionOptions.empty.MarshalArgs = ([], none) := by
  decide!

/-- C16 (amended). Failure containment in the marshaling loop: when the loop of
MarshalArgs, over an arbitrary field table, meets a tagged field whose kind is none of
boolean, integer or string (the fields before it being marshaled without error), the call
returns the error "unknown type <kind>" together with the arguments already collected from
the fields before it; the fields after it are not visited. In general, whenever the loop
returns an error, the list returned with it is what the fields before the failing field
contributed. -/
theorem marshalLoop_unknown_kind (pre rest : List (StructField × Value)) (f : StructField)
    (k : String) (hpre : ∀ q ∈ pre, fieldErr q = none) (htag : f.tag ≠ "") :
    marshalLoop (pre ++ (f, Value.other k) :: rest) [] =
        (pre.flatMap fieldArgs, some ("unknown type " ++ k)) ∧
      ∀ (l : List (StructField × Value)) (e : String), (marshalLoop l []).2 = some e →
        ∃ (before : List (StructField × Value)) (p : StructField × Value)
          (after : List (StructField × Value)),
          l = before ++ p :: after ∧ (∀ q ∈ before, fieldErr q = none) ∧
            fieldErr p = some e ∧ (marshalLoop l []).1 = before.flatMap fieldArgs := by
  have herr : fieldErr (f, Value.other k) = some ("unknown type " ++ k) := by
    simp [fieldErr, marshalLoop, htag, Value.isPtrKind]
  constructor
  · have := marshalLoop_stops pre (f, Value.other k) rest [] hpre (by rw [herr]; simp)
    rw [this, herr]; simp
  · intro l e h
    obtain ⟨before, p, after, h1, h2, h3, h4⟩ := marshalLoop_err_split l [] e h
    exact ⟨before, p, after, h1, h2, h3, by simpa using h4⟩

set_option maxRecDepth 100000 in
/-- C16, witness: a float64 field after the flag Force = true. -/
theorem marshalLoop_unknown_kind_witness :
    marshalLoop ([(StructField.mk "Force" "--force,omitempty" (GoType.ptr GoType.bool),
        GetBoolPtr true)] ++
        (StructField.mk "Ratio" "--ratio" (GoType.other "float64"), Value.other "float64") ::
        [(StructField.mk "Skip" "--skip,omitempty" (GoType.ptr GoType.int),
          GetIntPtr (GoInt.wrap 1))]) [] =
      ([(StructField.mk "Force" "--force,omitempty" (GoType.ptr GoType.bool),
          GetBoolPtr true)].flatMap fieldArgs, some ("unknown type " ++ "float64")) :=
  (marshalLoop_unknown_kind _ _ _ _ (by decide!) (by decide)).1

set_option maxRecDepth 100000 in
/-- C16, counterexample: over the table Force = true, Ratio (float64), Skip = 1 the loop
returns an error and, with it, the argument "--force" it had already collected. -/
theorem marshalLoop_partial_on_error :
    marshalLoop tableWithFloat [] = (["--force"], some "unknown type float64") := by
  decide!

set_option maxRecDepth 100000 in
/-- C17. Schema well-formedness: every non-positional field of the option table (every
field but InputFile and DictionaryMaskDirectoryInput) has a non-empty argumentName that
starts with "--", no other field of the table has the same argumentName, and the first
loop of ParseOptions, which defines one flag per name, returns without the panic of a
redefinition. -/
theorem optionFields_well_formed (f : StructField) (hf : f ∈ optionFields)
    (hI : f.name ≠ "InputFile") (hD : f.name ≠ "DictionaryMaskDirectoryInput") :
    argumentName f ≠ "" ∧ strings.HasPrefix (argumentName f) "--" = true ∧
      (∀ g ∈ optionFields, argumentName g = argumentName f → g = f) ∧
      registerFields optionFields flag.NewFlagSet = Outcome.returned initialFlagSet := by
  have h : ∀ f ∈ optionFields, f.name ≠ "InputFile" → f.name ≠ "DictionaryMaskDirectoryInput" →
      argumentName f ≠ "" ∧ strings.HasPrefix (argumentName f) "--" = true ∧
        (∀ g ∈ optionFields, argumentName g = argumentName f → g = f) := by
    decide!
  obtain ⟨h1, h2, h3⟩ := h f hf hI hD
  exact ⟨h1, h2, h3, registerFields_eq⟩

set_option maxRecDepth 100000 in
/-- C17, witness: the field HashType. -/
theorem optionFields_well_formed_witness :
    argumentName (StructField.mk "HashType" "--hash-type,omitempty" (GoType.ptr GoType.int))
        ≠ "" ∧
      strings.HasPrefix (argumentName (StructField.mk "HashType" "--hash-type,omitempty"
        (GoType.ptr GoType.int))) "--" = true ∧
      (∀ g ∈ optionFields, argumentName g = argumentName (StructField.mk "HashType"
        "--hash-type,omitempty" (GoType.ptr GoType.int)) →
        g = StructField.mk "HashType" "--hash-type,omitempty" (GoType.ptr GoType.int)) ∧
      registerFields optionFields flag.NewFlagSet = Outcome.returned initialFlagSet :=
  optionFields_well_formed _ (by decide!) (by decide) (by decide)

set_option maxRecDepth 100000 in
/-- C18. Scenario: MarshalArgs of the configuration with HashType = 0, AttackMode = 0,
PotfileDisable = true, SessionName = "s1", InputFile = "deadbeef" and every other field
absent returns no error and exactly the five tokens "--hash-type=0", "--attack-mode=0",
"--session=s1", "--potfile-disable" and "deadbeef", in schema order with "deadbeef"
last. -/
theorem MarshalArgs_scenario :
    optionsScenario.MarshalArgs =
      (["--hash-type=0", "--attack-mode=0", "--session=s1", "--potfile-disable", "deadbeef"],
        none) := by
  decide!

/-- C20. MarshalArgs is total and never fails on the declared schema: for every
HashcatSessionOptions value it returns a nil error; no field reaches the 'unknown type'
branch or the recovered panic, because every declared field has a tag and is a string or an
omitempty pointer to a bool, an int or a string. -/
theorem MarshalArgs_never_fails (c : HashcatSessionOptions) :
    c.MarshalArgs.2 = none ∧ (∀ p ∈ c.reflect, fieldErr p = none) ∧
      (∀ f ∈ optionFields, regularField f = true) := by
  refine ⟨by rw [MarshalArgs_eq], fun p hp => (reflect_fieldArgs c p hp).1, optionFields_regular⟩

/-- C19. Round trip on the representable configurations: when every present boolean of c
is true, every present named string is not empty and has no white space, and the positional
values have no white space and do not start with '-', ParseOptions applied to the
space-joined output of MarshalArgs returns no error and a configuration that agrees with c
on every named switch field: same presence, same value, integers of either sign and zero
included. -/
theorem ParseOptions_MarshalArgs_representable (c : HashcatSessionOptions)
    (hrep : ∀ p ∈ c.reflect, representable p = true) :
    ∃ r : HashcatSessionOptions,
      ParseOptions (strings.Join c.MarshalArgs.1 " ") = Outcome.returned (some r, none) ∧
      ∀ (i : Nat) (f : StructField) (v : Value), optionFields[i]? = some f →
        argumentName f ≠ "" → c.values[i]? = some v → r.values[i]? = some v := by
  have hsp : ∀ p ∈ c.reflect, p.2.noSpace = true := by
    intro p hp
    have h := hrep p hp
    unfold representable at h
    split_ifs at h
    · simp only [Bool.and_eq_true] at h; exact h.1
    · simp only [Bool.and_eq_true] at h; exact h.2
  have hstr : ∀ v ∈ c.values, ∀ s, (v = Value.ptr (Value.string s) ∨ v = Value.string s) →
      ∀ ch ∈ s.data, unicode.IsSpace ch = false := by
    intro v hv s hs ch hch
    obtain ⟨i, hi⟩ := List.mem_iff_getElem?.1 hv
    have hlen : i < optionFields.length := by
      rw [← typeCheck_length _ _ c.typed]; exact (List.getElem?_eq_some.1 hi).1
    have hfi : optionFields[i]? = some optionFields[i] := List.getElem?_eq_getElem hlen
    have h := hsp (optionFields[i], v)
      (List.mem_iff_getElem?.2 ⟨i, reflect_getElem? c i _ v hfi hi⟩)
    rcases hs with rfl | rfl
    · have h2 : ∀ x ∈ s.data, unicode.IsSpace x = false := by simpa [Value.noSpace] using h
      exact h2 ch hch
    · have h2 : ∀ x ∈ s.data, unicode.IsSpace x = false := by simpa [Value.noSpace] using h
      exact h2 ch hch
  have hpos : ∀ (i : Nat) (g : StructField) (s : String), optionFields[i]? = some g →
      argumentName g = "" →
      (c.values[i]? = some (Value.ptr (Value.string s)) ∨ c.values[i]? = some (Value.string s)) →
      s.data.head? ≠ some '-' := by
    intro i g s hg hname hs
    rcases hs with hs | hs
    · have h := hrep (g, _) (List.mem_iff_getElem?.2 ⟨i, reflect_getElem? c i g _ hg hs⟩)
      simp only [representable, hname, if_true, Bool.and_eq_true] at h
      simpa [Value.noDash] using h.2
    · have h := hrep (g, _) (List.mem_iff_getElem?.2 ⟨i, reflect_getElem? c i g _ hg hs⟩)
      simp only [representable, hname, if_true, Bool.and_eq_true] at h
      simpa [Value.noDash] using h.2
  obtain ⟨r, h1, h2, _⟩ := round_trip c hstr hpos
  refine ⟨r, h1, ?_⟩
  intro i f v hf hname hv
  rw [h2 i f v hf hname hv]
  have h := hrep (f, v) (List.mem_iff_getElem?.2 ⟨i, reflect_getElem? c i f v hf hv⟩)
  simp only [representable, hname, if_false, Bool.and_eq_true, bne_iff_ne, ne_eq] at h
  obtain ⟨⟨hb, hs⟩, _⟩ := h
  congr 1
  unfold Value.parsedBack
  split
  · exact absurd rfl hb
  · rename_i s
    split_ifs with he
    · rw [he] at hs; exact absurd rfl hs
    · rfl
  · rfl

set_option maxRecDepth 100000 in
/-- C19, witness: the configuration of the scenario. -/
theorem ParseOptions_MarshalArgs_representable_witness :
    ∃ r : HashcatSessionOptions,
      ParseOptions (strings.Join optionsScenario.MarshalArgs.1 " ") =
        Outcome.returned (some r, none) ∧
      ∀ (i : Nat) (f : StructField) (v : Value), optionFields[i]? = some f →
        argumentName f ≠ "" → optionsScenario.values[i]? = some v → r.values[i]? = some v :=
  ParseOptions_MarshalArgs_representable optionsScenario (by decide!)

open flag

/-! ## Switch fields of the table -/

theorem named_mem_take (f : StructField) (hf : f ∈ optionFields) (hname : argumentName f ≠ "") :
    f ∈ optionFields.take 76 := by
  obtain ⟨i, hi⟩ := List.mem_iff_getElem?.1 hf
  have hlt := named_index i f hi hname
  exact List.mem_iff_getElem?.2 ⟨i, by rw [List.getElem?_take]; simp [hlt, hi]⟩

theorem named_namedSwitch (f : StructField) (hf : f ∈ optionFields)
    (hname : argumentName f ≠ "") : namedSwitch f = true :=
  optionFields_namedSwitch f (named_mem_take f hf hname)

/-- A switch field whose flag was set points to the cell of the flag. -/
theorem fieldAfterParse_set (F : FlagSet) (g : StructField) (cell : flag.Value)
    (hnamed : namedSwitch g = true) (hl : F.lookup (flagName g.tag) = some cell)
    (hp : flagName g.tag ∈ F.actual) : fieldAfterParse F g = Value.ptr cell.deref := by
  obtain ⟨c, cs, hfl, _, _, _, _, htag, hty, _⟩ := namedSwitch_spec g hnamed
  have hfn : flagNameOf g = flagName g.tag := by simp [flagNameOf, htag]
  have hpass : isFlagPassed F (flagName g.tag) = true := (isFlagPassed_iff _ _).2 hp
  unfold fieldAfterParse
  rw [hfn]
  simp only [hpass, Bool.not_true, Bool.and_false, Bool.false_eq_true, if_false, htag, hl]
  rcases hty with hty | hty | hty <;> rw [hty]

/-- A switch field whose flag was not set is nil. -/
theorem fieldAfterParse_unset (F : FlagSet) (g : StructField)
    (hnamed : namedSwitch g = true) (hp : flagName g.tag ∉ F.actual) :
    fieldAfterParse F g = Value.nilPtr := by
  obtain ⟨c, cs, hfl, _, _, _, _, htag, hty, _⟩ := namedSwitch_spec g hnamed
  have hname : flagName g.tag ≠ "" := by
    intro h; rw [h] at hfl; simp at hfl
  have hfn : flagNameOf g = flagName g.tag := by simp [flagNameOf, htag]
  have hnp : isFlagPassed F (flagName g.tag) = false := by
    rw [← Bool.not_eq_true, isFlagPassed_iff]; exact hp
  unfold fieldAfterParse
  rw [hfn]
  simp only [hnp, hname, ne_eq, not_false_eq_true, decide_True, Bool.not_false,
    Bool.and_self, if_true]
  rcases hty with hty | hty | hty <;> rw [hty] <;> rfl

open flag

/-! ## Values the cell of a flag rejects -/

/-- A token "--name=value" of a defined flag whose cell rejects the value is an error. -/
theorem parseFlag_invalid (f : FlagSet) (c : Char) (cs w : List Char) (fv : flag.Value)
    (hcs : '=' ∉ cs) (hl : f.lookup (String.mk (c :: cs)) = some fv)
    (hset : (fv.Set (String.mk w)).2 ≠ none) :
    ∃ (f1 : FlagSet) (e : String), f.parseFlag (c :: (cs ++ '=' :: w)) = (f1, false, some e) := by
  unfold FlagSet.parseFlag
  simp only [splitNameValue_valued c cs w hcs, hl, if_true]
  cases hs : (fv.Set (String.mk w)).2 with
  | none => exact absurd hs hset
  | some e0 =>
    split_ifs
    · exact ⟨_, _, rfl⟩
    · exact ⟨_, _, rfl⟩

theorem plainToken_single (t : String) (h : plainToken t) : strings.Fields t = [t] := by
  have := Fields_Join [t] (fun x hx => by
    rw [List.mem_singleton] at hx; rw [hx]; exact h)
  simpa [strings.Join] using this

/-- The line "argumentName=value" of a switch field, the value having no white space, is
rejected when the cell of the field's flag rejects the value. -/
theorem ParseOptions_rejected_value (f : StructField) (v : String) (hf : f ∈ optionFields)
    (hname : argumentName f ≠ "") (hplain : ∀ ch ∈ v.data, unicode.IsSpace ch = false)
    (hbad : ∀ cell, initialFlagSet.lookup (flagName f.tag) = some cell →
      (cell.Set v).2 ≠ none) :
    ∃ e, ParseOptions (argumentName f ++ "=" ++ v) = Outcome.returned (none, some e) := by
  have hnamed := named_namedSwitch f hf hname
  obtain ⟨c, cs, hfl, hc1, hc2, hcs, harg, htag, hty, hsp⟩ := namedSwitch_spec f hnamed
  have hfn : String.mk (c :: cs) = flagName f.tag := string_mk_data _ _ hfl
  have hdata : (argumentName f ++ "=" ++ v).data = '-' :: '-' :: c :: (cs ++ '=' :: v.data) := by
    simp [String.data_append, harg]
  have htok : plainToken (argumentName f ++ "=" ++ v) := by
    refine ⟨by rw [hdata]; simp, ?_⟩
    intro ch hch
    simp only [String.data_append, List.mem_append] at hch
    rcases hch with (hch | hch) | hch
    · exact hsp ch hch
    · have : ch = '=' := by simpa using hch
      rw [this]; decide
    · exact hplain ch hch
  obtain ⟨cell, hl, _⟩ : ∃ cell, initialFlagSet.lookup (flagName f.tag) = some cell ∧
      cell.cellType = cell.cellType := by
    rcases hty with hty | hty | hty
    · obtain ⟨cell, hl, _⟩ := field_cell initialFlagSet (fun _ => rfl) f hf htag _ hty
        (Or.inl rfl)
      exact ⟨cell, hl, rfl⟩
    · obtain ⟨cell, hl, _⟩ := field_cell initialFlagSet (fun _ => rfl) f hf htag _ hty
        (Or.inr (Or.inl rfl))
      exact ⟨cell, hl, rfl⟩
    · obtain ⟨cell, hl, _⟩ := field_cell initialFlagSet (fun _ => rfl) f hf htag _ hty
        (Or.inr (Or.inr rfl))
      exact ⟨cell, hl, rfl⟩
  have hl2 : FlagSet.lookup { initialFlagSet with args := [] } (String.mk (c :: cs)) =
      some cell := by
    rw [hfn]; exact hl
  have hv : String.mk v.data = v := rfl
  obtain ⟨f1, e, he⟩ := parseFlag_invalid _ c cs v.data cell hcs hl2 (by rw [hv]; exact hbad cell hl)
  have hparse : initialFlagSet.Parse [argumentName f ++ "=" ++ v] = (f1, some e) := by
    unfold FlagSet.Parse
    apply parseLoop_error
    rw [parseOne_flag { initialFlagSet with args := [argumentName f ++ "=" ++ v] } _ [] c _ rfl
      hdata hc1 hc2]
    exact he
  rcases ParseOptions_cases (argumentName f ++ "=" ++ v) with ⟨e2, _, h2⟩ | ⟨r, h1, _⟩
  · exact ⟨e2, h2⟩
  · rw [plainToken_single _ htok, hparse] at h1
    simp at h1

open flag

/-- C14 (amended). Malformed value rejection: for every integer switch field X and every
value text v without white space that strconv.ParseInt (base 0, 64 bits) does not accept
(a text that is not an integer literal, "abc" for example, or one out of range), and for
every boolean switch field B and every value text v without white space that
strconv.ParseBool does not accept, ParseOptions on the line "argumentName=v" returns a
non-nil error and a nil configuration. -/
theorem ParseOptions_malformed_value (f : StructField) (v : String) (hf : f ∈ optionFields)
    (hplain : ∀ ch ∈ v.data, unicode.IsSpace ch = false)
    (hbad : (f.type = GoType.ptr GoType.int ∧ (strconv.ParseInt v 0 64).2 ≠ none) ∨
      (f.type = GoType.ptr GoType.bool ∧ (strconv.ParseBool v).2 ≠ none)) :
    ∃ e, ParseOptions (argumentName f ++ "=" ++ v) = Outcome.returned (none, some e) := by
  have hname : argumentName f ≠ "" := by
    rcases hbad with ⟨h, _⟩ | ⟨h, _⟩
    · exact optionFields_switch_named f hf (Or.inl h)
    · exact optionFields_switch_named f hf (Or.inr h)
  have hnamed := named_namedSwitch f hf hname
  obtain ⟨_, _, _, _, _, _, _, htag, _, _⟩ := namedSwitch_spec f hnamed
  apply ParseOptions_rejected_value f v hf hname hplain
  intro cell hl
  rcases hbad with ⟨hty, hv⟩ | ⟨hty, hv⟩
  · obtain ⟨cell2, hl2, hct⟩ := field_cell initialFlagSet (fun _ => rfl) f hf htag _ hty
      (Or.inl rfl)
    rw [hl] at hl2
    have : cell = cell2 := Option.some.inj hl2
    subst this
    cases cell <;> simp [flag.Value.cellType] at hct
    simpa [flag.Value.Set] using hv
  · obtain ⟨cell2, hl2, hct⟩ := field_cell initialFlagSet (fun _ => rfl) f hf htag _ hty
      (Or.inr (Or.inl rfl))
    rw [hl] at hl2
    have : cell = cell2 := Option.some.inj hl2
    subst this
    cases cell <;> simp [flag.Value.cellType] at hct
    simpa [flag.Value.Set] using hv

set_option maxRecDepth 100000 in
/-- C14, witness: "--hash-type=abc" and "--force=maybe". -/
theorem ParseOptions_malformed_value_witness :
    (∃ e, ParseOptions (argumentName (StructField.mk "HashType" "--hash-type,omitempty"
        (GoType.ptr GoType.int)) ++ "=" ++ "abc") = Outcome.returned (none, some e)) ∧
    (∃ e, ParseOptions (argumentName (StructField.mk "Force" "--force,omitempty"
        (GoType.ptr GoType.bool)) ++ "=" ++ "maybe") = Outcome.returned (none, some e)) :=
  ⟨ParseOptions_malformed_value _ "abc" (by decide!) (by decide!) (Or.inl ⟨rfl, by decide!⟩),
    ParseOptions_malformed_value _ "maybe" (by decide!) (by decide!)
      (Or.inr ⟨rfl, by decide!⟩)⟩

set_option maxRecDepth 100000 in
/-- C14, counterexample: the value text "5 abc" is not an integer literal, and ParseOptions
accepts the line "--hash-type=5 abc": it reads HashType = 5 and ignores the rest. -/
theorem ParseOptions_malformed_value_accepted :
    argumentName (StructField.mk "HashType" "--hash-type,omitempty" (GoType.ptr GoType.int))
      = "--hash-type" ∧
    (strconv.ParseInt "5 abc" 0 64).2 = some strconv.NumError.ErrSyntax ∧
    ParseOptions ("--hash-type" ++ "=" ++ "5 abc") =
      Outcome.returned (some optionsParsedHashType5, none) := by
  decide!

open flag

theorem assign_actual (f : FlagSet) (a : List String) (name : String) (v : flag.Value)
    (n : String) (h : n ∈ (f.assign a name v).actual) : n ∈ f.actual ∨ n = name := by
  unfold FlagSet.assign at h
  dsimp only at h
  split at h
  · exact Or.inl h
  · rcases List.mem_append.1 h with h | h
    · exact Or.inl h
    · exact Or.inr (by simpa using h)

theorem parseFlag_actual (f : FlagSet) (body : List Char) (n : String)
    (h : n ∈ (f.parseFlag body).1.actual) :
    n ∈ f.actual ∨ n = String.mk (splitNameValue body).1 := by
  revert h
  unfold FlagSet.parseFlag
  dsimp only
  repeat' split
  all_goals first
    | exact fun h => Or.inl h
    | exact fun h => assign_actual _ _ _ _ _ h

theorem parseFlag_args_mem (f : FlagSet) (body : List Char) (t : String)
    (h : t ∈ (f.parseFlag body).1.args) : t ∈ f.args := by
  revert h
  unfold FlagSet.parseFlag
  dsimp only
  repeat' split
  all_goals first
    | exact fun h => h
    | (intro h; simp_all [FlagSet.store, FlagSet.assign])

theorem parseOne_args_mem (f : FlagSet) (t : String) (h : t ∈ f.parseOne.1.args) :
    t ∈ f.args := by
  revert h
  unfold FlagSet.parseOne
  split
  · exact fun h => h
  · rename_i s rest hargs
    split
    · exact fun h => h
    · exact fun h => h
    · rename_i c0 c1 tl hs
      split
      · exact fun h => h
      · split
        · intro h; rw [hargs]; exact List.mem_cons_of_mem _ h
        · dsimp only
          generalize (if c1 = '-' then tl else c1 :: tl) = body
          split
          · exact fun h => h
          · intro h
            have := parseFlag_args_mem _ _ _ h
            rw [hargs]; exact List.mem_cons_of_mem _ this

theorem parseOne_actual (f : FlagSet) (n : String) (h : n ∈ f.parseOne.1.actual) :
    n ∈ f.actual ∨ ∃ tok ∈ f.args, flagOfToken tok = n := by
  revert h
  unfold FlagSet.parseOne
  split
  · exact fun h => Or.inl h
  · rename_i s rest hargs
    split
    · exact fun h => Or.inl h
    · exact fun h => Or.inl h
    · rename_i c0 c1 tl hs
      split
      · exact fun h => Or.inl h
      · rename_i hc0
        have hc0 : c0 = '-' := by simpa using hc0
        split
        · exact fun h => Or.inl h
        · dsimp only
          generalize hb : (if c1 = '-' then tl else c1 :: tl) = body
          split
          · exact fun h => Or.inl h
          · intro h
            rcases parseFlag_actual _ _ _ h with h | h
            · exact Or.inl h
            · refine Or.inr ⟨s, by rw [hargs]; exact List.mem_cons_self _ _, ?_⟩
              rw [h, ← hb]
              unfold flagOfToken
              rw [hs, hc0]
              by_cases hc1 : c1 = '-'
              · subst hc1; simp
              · simp [hc1]

theorem parseLoop_actual : ∀ (fuel : Nat) (f : FlagSet) (n : String),
    n ∈ (FlagSet.parseLoop fuel f).1.actual →
      n ∈ f.actual ∨ ∃ tok ∈ f.args, flagOfToken tok = n
  | 0, f, n => fun h => Or.inl h
  | fuel + 1, f, n => by
    unfold FlagSet.parseLoop
    have h1 := parseOne_actual f n
    have h2 := parseOne_args_mem f
    split
    · rename_i f1 _ heq
      rw [heq] at h1 h2
      intro h
      rcases parseLoop_actual fuel f1 n h with h | ⟨tok, ht, he⟩
      · exact h1 h
      · exact Or.inr ⟨tok, h2 tok ht, he⟩
    · rename_i f1 heq
      rw [heq] at h1; exact h1
    · rename_i f1 err heq
      rw [heq] at h1; exact h1

theorem consumedFlags_token (line : String) (n : String) (h : n ∈ consumedFlags line) :
    ∃ tok ∈ strings.Fields line, flagOfToken tok = n := by
  unfold consumedFlags FlagSet.Parse at h
  rcases parseLoop_actual _ _ n h with h | h
  · exact absurd h (by simp [initialFlagSet])
  · exact h

theorem presence (line : String) (r : HashcatSessionOptions) (i : Nat) (f : StructField)
    (hacc : ParseOptions line = Outcome.returned (some r, none))
    (hi : optionFields[i]? = some f) (hname : argumentName f ≠ "") :
    (flagName f.tag ∈ consumedFlags line → ∃ v, r.values[i]? = some (Value.ptr v)) ∧
    (flagName f.tag ∉ consumedFlags line → r.values[i]? = some Value.nilPtr) := by
  have hf : f ∈ optionFields := List.getElem?_mem hi
  have hnamed := named_namedSwitch f hf hname
  obtain ⟨_, _, _, _, _, _, _, htag, hty, _⟩ := namedSwitch_spec f hnamed
  rcases ParseOptions_cases line with ⟨e, _, he⟩ | ⟨c, _, hc, hv⟩
  · rw [he] at hacc; simp at hacc
  · rw [hc] at hacc
    have hrc : c = r := by simpa using hacc
    subst hrc
    have hval : c.values[i]? = some (fieldAfterParse
        (initialFlagSet.Parse (strings.Fields line)).1 f) := by
      rw [hv, List.getElem?_map, hi]; rfl
    have hinv : ∀ n, (initialFlagSet.Parse (strings.Fields line)).1.typeOf n =
        initialFlagSet.typeOf n := fun n => Parse_typeOf _ _ n
    constructor
    · intro hp
      have hcell : ∃ cell, (initialFlagSet.Parse (strings.Fields line)).1.lookup
          (flagName f.tag) = some cell := by
        rcases hty with h | h | h
        · obtain ⟨cell, hl, _⟩ := field_cell _ hinv f hf htag _ h (Or.inl rfl)
          exact ⟨cell, hl⟩
        · obtain ⟨cell, hl, _⟩ := field_cell _ hinv f hf htag _ h (Or.inr (Or.inl rfl))
          exact ⟨cell, hl⟩
        · obtain ⟨cell, hl, _⟩ := field_cell _ hinv f hf htag _ h (Or.inr (Or.inr rfl))
          exact ⟨cell, hl⟩
      obtain ⟨cell, hl⟩ := hcell
      exact ⟨cell.deref, by rw [hval, fieldAfterParse_set _ f cell hnamed hl hp]⟩
    · intro hp
      rw [hval, fieldAfterParse_unset _ f hnamed hp]

/-- C12. Presence side channel: for every input line that ParseOptions accepts and every
named switch field X of the schema (at index i), X is present (a non-nil pointer) in the
result if and only if the name of its switch is among the flags the parser consumed from
the input (the flags FlagSet.Visit enumerates); otherwise X is the nil pointer, not a
pointer to the default 0, false or "". A consumed flag is always named by a token of the
line, so a field whose switch appears in no token of the line is nil. -/
theorem ParseOptions_presence_side_channel (line : String) (r : HashcatSessionOptions)
    (i : Nat) (f : StructField)
    (hacc : ParseOptions line = Outcome.returned (some r, none))
    (hi : optionFields[i]? = some f) (hname : argumentName f ≠ "") :
    ((∃ v, r.values[i]? = some (Value.ptr v)) ↔ flagName f.tag ∈ consumedFlags line) ∧
    (flagName f.tag ∉ consumedFlags line → r.values[i]? = some Value.nilPtr) ∧
    ((∀ tok ∈ strings.Fields line, flagOfToken tok ≠ flagName f.tag) →
      r.values[i]? = some Value.nilPtr) := by
  obtain ⟨h1, h2⟩ := presence line r i f hacc hi hname
  refine ⟨⟨?_, h1⟩, h2, ?_⟩
  · rintro ⟨v, hv⟩
    by_contra hp
    rw [h2 hp] at hv
    simp at hv
  · intro hno
    apply h2
    intro hp
    obtain ⟨tok, ht, he⟩ := consumedFlags_token line _ hp
    exact hno tok ht he

set_option maxRecDepth 100000 in
/-- C12, witness: the line "--hash-type=5" is accepted; HashType (index 0) is present and
AttackMode (index 1), whose switch is not in the line, is nil. -/
theorem ParseOptions_presence_side_channel_witness :
    ParseOptions "--hash-type=5" = Outcome.returned (some optionsParsedHashType5, none) ∧
    (((∃ v, optionsParsedHashType5.values[0]? = some (Value.ptr v)) ↔
        flagName "--hash-type,omitempty" ∈ consumedFlags "--hash-type=5") ∧
      (flagName "--hash-type,omitempty" ∉ consumedFlags "--hash-type=5" →
        optionsParsedHashType5.values[0]? = some Value.nilPtr) ∧
      ((∀ tok ∈ strings.Fields "--hash-type=5", flagOfToken tok ≠
          flagName "--hash-type,omitempty") →
        optionsParsedHashType5.values[0]? = some Value.nilPtr)) ∧
    optionsParsedHashType5.values[0]? = some (Value.ptr (Value.int (GoInt.wrap 5))) ∧
    optionsParsedHashType5.values[1]? = some Value.nilPtr :=
  ⟨by decide!,
    ParseOptions_presence_side_channel "--hash-type=5" optionsParsedHashType5 0
      (StructField.mk "HashType" "--hash-type,omitempty" (GoType.ptr GoType.int))
      (by decide!) (by decide!) (by decide!),
    by decide!, by decide!⟩

open flag

/-- ParseInt reads a signed decimal text without leading zeros as the integer it stands
for, when that is an int. -/
theorem ParseInt_decimal (sign : String) (m : Nat)
    (hs : sign = "" ∨ sign = "+" ∨ sign = "-")
    (hlo : -9223372036854775808 ≤ Given.number sign m)
    (hhi : Given.number sign m ≤ 9223372036854775807) :
    strconv.ParseInt (sign ++ toString m) 0 64 = (GoInt.wrap (Given.number sign m), none) := by
  have hwrap : ∀ (z : Int) (h : -9223372036854775808 ≤ z ∧ z ≤ 9223372036854775807),
      GoInt.wrap z = ⟨z, h⟩ := by
    intro z h
    apply Subtype.ext
    simp only [GoInt.wrap]
    omega
  rcases hs with rfl | rfl | rfl
  · have hn : Given.number "" m = (m : Int) := by simp [Given.number]
    rw [hn] at hlo hhi ⊢
    have := ParseInt_toString ⟨(m : Int), hlo, hhi⟩
    have he : "" ++ toString m = toString ((m : Int)) := rfl
    rw [he, hwrap _ ⟨hlo, hhi⟩]
    exact this
  · have hn : Given.number "+" m = (m : Int) := by simp [Given.number]
    rw [hn] at hlo hhi ⊢
    have hdata : ("+" ++ toString m).data = '+' :: Nat.toDigits 10 m := rfl
    unfold strconv.ParseInt
    have hpu := ParseUint_toDigits m (by omega)
    have h1 : ¬ (m ≥ 2 ^ (64 - 1)) := by
      have : (2 : Nat) ^ (64 - 1) = 9223372036854775808 := by norm_num
      omega
    simp only [hdata, if_true, hpu, reduceCtorEq, if_false, h1, decide_False,
      show (('+' : Char) == '-') = false by decide, Bool.not_false, Bool.true_and,
      Bool.false_and, Bool.false_eq_true, Bool.and_false]
  · by_cases h0 : m = 0
    · subst h0
      decide
    · obtain ⟨k, rfl⟩ : ∃ k, m = k + 1 := ⟨m - 1, by omega⟩
      have hn : Given.number "-" (k + 1) = Int.negSucc k := by
        simp [Given.number, Int.negSucc_eq]
      rw [hn] at hlo hhi ⊢
      have := ParseInt_toString ⟨Int.negSucc k, hlo, hhi⟩
      have he : "-" ++ toString (k + 1) = toString (Int.negSucc k) := rfl
      rw [he, hwrap _ ⟨hlo, hhi⟩]
      exact this

theorem Set_given (old : flag.Value) (v : Given) (t : GoType)
    (hfit : v.fits (GoType.ptr t) = true) (hct : old.cellType = t) :
    old.Set v.text = (v.cell, none) := by
  cases v with
  | int sign m =>
    cases t <;> simp [Given.fits] at hfit
    cases old <;> simp [flag.Value.cellType] at hct
    obtain ⟨hs, hlo, hhi⟩ := hfit
    simp [flag.Value.Set, Given.text, Given.cell, ParseInt_decimal sign m hs hlo hhi]
  | bool b =>
    cases t <;> simp [Given.fits] at hfit
    cases old <;> simp [flag.Value.cellType] at hct
    cases b <;> simp [flag.Value.Set, Given.text, Given.cell, strconv.ParseBool]
  | string s =>
    cases t <;> simp [Given.fits] at hfit
    cases old <;> simp [flag.Value.cellType] at hct
    simp [flag.Value.Set, Given.text, Given.cell]

theorem given_cellType (v : Given) (t : GoType) (hfit : v.fits (GoType.ptr t) = true) :
    v.cell.cellType = t := by
  cases v <;> cases t <;> simp [Given.fits] at hfit <;> rfl

/-- The cell of a named switch field in a flag set that has the cells of the initial one. -/
theorem given_field_cell (f : FlagSet) (hinv : ∀ n, f.typeOf n = initialFlagSet.typeOf n)
    (e : StructField × Given) (hg : e.1 ∈ optionFields) (hnamed : namedSwitch e.1 = true)
    (hfit : e.2.fits e.1.type = true) :
    ∃ old t, f.lookup (flagName e.1.tag) = some old ∧ old.cellType = t ∧
      e.2.fits (GoType.ptr t) = true := by
  obtain ⟨_, _, _, _, _, _, _, htag, hty, _⟩ := namedSwitch_spec e.1 hnamed
  rcases hty with hty | hty | hty
  · obtain ⟨old, hl, hct⟩ := field_cell f hinv e.1 hg htag _ hty (Or.inl rfl)
    exact ⟨old, _, hl, hct, by rw [← hty]; exact hfit⟩
  · obtain ⟨old, hl, hct⟩ := field_cell f hinv e.1 hg htag _ hty (Or.inr (Or.inl rfl))
    exact ⟨old, _, hl, hct, by rw [← hty]; exact hfit⟩
  · obtain ⟨old, hl, hct⟩ := field_cell f hinv e.1 hg htag _ hty (Or.inr (Or.inr rfl))
    exact ⟨old, _, hl, hct, by rw [← hty]; exact hfit⟩

/-- The loop of Parse reads the token "argumentName=value" of a switch field and sets the
flag of the field to the value. -/
theorem parseLoop_given (f : FlagSet) (hinv : ∀ n, f.typeOf n = initialFlagSet.typeOf n)
    (e : StructField × Given) (hg : e.1 ∈ optionFields) (hnamed : namedSwitch e.1 = true)
    (hfit : e.2.fits e.1.type = true) (rest : List String) (fuel : Nat) :
    FlagSet.parseLoop (fuel + 1) { f with args := givenToken e :: rest } =
      FlagSet.parseLoop fuel { f.setGiven e with args := rest } := by
  obtain ⟨old, t, hl, hct, hfit2⟩ := given_field_cell f hinv e hg hnamed hfit
  obtain ⟨c, cs, hfl, hc1, hc2, hcs, harg, htag, hty, _⟩ := namedSwitch_spec e.1 hnamed
  have hname : String.mk (c :: cs) = flagName e.1.tag := string_mk_data _ _ hfl
  have hdata : (givenToken e).data = '-' :: '-' :: c :: (cs ++ '=' :: e.2.text.data) := by
    simp [givenToken, String.data_append, harg]
  have hl2 : FlagSet.lookup { f with args := rest } (String.mk (c :: cs)) = some old := by
    rw [hname]; exact hl
  have he : String.mk e.2.text.data = e.2.text := rfl
  have hset : old.Set (String.mk e.2.text.data) = (e.2.cell, none) := by
    rw [he]; exact Set_given old e.2 t hfit2 hct
  rw [parseLoop_seen fuel _ _ none
    ((parseOne_flag { f with args := givenToken e :: rest } _ rest c _ rfl hdata hc1 hc2).trans
      (parseFlag_valued _ c cs _ old hcs hl2 (by rw [hset])))]
  rw [hset, hname]
  rfl

theorem setGiven_typeOf (f : FlagSet) (hinv : ∀ n, f.typeOf n = initialFlagSet.typeOf n)
    (e : StructField × Given) (hg : e.1 ∈ optionFields) (hnamed : namedSwitch e.1 = true)
    (hfit : e.2.fits e.1.type = true) (n : String) :
    (f.setGiven e).typeOf n = f.typeOf n := by
  obtain ⟨old, t, hl, hct, hfit2⟩ := given_field_cell f hinv e hg hnamed hfit
  exact typeOf_assign f f.args _ old _ hl ((given_cellType e.2 t hfit2).trans hct.symm) n

theorem parseLoop_givens : ∀ (L : List (StructField × Given)) (f : FlagSet),
    (∀ n, f.typeOf n = initialFlagSet.typeOf n) →
    (∀ e ∈ L, e.1 ∈ optionFields ∧ namedSwitch e.1 = true ∧ e.2.fits e.1.type = true) →
    ∀ (rest : List String) (fuel : Nat),
      FlagSet.parseLoop (fuel + L.length) { f with args := L.map givenToken ++ rest } =
        FlagSet.parseLoop fuel { L.foldl FlagSet.setGiven f with args := rest }
  | [], f, _, _, rest, fuel => by simp
  | e :: L, f, hinv, hL, rest, fuel => by
    obtain ⟨h1, h2, h3⟩ := hL e (List.mem_cons_self _ _)
    simp only [List.map_cons, List.length_cons, List.cons_append, List.foldl_cons]
    have hfuel : fuel + (L.length + 1) = (fuel + L.length) + 1 := by omega
    rw [hfuel, parseLoop_given f hinv e h1 h2 h3]
    exact parseLoop_givens L (f.setGiven e)
      (fun n => (setGiven_typeOf f hinv e h1 h2 h3 n).trans (hinv n))
      (fun q hq => hL q (List.mem_cons_of_mem _ hq)) rest fuel

theorem setGiven_lookup_other (f : FlagSet) (e : StructField × Given) (n : String)
    (h : flagName e.1.tag ≠ n) :
    (f.setGiven e).lookup n = f.lookup n ∧ (n ∈ (f.setGiven e).actual ↔ n ∈ f.actual) := by
  unfold FlagSet.setGiven
  constructor
  · have := lookup_store f (flagName e.1.tag) n e.2.cell
    simp only [Ne.symm h, false_and, if_false] at this
    exact this
  · simp only [FlagSet.assign]
    split_ifs
    · exact Iff.rfl
    · simp [Ne.symm h]

theorem givens_lookup_other : ∀ (L : List (StructField × Given)) (f : FlagSet) (n : String),
    (∀ e ∈ L, flagName e.1.tag ≠ n) →
    (L.foldl FlagSet.setGiven f).lookup n = f.lookup n ∧
      (n ∈ (L.foldl FlagSet.setGiven f).actual ↔ n ∈ f.actual)
  | [], _, _, _ => ⟨rfl, Iff.rfl⟩
  | e :: L, f, n, h => by
    simp only [List.foldl_cons]
    have ih := givens_lookup_other L (f.setGiven e) n
      (fun q hq => h q (List.mem_cons_of_mem _ hq))
    have hp := setGiven_lookup_other f e n (h e (List.mem_cons_self _ _))
    exact ⟨ih.1.trans hp.1, ih.2.trans hp.2⟩

theorem setGiven_self (f : FlagSet) (e : StructField × Given)
    (hdef : (f.lookup (flagName e.1.tag)).isSome = true) :
    (f.setGiven e).lookup (flagName e.1.tag) = some e.2.cell ∧
      flagName e.1.tag ∈ (f.setGiven e).actual := by
  unfold FlagSet.setGiven
  constructor
  · have := lookup_store f (flagName e.1.tag) (flagName e.1.tag) e.2.cell
    simp only [hdef, and_self, if_true] at this
    exact this
  · simp only [FlagSet.assign]
    split_ifs with h
    · simpa using h
    · simp

/-- After the tokens of switch fields with pairwise distinct names were parsed, every field
has its given value in its cell and its flag among the flags that were set. -/
theorem givens_readout : ∀ (L : List (StructField × Given)) (f : FlagSet),
    L.Pairwise (fun p q => flagName p.1.tag ≠ flagName q.1.tag) →
    (∀ p ∈ L, (f.lookup (flagName p.1.tag)).isSome = true) →
    ∀ p ∈ L, (L.foldl FlagSet.setGiven f).lookup (flagName p.1.tag) = some p.2.cell ∧
      flagName p.1.tag ∈ (L.foldl FlagSet.setGiven f).actual
  | [], _, _, _, p, hp => by simp at hp
  | q :: L, f, hpw, hdef, p, hp => by
    simp only [List.foldl_cons]
    rw [List.pairwise_cons] at hpw
    rcases List.mem_cons.1 hp with rfl | hpL
    · have hother := givens_lookup_other L (f.setGiven p) (flagName p.1.tag)
        (fun r hr => Ne.symm (hpw.1 r hr))
      have hself := setGiven_self f p (hdef p hp)
      exact ⟨hother.1.trans hself.1, hother.2.2 hself.2⟩
    · apply givens_readout L (f.setGiven q) hpw.2 _ p hpL
      intro r hr
      have hq := setGiven_lookup_other f q (flagName r.1.tag) (hpw.1 r hr)
      rw [hq.1]
      exact hdef r (List.mem_cons_of_mem _ hr)

open flag

/-- ParseOptions on a line of tokens "argumentName=value" with distinct names and
well-formed values: every field mentioned is set to the value given. -/
theorem parse_givens (line : String) (entries : List (StructField × Given))
    (hline : strings.Fields line = entries.map givenToken)
    (hent : ∀ e ∈ entries, e.1 ∈ optionFields ∧ argumentName e.1 ≠ "" ∧
      e.2.fits e.1.type = true)
    (hdist : entries.Pairwise (fun a b => argumentName a.1 ≠ argumentName b.1)) :
    ∃ r : HashcatSessionOptions, ParseOptions line = Outcome.returned (some r, none) ∧
      ∀ e ∈ entries, ∀ i : Nat, optionFields[i]? = some e.1 →
        r.values[i]? = some (Value.ptr e.2.value) := by
  have hL : ∀ e ∈ entries, e.1 ∈ optionFields ∧ namedSwitch e.1 = true ∧
      e.2.fits e.1.type = true := fun e he =>
    ⟨(hent e he).1, named_namedSwitch e.1 (hent e he).1 (hent e he).2.1, (hent e he).2.2⟩
  have hparse : initialFlagSet.Parse (strings.Fields line) =
      ({ entries.foldl FlagSet.setGiven initialFlagSet with args := [] }, none) := by
    rw [hline]
    unfold FlagSet.Parse
    have h := parseLoop_givens entries initialFlagSet (fun _ => rfl) hL [] 1
    rw [List.append_nil] at h
    rw [List.length_map, Nat.add_comm, h]
    exact parseLoop_stop 0 _ _ (parseOne_nil _ rfl)
  have hpw : entries.Pairwise (fun p q => flagName p.1.tag ≠ flagName q.1.tag) := by
    refine List.Pairwise.imp_of_mem ?_ hdist
    intro a b ha hb hab hfl
    apply hab
    have hd : (argumentName a.1).data = (argumentName b.1).data := by
      have ha3 : (argumentName a.1).data = '-' :: '-' :: (flagName a.1.tag).data := by
        have := (hL a ha).2.1
        simp only [namedSwitch, Bool.and_eq_true, beq_iff_eq] at this
        exact this.1.1.1.2
      have hb3 : (argumentName b.1).data = '-' :: '-' :: (flagName b.1.tag).data := by
        have := (hL b hb).2.1
        simp only [namedSwitch, Bool.and_eq_true, beq_iff_eq] at this
        exact this.1.1.1.2
      rw [ha3, hb3, hfl]
    exact String.ext hd
  have hdef : ∀ p ∈ entries, (initialFlagSet.lookup (flagName p.1.tag)).isSome = true := by
    intro p hp
    obtain ⟨old, _, hl, _, _⟩ := given_field_cell initialFlagSet (fun _ => rfl) p (hL p hp).1
      (hL p hp).2.1 (hL p hp).2.2
    rw [hl]; rfl
  rcases ParseOptions_cases line with ⟨e, he, _⟩ | ⟨c, _, hc, hv⟩
  · rw [hparse] at he; simp at he
  · refine ⟨c, hc, ?_⟩
    intro e he i hi
    obtain ⟨hlk, hact⟩ := givens_readout entries initialFlagSet hpw hdef e he
    rw [hv, List.getElem?_map, hi, hparse]
    have hfa := fieldAfterParse_set
      { entries.foldl FlagSet.setGiven initialFlagSet with args := [] } e.1 e.2.cell
      (hL e he).2.1 hlk hact
    simp only [Option.map_some', hfa]
    cases e.2 <;> rfl

/-- C11 (amended). Parsing explicit values: for every input line made only of tokens
"argumentName=value" with pairwise distinct schema argumentNames, where the value of an
integer field is a decimal integer without leading zeros (with an optional sign "+" or "-")
that is an int (64 bits), the value of a boolean field is true or false, and the value of a
string field is any string (without white space, as it is one token), ParseOptions returns
no error and a non-nil configuration in which every mentioned field is present with exactly
the given value, zero values included. -/
theorem ParseOptions_explicit_values (line : String) (entries : List (StructField × Given))
    (hline : strings.Fields line = entries.map givenToken)
    (hent : ∀ e ∈ entries, e.1 ∈ optionFields ∧ argumentName e.1 ≠ "" ∧
      e.2.fits e.1.type = true)
    (hdist : entries.Pairwise (fun a b => argumentName a.1 ≠ argumentName b.1)) :
    ∃ r : HashcatSessionOptions, ParseOptions line = Outcome.returned (some r, none) ∧
      ∀ e ∈ entries, ∀ i : Nat, optionFields[i]? = some e.1 →
        r.values[i]? = some (Value.ptr e.2.value) :=
  parse_givens line entries hline hent hdist

set_option maxRecDepth 100000 in
/-- C11, witness: the line of TestCustomCommandLine with five explicit values, two of them
the zero of their kind. -/
theorem ParseOptions_explicit_values_witness :
    strings.Fields ("--optimized-kernel-enable=true --custom-charset1=DEADBEEF " ++
        "--attack-mode=0 --hash-type=0 --potfile-disable=true") =
      givenTestLine.map givenToken ∧
    (∀ e ∈ givenTestLine, e.1 ∈ optionFields ∧ argumentName e.1 ≠ "" ∧
      e.2.fits e.1.type = true) ∧
    givenTestLine.Pairwise (fun a b => argumentName a.1 ≠ argumentName b.1) ∧
    ∃ r : HashcatSessionOptions,
      ParseOptions ("--optimized-kernel-enable=true --custom-charset1=DEADBEEF " ++
        "--attack-mode=0 --hash-type=0 --potfile-disable=true") =
        Outcome.returned (some r, none) ∧
      ∀ e ∈ givenTestLine, ∀ i : Nat, optionFields[i]? = some e.1 →
        r.values[i]? = some (Value.ptr e.2.value) :=
  ⟨by decide!, by decide!, by decide!,
    ParseOptions_explicit_values _ givenTestLine (by decide!) (by decide!) (by decide!)⟩

set_option maxRecDepth 100000 in
/-- C11, counterexample: the decimal integer 010 given for HashType is read as 8 (a leading
zero makes the text octal), the decimal integer 08 is rejected, and so is the decimal
integer 9223372036854775808, which is no int. -/
theorem ParseOptions_decimal_not_exact :
    ParseOptions "--hash-type=010" = Outcome.returned (some optionsParsedHashType8, none) ∧
    optionsParsedHashType8.values[0]? = some (Value.ptr (Value.int (GoInt.wrap 8))) ∧
    ParseOptions "--hash-type=08" =
      Outcome.returned (none, some "invalid value for flag -hash-type") ∧
    ParseOptions "--hash-type=9223372036854775808" =
      Outcome.returned (none, some "invalid value for flag -hash-type") := by
  decide!

theorem indexFrom_comma : ∀ (l : List Char) (i : Nat),
    strings.indexFrom [','] l i =
      if ',' ∈ l then some (i + (l.takeWhile (fun ch => ch != ',')).length) else none
  | [], i => by simp [strings.indexFrom]
  | c :: cs, i => by
    unfold strings.indexFrom
    by_cases hc : c = ','
    · subst hc
      simp [List.isPrefixOf]
    · have h1 : List.isPrefixOf [','] (c :: cs) = false := by
        simp [List.isPrefixOf, Ne.symm hc]
      have h2 : (',' ∈ c :: cs) ↔ ',' ∈ cs := by simp [Ne.symm hc]
      rw [h1, indexFrom_comma cs (i + 1)]
      simp only [Bool.false_eq_true, if_false, h2, List.takeWhile_cons, bne_iff_ne, ne_eq, hc,
        not_false_eq_true, decide_True, if_true, List.length_cons]
      split_ifs
      · congr 1; omega
      · rfl

theorem take_takeWhile_length (l : List Char) (p : Char → Bool) :
    l.take (l.takeWhile p).length = l.takeWhile p := by
  induction l with
  | nil => rfl
  | cons c cs ih =>
    by_cases h : p c = true
    · simp [List.takeWhile_cons, h, ih]
    · simp [List.takeWhile_cons, h]

theorem split_at_comma : ∀ (l : List Char), ',' ∈ l →
    l.takeWhile (fun ch => ch != ',') ++ ',' :: l.drop ((l.takeWhile (fun ch => ch != ',')).length + 1)
      = l
  | [], h => by simp at h
  | c :: cs, h => by
    by_cases hc : c = ','
    · subst hc; simp
    · have h2 : ',' ∈ cs := by
        rcases List.mem_cons.1 h with h | h
        · exact absurd h.symm hc
        · exact h
      have ih := split_at_comma cs h2
      simp only [List.takeWhile_cons, bne_iff_ne, ne_eq, hc, not_false_eq_true, decide_True,
        if_true, List.length_cons, List.drop_succ_cons, List.cons_append]
      rw [ih]

theorem takeWhile_no_comma (l : List Char) : ',' ∉ l.takeWhile (fun ch => ch != ',') := by
  intro h
  have := List.mem_takeWhile_imp h
  simp at this

theorem splitFrom_no_comma : ∀ (l cur : List Char), ',' ∉ l →
    strings.splitFrom [','] l 0 cur = [String.mk (cur ++ l)]
  | [], cur, _ => by simp [strings.splitFrom]
  | c :: cs, cur, h => by
    have hc : ',' ≠ c := fun e => h (by rw [e]; exact List.mem_cons_self _ _)
    have h2 : ',' ∉ cs := fun e => h (List.mem_cons_of_mem _ e)
    have h1 : List.isPrefixOf [','] (c :: cs) = false := by
      simp [List.isPrefixOf, hc]
    unfold strings.splitFrom
    rw [h1]
    simp only [Bool.false_eq_true, if_false]
    rw [splitFrom_no_comma cs (cur ++ [c]) h2]
    simp

/-- C23 (amended). Function parseTag splits a tag at its first comma: for every tag t that
contains a comma, parseTag(t) returns (the text before the first comma, the text after it),
so the name has no comma and name + "," + options = t; for every tag t that contains no
comma, parseTag(t) returns the empty name and empty options, not t, whereas ParseOptions
derives the flag name of the same tag as t without a leading "--": t itself only when t
does not start with "--". -/
theorem parseTag_first_comma (t : String) :
    (',' ∈ t.data ∧ ',' ∉ (parseTag t).1.data ∧ (parseTag t).1 ++ "," ++ (parseTag t).2 = t) ∨
    (',' ∉ t.data ∧ parseTag t = ("", "") ∧
      flagName t = if strings.HasPrefix t "--" then String.mk (t.data.drop 2) else t) := by
  have hidx := indexFrom_comma t.data 0
  by_cases h : ',' ∈ t.data
  · left
    simp only [h, if_true, Nat.zero_add] at hidx
    have hp : parseTag t = (String.mk (t.data.takeWhile (fun ch => ch != ',')),
        String.mk (t.data.drop ((t.data.takeWhile (fun ch => ch != ',')).length + 1))) := by
      unfold parseTag strings.Index
      have : (",".data : List Char) = [','] := rfl
      rw [this, hidx]
      simp only [take_takeWhile_length]
    refine ⟨h, ?_, ?_⟩
    · rw [hp]; exact takeWhile_no_comma _
    · rw [hp]
      apply String.ext
      simp only [String.data_append]
      simpa using split_at_comma t.data h
  · right
    simp only [h, if_false] at hidx
    refine ⟨h, ?_, ?_⟩
    · unfold parseTag strings.Index
      have : (",".data : List Char) = [','] := rfl
      rw [this, hidx]
    · unfold flagName strings.Split
      have h1 : (",".data : List Char) = [','] := rfl
      have h2 : ("--".data : List Char) = ['-', '-'] := rfl
      simp only [h1, reduceCtorEq, if_false, splitFrom_no_comma t.data [] h, List.nil_append,
        List.headD_cons, strings.TrimPrefix, h2, List.length_cons, List.length_nil]

/-- C23, counterexample: the tag "--force" contains no comma, parseTag returns the empty
name for it, and the flag name ParseOptions derives from it is "force", not the tag. -/
theorem flagName_not_tag :
    ',' ∉ "--force".data ∧ parseTag "--force" = ("", "") ∧ flagName "--force" = "force" ∧
      flagName "--force" ≠ "--force" := by
  decide

/-- The digit loop of ParseUint in base 10 proper reads a text of decimal digits as its
value. -/
theorem uintLoop_digits_base10 (s0 : List Char) (l : List Char) :
    ∀ acc : Nat, allDigits l → decVal l acc ≤ 18446744073709551615 →
      strconv.uintLoop s0 10 false (18446744073709551615 / 10 + 1) (2 ^ 64 - 1) l acc false =
        (decVal l acc, none) := by
  induction l with
  | nil => intro acc _ _; simp [strconv.uintLoop, decVal]
  | cons c l ih =>
    intro acc hd hb
    have hc := hd c (List.mem_cons_self _ _)
    have hl : allDigits l := fun x hx => hd x (List.mem_cons_of_mem _ hx)
    have hstep : decVal (c :: l) acc = decVal l (acc * 10 + (c.toNat - 48)) := rfl
    rw [hstep] at hb ⊢
    have hge := decVal_ge l (acc * 10 + (c.toNat - 48))
    rw [strconv.uintLoop]
    have h0 : ('0' : Char).toNat = 48 := rfl
    have h9 : ('9' : Char).toNat = 57 := rfl
    simp only [Bool.and_false, Bool.false_eq_true, if_false, h0, h9,
      hc.1, hc.2, decide_True, Bool.and_self, if_true]
    have h1 : ¬ (c.toNat - 48 ≥ 10) := by omega
    have h2 : ¬ (acc ≥ 18446744073709551615 / 10 + 1) := by omega
    have h3 : acc * 10 % 18446744073709551616 = acc * 10 := Nat.mod_eq_of_lt (by omega)
    have h4 : (acc * 10 + (c.toNat - 48)) % 18446744073709551616 = acc * 10 + (c.toNat - 48) :=
      Nat.mod_eq_of_lt (by omega)
    simp only [h1, h2, if_false, h3, h4]
    have h5 : ¬ (acc * 10 + (c.toNat - 48) < acc * 10) := by omega
    have h6 : ¬ (acc * 10 + (c.toNat - 48) > 2 ^ 64 - 1) := by
      have : (2 : Nat) ^ 64 - 1 = 18446744073709551615 := by norm_num
      omega
    simp only [h5, h6, decide_False, Bool.or_self, Bool.false_eq_true, if_false]
    exact ih _ hl hb

theorem wrap_small (z : Int) (h1 : -9223372036854775808 ≤ z) (h2 : z ≤ 9223372036854775807) :
    (GoInt.wrap z).val = z := by
  simp only [GoInt.wrap]
  omega

/-- The fast path of Atoi reads a text of decimal digits as its value. -/
theorem atoiLoop_digits (l : List Char) :
    ∀ acc : Nat, allDigits l → decVal l acc ≤ 9223372036854775807 →
      strconv.atoiLoop l (GoInt.wrap (acc : Int)) = some (GoInt.wrap ((decVal l acc : Nat) : Int)) := by
  induction l with
  | nil => intro acc _ _; rfl
  | cons c l ih =>
    intro acc hd hb
    have hc := hd c (List.mem_cons_self _ _)
    have hl : allDigits l := fun x hx => hd x (List.mem_cons_of_mem _ hx)
    have hstep : decVal (c :: l) acc = decVal l (acc * 10 + (c.toNat - 48)) := rfl
    rw [hstep] at hb ⊢
    have hge := decVal_ge l (acc * 10 + (c.toNat - 48))
    have h0 : ('0' : Char).toNat = 48 := rfl
    have h9 : ('9' : Char).toNat = 57 := rfl
    rw [strconv.atoiLoop]
    simp only [h0, h9, hc.1, hc.2, and_self, if_true]
    have hw : (GoInt.wrap (acc : Int)).val = (acc : Int) := wrap_small _ (by omega) (by omega)
    rw [hw]
    have hcast : (acc : Int) * 10 + ((c.toNat - 48 : Nat) : Int) =
        ((acc * 10 + (c.toNat - 48) : Nat) : Int) := by push_cast; rfl
    rw [hcast]
    exact ih _ hl hb

/-- Atoi reads a non-empty text of decimal digits, leading zeros included, as its value
when that is an int. -/
theorem Atoi_digits (d : List Char) (hne : d ≠ []) (hd : allDigits d)
    (hfit : decVal d 0 ≤ 9223372036854775807) :
    strconv.Atoi (String.mk d) = (GoInt.wrap ((decVal d 0 : Nat) : Int), none) := by
  cases d with
  | nil => exact absurd rfl hne
  | cons c0 tl =>
    have hc := hd c0 (List.mem_cons_self _ _)
    have hplus : c0 ≠ '+' := by
      intro h; rw [h] at hc; revert hc; decide
    have hminus : c0 ≠ '-' := by
      intro h; rw [h] at hc; revert hc; decide
    unfold strconv.Atoi
    split_ifs with hlen
    · have hloop := atoiLoop_digits (c0 :: tl) 0 hd hfit
      simp only [hplus, hminus, or_self, false_and, if_false]
      have h0 : ((0 : Nat) : Int) = 0 := rfl
      rw [h0] at hloop
      rw [hloop]
    · unfold strconv.ParseInt
      have hpu : strconv.ParseUint (String.mk (c0 :: tl)) 10 64 = (decVal (c0 :: tl) 0, none) := by
        unfold strconv.ParseUint
        simp only [reduceCtorEq, if_false, show (2 ≤ 10 && 10 ≤ 36) = true by decide, if_true,
          show ((10 : Nat) == 0) = false by decide]
        exact uintLoop_digits_base10 _ _ 0 hd (by omega)
      have hb : (c0 == '-') = false := by simpa using hminus
      have h1 : ¬ (decVal (c0 :: tl) 0 ≥ 2 ^ (64 - 1)) := by
        have : (2 : Nat) ^ (64 - 1) = 9223372036854775808 := by norm_num
        omega
      simp only [hplus, hminus, if_false, hpu, hb, reduceCtorEq, h1, decide_False,
        Bool.not_false, Bool.true_and, Bool.false_and, Bool.false_eq_true, Bool.and_false]

theorem decVal_zero_head (rest : List Char) : decVal ('0' :: rest) 0 = decVal rest 0 := rfl

/-- The loop StripZeros leaves a non-empty text of digits of the same value. -/
theorem stripZeros_digits (mod : List Char) (hmne : mod ≠ []) (hm : allDigits mod) :
    ∀ rest : List Char, allDigits rest → decVal rest 0 = decVal mod 0 →
      generator.stripZeros mod rest ≠ [] ∧ allDigits (generator.stripZeros mod rest) ∧
        decVal (generator.stripZeros mod rest) 0 = decVal mod 0
  | [], _, _ => ⟨hmne, hm, rfl⟩
  | r :: rest, hr, hv => by
    unfold generator.stripZeros
    by_cases h : r = '0'
    · subst h
      simp only [ne_eq, not_true_eq_false, if_false]
      exact stripZeros_digits mod hmne hm rest (fun x hx => hr x (List.mem_cons_of_mem _ hx))
        ((decVal_zero_head rest).symm.trans hv)
    · simp only [ne_eq, h, not_false_eq_true, if_true]
      exact ⟨by simp, hr, hv⟩

/-- The number of a module file name with a decimal number that is an int. -/
theorem checkNameModule_digits (d : List Char) (hne : d ≠ []) (hd : allDigits d)
    (hfit : decVal d 0 ≤ 9223372036854775807) :
    generator.checkNameModule ("module_" ++ String.mk d ++ ".c") =
      Outcome.returned (GoInt.wrap ((decVal d 0 : Nat) : Int), none) := by
  have hdata : ("module_" ++ String.mk d ++ ".c").data =
      'm' :: 'o' :: 'd' :: 'u' :: 'l' :: 'e' :: '_' :: (d ++ ['.', 'c']) := rfl
  have hpre : strings.HasPrefix ("module_" ++ String.mk d ++ ".c") "module_" = true := by
    unfold strings.HasPrefix
    rw [hdata]
    simp [List.isPrefixOf]
  have hlen : ("module_" ++ String.mk d ++ ".c").data.length = d.length + 9 := by
    rw [hdata]; simp
  have hmod : (("module_" ++ String.mk d ++ ".c").data.take
      (("module_" ++ String.mk d ++ ".c").data.length - 2)).drop 7 = d := by
    rw [hlen, hdata]
    have : d.length + 9 - 2 = d.length + 7 := by omega
    rw [this]
    simp [List.take_append_eq_append_take]
  unfold generator.checkNameModule
  have hlt : ¬ (("module_" ++ String.mk d ++ ".c").data.length - 2 < 7) := by
    rw [hlen]; omega
  simp only [hpre, Bool.not_true, Bool.false_eq_true, if_false, hlt, hmod]
  split_ifs with h5
  · rw [h5]; rfl
  · obtain ⟨h1, h2, h3⟩ := stripZeros_digits d hne hd d hd rfl
    rw [Atoi_digits _ h1 h2 (by rw [h3]; exact hfit), h3]
    rfl

/-- C22 (amended). Function checkNameModule maps a module file name to its number: for
every name of the form "module_" + d + ".c" where d is a non-empty string of decimal digits
whose value is an int (at most 9223372036854775807), checkNameModule returns the integer
that d denotes in base 10 with leading zeros ignored (0 for "module_00000.c", 1000 for
"module_01000.c") and a nil error; for every name that does not start with "module_" it
returns a non-nil error. -/
theorem checkNameModule_number (d : List Char) (name : String) :
    (d ≠ [] → allDigits d → decVal d 0 ≤ 9223372036854775807 →
      generator.checkNameModule ("module_" ++ String.mk d ++ ".c") =
        Outcome.returned (GoInt.wrap ((decVal d 0 : Nat) : Int), none)) ∧
    (strings.HasPrefix name "module_" = false →
      ∃ e, generator.checkNameModule name = Outcome.returned (GoInt.wrap 0, some e)) := by
  refine ⟨checkNameModule_digits d, ?_⟩
  intro h
  unfold generator.checkNameModule
  simp only [h, Bool.not_false, if_true]
  exact ⟨_, rfl⟩

set_option maxRecDepth 100000 in
/-- C22, witness: "module_01000.c" has the number 1000, "module_00000.c" the number 0, and
"hashes.c" is no module. -/
theorem checkNameModule_number_witness :
    (decVal "01000".data 0 = 1000 ∧
      generator.checkNameModule ("module_" ++ String.mk "01000".data ++ ".c") =
        Outcome.returned (GoInt.wrap ((decVal "01000".data 0 : Nat) : Int), none)) ∧
    (decVal "00000".data 0 = 0 ∧
      generator.checkNameModule ("module_" ++ String.mk "00000".data ++ ".c") =
        Outcome.returned (GoInt.wrap ((decVal "00000".data 0 : Nat) : Int), none)) ∧
    (strings.HasPrefix "hashes.c" "module_" = false ∧
      ∃ e, generator.checkNameModule "hashes.c" = Outcome.returned (GoInt.wrap 0, some e)) :=
  ⟨⟨by decide, (checkNameModule_number "01000".data "").1 (by decide)
      (by unfold allDigits; decide) (by decide)⟩,
    ⟨by decide, (checkNameModule_number "00000".data "").1 (by decide)
      (by unfold allDigits; decide) (by decide)⟩,
    ⟨by decide, (checkNameModule_number [] "hashes.c").2 (by decide)⟩⟩

set_option maxRecDepth 100000 in
/-- C22, counterexample: the digits 9223372036854775808 denote a number that is no int;
checkNameModule returns 9223372036854775807 for "module_9223372036854775808.c", with the
range error of Atoi. -/
theorem checkNameModule_out_of_range :
    decVal "9223372036854775808".data 0 = 9223372036854775808 ∧
    generator.checkNameModule "module_9223372036854775808.c" =
      Outcome.returned (GoInt.wrap 9223372036854775807,
        some (generator.ModuleError.atoi strconv.NumError.ErrRange)) := by
  decide!

open flag

theorem fieldsFrom_append_space : ∀ (a cur b : List Char),
    strings.fieldsFrom (a ++ ' ' :: b) cur = strings.fieldsFrom a cur ++ strings.fieldsFrom b []
  | [], cur, b => by
    have hspace : unicode.IsSpace ' ' = true := by decide
    simp only [List.nil_append, strings.fieldsFrom, hspace, if_true]
    split_ifs <;> simp
  | c :: a, cur, b => by
    simp only [List.cons_append, strings.fieldsFrom]
    by_cases hc : unicode.IsSpace c = true
    · simp only [hc, if_true]
      split_ifs
      · exact fieldsFrom_append_space a [] b
      · exact congrArg (List.cons (String.mk cur)) (fieldsFrom_append_space a [] b)
    · simp only [hc, if_false]
      exact fieldsFrom_append_space a (cur ++ [c]) b

/-- The tokens of two lines joined with a space are the tokens of the first and then the
tokens of the second. -/
theorem Fields_append (L R : String) :
    strings.Fields (L ++ " " ++ R) = strings.Fields L ++ strings.Fields R := by
  unfold strings.Fields
  have hdata : (L ++ " " ++ R).data = L.data ++ ' ' :: R.data := by
    simp [String.data_append]
  rw [hdata, fieldsFrom_append_space]

/-- The second half of parseOne, when it reports no error, does the same with more
arguments after its own. -/
theorem parseFlag_append (f : FlagSet) (body : List Char) (B : List String)
    (h : (f.parseFlag body).2.2 = none) :
    FlagSet.parseFlag { f with args := f.args ++ B } body =
      ({ (f.parseFlag body).1 with args := (f.parseFlag body).1.args ++ B },
        (f.parseFlag body).2) := by
  have hlk : FlagSet.lookup { f with args := f.args ++ B }
      (String.mk (splitNameValue body).1) = f.lookup (String.mk (splitNameValue body).1) := rfl
  unfold FlagSet.parseFlag at h ⊢
  dsimp only at h ⊢
  rw [hlk]
  cases hl : f.lookup (String.mk (splitNameValue body).1) with
  | none =>
    rw [hl] at h
    simp only at h
    split_ifs at h
  | some fv =>
    rw [hl] at h
    simp only at h ⊢
    cases hb : fv.IsBoolFlag with
    | true =>
      simp only [hb, if_true] at h ⊢
      generalize fv.Set (if (splitNameValue body).2.1 = true then
        String.mk (splitNameValue body).2.2 else "true") = r at h ⊢
      obtain ⟨r1, r2⟩ := r
      cases r2 with
      | some e => simp at h
      | none => rfl
    | false =>
      simp only [hb, Bool.false_eq_true, if_false] at h ⊢
      cases hv : (splitNameValue body).2.1 with
      | true =>
        simp only [hv] at h ⊢
        generalize fv.Set (String.mk (splitNameValue body).2.2) = r at h ⊢
        obtain ⟨r1, r2⟩ := r
        cases r2 with
        | some e => simp at h
        | none => rfl
      | false =>
        simp only [hv] at h ⊢
        cases ha : f.args with
        | nil =>
          rw [ha] at h
          simp at h
        | cons next rest1 =>
          rw [ha] at h
          simp only [List.cons_append] at h ⊢
          generalize fv.Set next = r at h ⊢
          obtain ⟨r1, r2⟩ := r
          cases r2 with
          | some e => simp at h
          | none => rfl

theorem parseFlag_seen_err (f : FlagSet) (body : List Char)
    (h : (f.parseFlag body).2.1 = true) : (f.parseFlag body).2.2 = none := by
  revert h
  unfold FlagSet.parseFlag
  dsimp only
  repeat' split
  all_goals simp

theorem parseOne_seen_err (f : FlagSet) (h : f.parseOne.2.1 = true) :
    f.parseOne.2.2 = none := by
  revert h
  unfold FlagSet.parseOne
  dsimp only
  repeat' split
  all_goals first
    | simp
    | exact parseFlag_seen_err _ _

/-- A round of the parser that reports no error does the same with more arguments after its
own, when the first of them is no flag. -/
theorem parseOne_append (f : FlagSet) (B : List String)
    (hB : ∀ tok rest, B = tok :: rest → tok.data.head? ≠ some '-')
    (h : f.parseOne.2.2 = none) :
    FlagSet.parseOne { f with args := f.args ++ B } =
      ({ f.parseOne.1 with args := f.parseOne.1.args ++ B }, f.parseOne.2) := by
  cases ha : f.args with
  | nil =>
    rw [parseOne_nil f ha]
    simp only [ha, List.nil_append]
    cases B with
    | nil => exact parseOne_nil _ rfl
    | cons tok rest => exact parseOne_nonflag _ tok rest rfl (hB tok rest rfl)
  | cons s rest =>
    revert h
    unfold FlagSet.parseOne
    simp only [ha, List.cons_append]
    split
    · intro _; simp [ha]
    · intro _; simp [ha]
    · rename_i c0 c1 tl hs
      split
      · intro _; simp [ha]
      · split
        · intro _; rfl
        · generalize (if c1 = '-' then tl else c1 :: tl) = body
          split
          · intro h; simp at h
          · intro h
            exact parseFlag_append { f with args := rest } body B h

/-- The loop of Parse, when it ends without error, does the same with more arguments after
its own, when the first of them is no flag. -/
theorem parseLoop_append (B : List String)
    (hB : ∀ tok rest, B = tok :: rest → tok.data.head? ≠ some '-') :
    ∀ (fuel : Nat) (f : FlagSet), (FlagSet.parseLoop fuel f).2 = none →
      FlagSet.parseLoop fuel { f with args := f.args ++ B } =
        ({ (FlagSet.parseLoop fuel f).1 with
            args := (FlagSet.parseLoop fuel f).1.args ++ B }, none)
  | 0, f, h => by simp [FlagSet.parseLoop] at h
  | fuel + 1, f, h => by
    have hone := parseOne_append f B hB
    have hseen := parseOne_seen_err f
    cases hp : f.parseOne with
    | mk f1 r =>
      obtain ⟨seen, e⟩ := r
      rw [hp] at hone hseen
      cases seen with
      | true =>
        have he : e = none := hseen rfl
        subst he
        rw [parseLoop_seen fuel f f1 none hp] at h ⊢
        rw [parseLoop_seen fuel _ _ none (hone rfl)]
        exact parseLoop_append B hB fuel f1 h
      | false =>
        cases e with
        | some err =>
          rw [parseLoop_error fuel f f1 err hp] at h
          simp at h
        | none =>
          rw [parseLoop_stop fuel f f1 hp]
          exact parseLoop_stop fuel _ _ (hone rfl)

/-- Method Parse, when it ends without error, does the same with more arguments after its
own, when the first of them is no flag. -/
theorem Parse_append (f : FlagSet) (A B : List String)
    (hB : ∀ tok rest, B = tok :: rest → tok.data.head? ≠ some '-')
    (h : (f.Parse A).2 = none) :
    f.Parse (A ++ B) = ({ (f.Parse A).1 with args := (f.Parse A).1.args ++ B }, none) := by
  unfold FlagSet.Parse at h ⊢
  have hfuel : FlagSet.parseLoop (A.length + 1) { f with args := A } =
      FlagSet.parseLoop ((A ++ B).length + 1) { f with args := A } :=
    parseLoop_fuel _ _ _ (by simp) (by simp; omega)
  rw [hfuel] at h ⊢
  exact parseLoop_append B hB _ { f with args := A } h

theorem fieldAfterParse_args (F : FlagSet) (a : List String) (g : StructField) :
    fieldAfterParse { F with args := a } g = fieldAfterParse F g := rfl

theorem options_ext (c d : HashcatSessionOptions) (h : c.values = d.values) : c = d := by
  cases c; cases d; simp only at h; subst h; rfl

/-- A continuation whose first token is no flag does not change what ParseOptions returns
for an accepted line. -/
theorem rest_ignored (L R : String) (c : HashcatSessionOptions)
    (hacc : ParseOptions L = Outcome.returned (some c, none))
    (hR : startsPositional R = true) :
    ParseOptions (L ++ " " ++ R) = Outcome.returned (some c, none) := by
  have hB : ∀ tok rest, strings.Fields R = tok :: rest → tok.data.head? ≠ some '-' := by
    intro tok rest he
    unfold startsPositional at hR
    rw [he] at hR
    simpa using hR
  rcases ParseOptions_cases L with ⟨e, _, he⟩ | ⟨c1, hnone, hc1, hv1⟩
  · rw [he] at hacc; simp at hacc
  · rw [hc1] at hacc
    have hcc : c1 = c := by simpa using hacc
    subst hcc
    have hparse := Parse_append initialFlagSet (strings.Fields L) (strings.Fields R) hB hnone
    rw [← Fields_append] at hparse
    rcases ParseOptions_cases (L ++ " " ++ R) with ⟨e, he, _⟩ | ⟨c2, _, hc2, hv2⟩
    · rw [hparse] at he; simp at he
    · rw [hc2]
      have : c2 = c1 := by
        apply options_ext
        rw [hv2, hv1, hparse]
        rfl
      rw [this]

theorem InputFile_empty (L : String) (c : HashcatSessionOptions)
    (hacc : ParseOptions L = Outcome.returned (some c, none)) :
    c.values[76]? = some (Value.string "") := by
  rcases ParseOptions_cases L with ⟨e, _, he⟩ | ⟨c1, _, hc1, hv1⟩
  · rw [he] at hacc; simp at hacc
  · rw [hc1] at hacc
    have hcc : c1 = c := by simpa using hacc
    subst hcc
    rw [hv1, List.getElem?_map, optionFields_76]
    exact congrArg some (fieldAfterParse_InputFile _)

/-- C21. Everything after the first positional token is ignored by the parser: for every
line L that ParseOptions accepts, with the configuration c, and every continuation R whose
first token does not start with '-', ParseOptions(L + " " + R) is also accepted and returns
the same configuration c, equal on every field, whatever the tokens of R are; and
InputFile (the field at index 76) is empty in c, the result of an accepted parse. -/
theorem ParseOptions_rest_ignored (L R : String) (c : HashcatSessionOptions)
    (hacc : ParseOptions L = Outcome.returned (some c, none))
    (hR : startsPositional R = true) :
    ParseOptions (L ++ " " ++ R) = Outcome.returned (some c, none) ∧
      optionFields[76]? = some (StructField.mk "InputFile" "," GoType.string) ∧
      c.values[76]? = some (Value.string "") :=
  ⟨rest_ignored L R c hacc hR, optionFields_76, InputFile_empty L c hacc⟩

set_option maxRecDepth 100000 in
/-- C21, witness: the accepted line "--hash-type=5" continued with "hashes.txt --force
--bogus=1 --attack-mode=x", where a known, an unknown and a malformed switch follow the
positional token. -/
theorem ParseOptions_rest_ignored_witness :
    ParseOptions "--hash-type=5" = Outcome.returned (some optionsParsedHashType5, none) ∧
    startsPositional "hashes.txt --force --bogus=1 --attack-mode=x" = true ∧
    ParseOptions ("--hash-type=5" ++ " " ++ "hashes.txt --force --bogus=1 --attack-mode=x") =
      Outcome.returned (some optionsParsedHashType5, none) ∧
    optionFields[76]? = some (StructField.mk "InputFile" "," GoType.string) ∧
    optionsParsedHashType5.values[76]? = some (Value.string "") :=
  ⟨by decide!, by decide!,
    ParseOptions_rest_ignored "--hash-type=5" "hashes.txt --force --bogus=1 --attack-mode=x"
      optionsParsedHashType5 (by decide!) (by decide!)⟩

end hcargp
